import Mathlib

/-!
# The SPI driver of `mbed-os/drivers/SPI.cpp`

A shallow embedding of the `MbedSPI` driver: the bus owner arbiter (`aquire`),
the mutual-exclusion gate (`lock` / `unlock`), the transaction queue and the
asynchronous transfer engine (`transfer`, `queue_transfer`, `start_transfer`,
`dequeue_transaction`, `irq_handler_asynch`).

All driver instances share one physical bus.  The static members of the class
(`_owner`, `_mutex`, `_transaction_buffer`) and the state of the peripheral
live in one `State`; the members of each instance are found under its handle.
Every call that leaves the driver (HAL call, gate, critical section, queue
mutation, user callback) is appended to `State.trace`, together with the bus
activity and the nesting depths at the moment it was issued.
-/

namespace mbed

/-! ## Data model -/

/-- Identity of one driver instance, the `this` pointer of the source. -/
abbrev Handle := Nat

/-- The type `event_callback_t`: `none` is the null callback (it tests false),
`some c` is the user callable with identity `c`. -/
abbrev event_callback_t := Option Nat

/-- The type `DMAUsage` of the HAL, an enumeration whose values are kept as numbers. -/
abbrev DMAUsage := Nat

/-- The enumerator `DMA_USAGE_NEVER`, the hint every instance is constructed with. -/
def DMA_USAGE_NEVER : DMAUsage := 0

/-- The record `transaction_t` filled in by `queue_transfer`. Buffers are addresses. -/
structure transaction_t where
  tx_buffer : Nat
  tx_length : Int
  rx_buffer : Nat
  rx_length : Int
  event : Int
  callback : event_callback_t
  width : Nat
deriving DecidableEq, Repr

/-- The pair `Transaction<MbedSPI>`: the submitting instance (`get_object`) and
the request (`get_transaction`). -/
structure Transaction where
  obj : Handle
  data : transaction_t
deriving DecidableEq, Repr

/-- Build-time constants and the device behind the bus. None of them is defined
in the driver source, so they are parameters of the embedding.
`TRANSACTION_QUEUE_SIZE_SPI` is the queue capacity (0 compiles the queue out),
`SPI_EVENT_ALL` and `SPI_EVENT_INTERNAL_TRANSFER_COMPLETE` are the event sets
tested by the completion handler, `exchange` is the word the device shifts in
for a word shifted out by a blocking write. -/
structure Platform where
  TRANSACTION_QUEUE_SIZE_SPI : Nat
  SPI_EVENT_ALL : Nat
  SPI_EVENT_INTERNAL_TRANSFER_COMPLETE : Nat
  exchange : Int → Int

/-- Every call the driver makes to something outside itself. -/
inductive Call where
  | spi_init (h : Handle)
  | spi_format (h : Handle) (bits mode slave : Int)
  | spi_frequency (h : Handle) (hz : Int)
  | spi_master_write (h : Handle) (value : Int)
  | spi_master_transfer (h : Handle) (tx_buffer : Nat) (tx_length : Int) (rx_buffer : Nat)
      (rx_length : Int) (bit_width : Nat) (event : Int) (hint : DMAUsage)
  | spi_abort_asynch (h : Handle)
  | spi_irq_handler_asynch (h : Handle) (event : Nat)
  | mutex_lock
  | mutex_unlock
  | core_util_critical_section_enter
  | core_util_critical_section_exit
  | push (t : Transaction)
  | pop (t : Transaction)
  | reset
  | callback (h : Handle) (cb : Nat) (event : Nat)
deriving DecidableEq, Repr

/-- One entry of the trace: the call, and the context it was issued in
(`busy`: the bus was transferring, `depth`: nesting depth of the gate,
`crit`: nesting depth of the critical section). -/
structure Event where
  call : Call
  busy : Bool
  depth : Nat
  crit : Nat
deriving DecidableEq, Repr

/-- The non-static data members of one `MbedSPI` instance. `irq` tells whether
the thunk `_irq` is bound to `irq_handler_asynch`. -/
structure MbedSPI where
  bits : Int
  mode : Int
  hz : Int
  usage : DMAUsage
  callback : event_callback_t
  irq : Bool
deriving DecidableEq, Repr

/-- The physical bus: whether an asynchronous transfer is in flight, and the
format and clock registers. -/
structure Hw where
  active : Bool
  bits : Int
  mode : Int
  slave : Int
  hz : Int
deriving DecidableEq, Repr

/-- The whole driver state: the instances, the static members `_owner` and
`_transaction_buffer`, the peripheral, the nesting depth of `_mutex` and of the
critical section, and the trace of calls issued so far. -/
@[ext]
structure State where
  obj : Handle → MbedSPI
  owner : Option Handle
  queue : List Transaction
  hw : Hw
  depth : Nat
  crit : Nat
  trace : List Event

/-- Append a call to the trace, stamped with the current context. -/
def emit (c : Call) (s : State) : State :=
  { s with trace := s.trace ++ [⟨c, s.hw.active, s.depth, s.crit⟩] }

/-- Replace the members of instance `h`. -/
def setObj (h : Handle) (o : MbedSPI) (s : State) : State :=
  { s with obj := Function.update s.obj h o }

/-! ## The hardware capability surface -/

/-- Modelled from the spec: `spi_init` of the HAL (`init(pins...) -> handle`); it
binds the instance to the bus and has no effect on the registers modelled here. -/
def spi_init (h : Handle) (s : State) : State :=
  emit (.spi_init h) s

/-- Modelled from the spec: `spi_format` of the HAL
(`configure(handle, wordWidth, mode, flags)`) programs the format registers. -/
def spi_format (h : Handle) (bits mode slave : Int) (s : State) : State :=
  let s := emit (.spi_format h bits mode slave) s
  { s with hw := { s.hw with bits := bits, mode := mode, slave := slave } }

/-- Modelled from the spec: `spi_frequency` of the HAL (`setClockRate(handle, hz)`)
programs the clock register. -/
def spi_frequency (h : Handle) (hz : Int) (s : State) : State :=
  let s := emit (.spi_frequency h hz) s
  { s with hw := { s.hw with hz := hz } }

/-- Modelled from the spec: `spi_master_write` of the HAL
(`blockingExchange(handle, outWord) -> inWord`). -/
def spi_master_write (P : Platform) (h : Handle) (value : Int) (s : State) : Int × State :=
  (P.exchange value, emit (.spi_master_write h value) s)

/-- Modelled from the spec: `spi_active` of the HAL (`isActive(handle) -> bool`):
the instances share one bus, so the answer is the same for every handle. -/
def spi_active (_h : Handle) (s : State) : Bool :=
  s.hw.active

/-- Modelled from the spec: `spi_master_transfer` of the HAL (`startAsyncTransfer`):
a hardware start makes the bus active. The handler argument `_irq.entry()` is
the thunk of `h` and is not recorded separately. -/
def spi_master_transfer (h : Handle) (tx_buffer : Nat) (tx_length : Int) (rx_buffer : Nat)
    (rx_length : Int) (bit_width : Nat) (event : Int) (hint : DMAUsage) (s : State) : State :=
  let s := emit (.spi_master_transfer h tx_buffer tx_length rx_buffer rx_length bit_width event hint) s
  { s with hw := { s.hw with active := true } }

/-- Modelled from the spec: `spi_abort_asynch` of the HAL (`abortAsync`): the
in-flight transfer is cancelled, the bus is idle afterwards. -/
def spi_abort_asynch (h : Handle) (s : State) : State :=
  let s := emit (.spi_abort_asynch h) s
  { s with hw := { s.hw with active := false } }

/-- The decoded mask says the bus is free: it meets `SPI_EVENT_ALL` or
`SPI_EVENT_INTERNAL_TRANSFER_COMPLETE` (the test of the completion handler). -/
def busFree (P : Platform) (event : Nat) : Bool :=
  event &&& (P.SPI_EVENT_ALL ||| P.SPI_EVENT_INTERNAL_TRANSFER_COMPLETE) != 0

/-- Modelled from the spec: `spi_irq_handler_asynch` of the HAL
(`decodeInterruptEvents`). `event` is the mask the hardware reports (a bit set);
a completion event leaves the bus idle. -/
def spi_irq_handler_asynch (P : Platform) (h : Handle) (event : Nat) (s : State) : Nat × State :=
  let s := emit (.spi_irq_handler_asynch h event) s
  (event, if busFree P event then { s with hw := { s.hw with active := false } } else s)

/-- Modelled from the spec: `core_util_critical_section_enter` of the platform layer,
the short non-blocking critical section; it nests. -/
def core_util_critical_section_enter (s : State) : State :=
  let s := emit .core_util_critical_section_enter s
  { s with crit := s.crit + 1 }

/-- Modelled from the spec: `core_util_critical_section_exit` of the platform layer. -/
def core_util_critical_section_exit (s : State) : State :=
  let s := emit .core_util_critical_section_exit s
  { s with crit := s.crit - 1 }

/-! ## The transaction queue (`CircularBuffer`) -/

/-- Modelled from the spec: `CircularBuffer::full`. The class template is not
part of the driver source; the spec gives a bounded FIFO whose capacity is
fixed at configuration time and that is full at capacity. -/
def CircularBuffer.full (P : Platform) (q : List Transaction) : Bool :=
  decide (P.TRANSACTION_QUEUE_SIZE_SPI ≤ q.length)

/-- Modelled from the spec: `CircularBuffer::push`: with spare capacity the
request is appended preserving FIFO order; a push on a full queue does not
mutate the queue. -/
def CircularBuffer.push (P : Platform) (q : List Transaction) (t : Transaction) :
    List Transaction :=
  if CircularBuffer.full P q then q else q ++ [t]

/-- Modelled from the spec: `CircularBuffer::pop`: removes and hands out the
oldest request, or reports that there is none. -/
def CircularBuffer.pop (q : List Transaction) : Option (Transaction × List Transaction) :=
  match q with
  | [] => none
  | t :: rest => some (t, rest)

/-- Modelled from the spec: `CircularBuffer::reset` clears all pending requests. -/
def CircularBuffer.reset (_q : List Transaction) : List Transaction :=
  []

/-! ## The driver -/

/-- The method `MbedSPI::lock`: `_mutex->lock()`. -/
def lock (s : State) : State :=
  let s := emit .mutex_lock s
  { s with depth := s.depth + 1 }

/-- The method `MbedSPI::unlock`: `_mutex->unlock()`. -/
def unlock (s : State) : State :=
  let s := emit .mutex_unlock s
  { s with depth := s.depth - 1 }

/-- The method `MbedSPI::aquire`. -/
def aquire (h : Handle) (s : State) : State :=
  let s := lock s
  let s :=
    if s.owner ≠ some h then
      let s := spi_format h (s.obj h).bits (s.obj h).mode 0 s
      let s := spi_frequency h (s.obj h).hz s
      { s with owner := some h }
    else s
  unlock s

/-- The constructor `MbedSPI::MbedSPI`. -/
def MbedSPI.ctor (h : Handle) (s : State) : State :=
  let s := setObj h ⟨8, 0, 1000000, DMA_USAGE_NEVER, none, false⟩ s
  let s := spi_init h s
  aquire h s

/-- The method `MbedSPI::format`. -/
def format (h : Handle) (bits mode : Int) (s : State) : State :=
  let s := lock s
  let s := setObj h { s.obj h with bits := bits, mode := mode } s
  let s := { s with owner := none }
  let s := aquire h s
  unlock s

/-- The method `MbedSPI::frequency`. -/
def frequency (h : Handle) (hz : Int) (s : State) : State :=
  let s := lock s
  let s := setObj h { s.obj h with hz := hz } s
  let s := { s with owner := none }
  let s := aquire h s
  unlock s

/-- The method `MbedSPI::write`. -/
def write (P : Platform) (h : Handle) (value : Int) (s : State) : Int × State :=
  let s := lock s
  let s := aquire h s
  let (ret, s) := spi_master_write P h value s
  let s := unlock s
  (ret, s)

/-- The method `MbedSPI::start_transfer`. -/
def start_transfer (h : Handle) (tx_buffer : Nat) (tx_length : Int) (rx_buffer : Nat)
    (rx_length : Int) (bit_width : Nat) (callback : event_callback_t) (event : Int)
    (s : State) : State :=
  let s := aquire h s
  let s := setObj h { s.obj h with callback := callback } s
  let s := setObj h { s.obj h with irq := true } s
  spi_master_transfer h tx_buffer tx_length rx_buffer rx_length bit_width event (s.obj h).usage s

/-- The method `MbedSPI::start_transaction`. -/
def start_transaction (h : Handle) (data : transaction_t) (s : State) : State :=
  start_transfer h data.tx_buffer data.tx_length data.rx_buffer data.rx_length data.width
    data.callback data.event s

/-- The method `MbedSPI::dequeue_transaction`. -/
def dequeue_transaction (_h : Handle) (s : State) : State :=
  match CircularBuffer.pop s.queue with
  | some (t, rest) =>
    let s := emit (.pop t) { s with queue := rest }
    start_transaction t.obj t.data s
  | none => s

/-- The method `MbedSPI::queue_transfer`. -/
def queue_transfer (P : Platform) (h : Handle) (tx_buffer : Nat) (tx_length : Int)
    (rx_buffer : Nat) (rx_length : Int) (bit_width : Nat) (callback : event_callback_t)
    (event : Int) (s : State) : Int × State :=
  if P.TRANSACTION_QUEUE_SIZE_SPI ≠ 0 then
    let t : transaction_t :=
      { tx_buffer := tx_buffer, tx_length := tx_length, rx_buffer := rx_buffer,
        rx_length := rx_length, event := event, callback := callback, width := bit_width }
    let transaction : Transaction := ⟨h, t⟩
    if CircularBuffer.full P s.queue then
      (-1, s)
    else
      let s := core_util_critical_section_enter s
      let s := emit (.push transaction) { s with queue := CircularBuffer.push P s.queue transaction }
      let s := if !spi_active h s then dequeue_transaction h s else s
      let s := core_util_critical_section_exit s
      (0, s)
  else
    (-1, s)

/-- The method `MbedSPI::transfer`. -/
def transfer (P : Platform) (h : Handle) (tx_buffer : Nat) (tx_length : Int)
    (rx_buffer : Nat) (rx_length : Int) (bit_width : Nat) (callback : event_callback_t)
    (event : Int) (s : State) : Int × State :=
  if spi_active h s then
    queue_transfer P h tx_buffer tx_length rx_buffer rx_length bit_width callback event s
  else
    (0, start_transfer h tx_buffer tx_length rx_buffer rx_length bit_width callback event s)

/-- The method `MbedSPI::abort_transfer`. -/
def abort_transfer (P : Platform) (h : Handle) (s : State) : State :=
  let s := spi_abort_asynch h s
  if P.TRANSACTION_QUEUE_SIZE_SPI ≠ 0 then dequeue_transaction h s else s

/-- The method `MbedSPI::clear_transfer_buffer`. -/
def clear_transfer_buffer (P : Platform) (_h : Handle) (s : State) : State :=
  if P.TRANSACTION_QUEUE_SIZE_SPI ≠ 0 then
    emit .reset { s with queue := CircularBuffer.reset s.queue }
  else s

/-- The method `MbedSPI::abort_all_transfers`. -/
def abort_all_transfers (P : Platform) (h : Handle) (s : State) : State :=
  let s := clear_transfer_buffer P h s
  abort_transfer P h s

/-- The method `MbedSPI::set_dma_usage`. -/
def set_dma_usage (h : Handle) (usage : DMAUsage) (s : State) : Int × State :=
  if spi_active h s then
    (-1, s)
  else
    (0, setObj h { s.obj h with usage := usage } s)

/-- The method `MbedSPI::irq_handler_asynch`. `pending` is the mask the hardware
decode returns; `user c e` is what running the user callable `c` with argument
`e` does to the driver state (the identity for a callback that does not call
back into the driver). -/
def irq_handler_asynch (P : Platform) (user : Nat → Nat → State → State) (h : Handle)
    (pending : Nat) (s : State) : State :=
  let (event, s) := spi_irq_handler_asynch P h pending s
  let s :=
    match (s.obj h).callback with
    | some c =>
      if event &&& P.SPI_EVENT_ALL ≠ 0 then
        user c (event &&& P.SPI_EVENT_ALL) (emit (.callback h c (event &&& P.SPI_EVENT_ALL)) s)
      else s
    | none => s
  if P.TRANSACTION_QUEUE_SIZE_SPI ≠ 0 then
    if event &&& (P.SPI_EVENT_ALL ||| P.SPI_EVENT_INTERNAL_TRANSFER_COMPLETE) ≠ 0 then
      dequeue_transaction h s
    else s
  else s

/-! ## Sequences of driver calls -/

/-- One call into the driver: a public method on a handle, or the completion
interrupt of a handle together with the mask the hardware reports. -/
inductive Op where
  | ctor (h : Handle)
  | format (h : Handle) (bits mode : Int)
  | frequency (h : Handle) (hz : Int)
  | write (h : Handle) (value : Int)
  | transfer (h : Handle) (t : transaction_t)
  | abort_transfer (h : Handle)
  | clear_transfer_buffer (h : Handle)
  | abort_all_transfers (h : Handle)
  | set_dma_usage (h : Handle) (usage : DMAUsage)
  | irq (h : Handle) (pending : Nat)
deriving DecidableEq, Repr

/-- The call `transfer` on the handle and with the arguments of a request record. -/
def transferOf (P : Platform) (r : Transaction) (s : State) : Int × State :=
  transfer P r.obj r.data.tx_buffer r.data.tx_length r.data.rx_buffer r.data.rx_length
    r.data.width r.data.callback r.data.event s

/-- Run one call. Return values are dropped. -/
def step (P : Platform) (user : Nat → Nat → State → State) (o : Op) (s : State) : State :=
  match o with
  | .ctor h => MbedSPI.ctor h s
  | .format h bits mode => format h bits mode s
  | .frequency h hz => frequency h hz s
  | .write h value => (write P h value s).2
  | .transfer h t => (transferOf P ⟨h, t⟩ s).2
  | .abort_transfer h => abort_transfer P h s
  | .clear_transfer_buffer h => clear_transfer_buffer P h s
  | .abort_all_transfers h => abort_all_transfers P h s
  | .set_dma_usage h usage => (set_dma_usage h usage s).2
  | .irq h pending => irq_handler_asynch P user h pending s

/-- Run a sequence of calls, first to last. -/
def run (P : Platform) (user : Nat → Nat → State → State) (ops : List Op) (s : State) : State :=
  ops.foldl (fun acc o => step P user o acc) s

/-- A user callback that does not call back into the driver. -/
def quiet : Nat → Nat → State → State :=
  fun _ _ s => s

/-- The state before any instance is constructed: nobody owns the bus, the
queue is empty, the bus is idle, nothing is locked, nothing has been issued. -/
def State.boot : State :=
  { obj := fun _ => ⟨0, 0, 0, DMA_USAGE_NEVER, none, false⟩
    owner := none
    queue := []
    hw := ⟨false, 0, 0, 0, 0⟩
    depth := 0
    crit := 0
    trace := [] }

/-- A platform with a queue of two entries and the event sets of the mbed HAL. -/
def demoPlatform : Platform :=
  { TRANSACTION_QUEUE_SIZE_SPI := 2
    SPI_EVENT_ALL := 14
    SPI_EVENT_INTERNAL_TRANSFER_COMPLETE := 1073741824
    exchange := fun v => v + 1 }

/-- A first request, submitted on handle 0. -/
def reqA : transaction_t :=
  ⟨100, 4, 200, 4, 4, some 7, 8⟩

/-- A second request, submitted on handle 1. -/
def reqB : transaction_t :=
  ⟨300, 2, 400, 2, 4, some 9, 16⟩

/-- A third request, submitted on handle 1. -/
def reqC : transaction_t :=
  ⟨500, 1, 600, 1, 6, none, 8⟩

/-- Two instances, the transfer of handle 0 in flight, two requests of handle 1
queued behind it. -/
def demoBusy : State :=
  run demoPlatform quiet
    [.ctor 0, .ctor 1, .transfer 0 reqA, .transfer 1 reqB, .transfer 1 reqC] State.boot

/-! ## Reading the trace -/

/-- The call is a hardware start. -/
def Call.isStart : Call → Bool
  | .spi_master_transfer .. => true
  | _ => false

/-- The call is a hardware abort. -/
def Call.isAbort : Call → Bool
  | .spi_abort_asynch _ => true
  | _ => false

/-- The call mutates the transaction queue. -/
def Call.isQueueOp : Call → Bool
  | .push _ => true
  | .pop _ => true
  | .reset => true
  | _ => false

/-- The call runs a user callback. -/
def Call.isCallback : Call → Bool
  | .callback .. => true
  | _ => false

/-- The calls of a stretch of trace, in order of issue. -/
def calls (tr : List Event) : List Call :=
  tr.map Event.call

/-- The hardware starts of a stretch of trace, in order of issue. -/
def starts (tr : List Event) : List Call :=
  (calls tr).filter Call.isStart

/-- The events issued after state `s` on the way to state `t`. -/
def since (s t : State) : List Event :=
  t.trace.drop s.trace.length

/-- The hardware start asked for by a request, with a given DMA hint. -/
def startCall (r : Transaction) (hint : DMAUsage) : Call :=
  .spi_master_transfer r.obj r.data.tx_buffer r.data.tx_length r.data.rx_buffer
    r.data.rx_length r.data.width r.data.event hint

/-! ## Derived descriptions used in the statements -/

/-- The events `aquire` issues from state `s` for handle `h`. -/
def aquireEvents (h : Handle) (s : State) : List Event :=
  if s.owner = some h then
    [⟨.mutex_lock, s.hw.active, s.depth, s.crit⟩,
     ⟨.mutex_unlock, s.hw.active, s.depth + 1, s.crit⟩]
  else
    [⟨.mutex_lock, s.hw.active, s.depth, s.crit⟩,
     ⟨.spi_format h (s.obj h).bits (s.obj h).mode 0, s.hw.active, s.depth + 1, s.crit⟩,
     ⟨.spi_frequency h (s.obj h).hz, s.hw.active, s.depth + 1, s.crit⟩,
     ⟨.mutex_unlock, s.hw.active, s.depth + 1, s.crit⟩]

/-- The state the completion handler of `h` reaches once the callback has
returned, before it looks at the queue: the hardware decode of the mask `e`,
then the callback of `h` if one is registered and `e` meets `SPI_EVENT_ALL`. -/
def afterCallback (P : Platform) (user : Nat → Nat → State → State) (h : Handle) (e : Nat)
    (s : State) : State :=
  match (s.obj h).callback with
  | some c =>
    if e &&& P.SPI_EVENT_ALL ≠ 0 then
      user c (e &&& P.SPI_EVENT_ALL)
        { s with
            hw := { s.hw with active := s.hw.active && !busFree P e }
            trace := s.trace ++
              [⟨.spi_irq_handler_asynch h e, s.hw.active, s.depth, s.crit⟩,
               ⟨.callback h c (e &&& P.SPI_EVENT_ALL), s.hw.active && !busFree P e,
                 s.depth, s.crit⟩] }
    else
      { s with
          hw := { s.hw with active := s.hw.active && !busFree P e }
          trace := s.trace ++ [⟨.spi_irq_handler_asynch h e, s.hw.active, s.depth, s.crit⟩] }
  | none =>
    { s with
        hw := { s.hw with active := s.hw.active && !busFree P e }
        trace := s.trace ++ [⟨.spi_irq_handler_asynch h e, s.hw.active, s.depth, s.crit⟩] }

/-- The events a drain issues from state `s`: nothing on an empty queue, otherwise
the pop of the oldest request, the arbitration for its handle and its start. -/
def dequeueEvents (s : State) : List Event :=
  match s.queue with
  | [] => []
  | t :: _ =>
    ⟨.pop t, s.hw.active, s.depth, s.crit⟩ :: aquireEvents t.obj s
      ++ [⟨startCall t (s.obj t.obj).usage, s.hw.active, s.depth, s.crit⟩]

/-- The call changes the number of transfers in flight: hardware start,
hardware abort, or interrupt decode. -/
def Call.isBusEvent : Call → Bool
  | .spi_master_transfer .. => true
  | .spi_abort_asynch _ => true
  | .spi_irq_handler_asynch .. => true
  | _ => false

/-- The number of transfers in flight after a call, when `n` were in flight
before it: a hardware start adds one; an abort, or an interrupt whose mask says
the bus is free, ends one. -/
def inFlightStep (P : Platform) (n : Nat) (c : Call) : Nat :=
  match c with
  | .spi_master_transfer .. => n + 1
  | .spi_abort_asynch _ => n - 1
  | .spi_irq_handler_asynch _ e => if busFree P e then n - 1 else n
  | _ => n

/-- The number of transfers in flight after a stretch of trace, replayed from `n`. -/
def inFlight (P : Platform) (n : Nat) (tr : List Event) : Nat :=
  tr.foldl (fun k ev => inFlightStep P k ev.call) n

/-- The number of transfers in flight that the bus state stands for. -/
def busCount (a : Bool) : Nat :=
  if a then 1 else 0

/-- A stretch of trace `d` that takes the bus from activity `a` to activity `b`
with one transfer at a time: every start in it was issued on an idle bus, at no
point of it are two transfers in flight, and at its end the transfers in
flight are those the bus state `b` shows. -/
def OneAtATime (P : Platform) (a : Bool) (d : List Event) (b : Bool) : Prop :=
  (∀ ev ∈ d, ev.call.isStart = true → ev.busy = false)
  ∧ (∀ k, inFlight P (busCount a) (d.take k) ≤ 1)
  ∧ inFlight P (busCount a) d = busCount b

/-- State `t` is reached from state `s` by issuing events one transfer at a time. -/
def Ext (P : Platform) (s t : State) : Prop :=
  ∃ d, t.trace = s.trace ++ d ∧ OneAtATime P s.hw.active d t.hw.active

/-- Submit a list of requests with `transfer`, one after the other, and collect
the return values. -/
def transfers (P : Platform) : List Transaction → State → List Int × State
  | [], s => ([], s)
  | r :: rs, s =>
    ((transferOf P r s).1 :: (transfers P rs (transferOf P r s).2).1,
      (transfers P rs (transferOf P r s).2).2)

/-- The call is a pop of the transaction queue. -/
def Call.isPop : Call → Bool
  | .pop _ => true
  | _ => false

/-- The completion interrupts of a list of (handle, decoded mask) pairs. -/
def irqOps (irqs : List (Handle × Nat)) : List Op :=
  irqs.map (fun x => Op.irq x.1 x.2)

/-! ## Owner and registers -/

/-- The call constructs an instance. -/
def Op.isCtor : Op → Bool
  | .ctor _ => true
  | _ => false

/-- The hardware registers reflect the owner: if a handle is recorded as owner,
the format and clock registers hold its current bits, mode and hz. -/
def ownerSync (s : State) : Prop :=
  ∀ h, s.owner = some h →
    s.hw.bits = (s.obj h).bits ∧ s.hw.mode = (s.obj h).mode ∧ s.hw.hz = (s.obj h).hz

/-- The call is a blocking raw exchange. -/
def Call.isWrite : Call → Bool
  | .spi_master_write .. => true
  | _ => false

/-! ## The gate and the critical section in the trace -/

/-- The acquisitions of the gate in a stretch of trace. -/
def locks (tr : List Event) : List Call :=
  (calls tr).filter (fun c => c = .mutex_lock)

/-- The releases of the gate in a stretch of trace. -/
def unlocks (tr : List Event) : List Call :=
  (calls tr).filter (fun c => c = .mutex_unlock)

/-- The call programs the registers or does a blocking exchange: `spi_format`,
`spi_frequency` or `spi_master_write`. -/
def Call.needsGate : Call → Bool
  | .spi_format .. => true
  | .spi_frequency .. => true
  | .spi_master_write .. => true
  | _ => false

/-- The gate discipline of a stretch of trace `d` issued from nesting depth `n`:
as many releases as acquisitions, no event below depth `n`, every release
issued above depth `n` (so that it does not go below `n`), and every register
programming or blocking exchange issued with the gate held. -/
def GateOk (n : Nat) (d : List Event) : Prop :=
  (locks d).length = (unlocks d).length
  ∧ (∀ ev ∈ d, n ≤ ev.depth)
  ∧ (∀ ev ∈ d, ev.call = .mutex_unlock → n < ev.depth)
  ∧ (∀ ev ∈ d, ev.call.needsGate = true → 0 < ev.depth)

/-- The entries into the critical section in a stretch of trace. -/
def critEnters (tr : List Event) : List Call :=
  (calls tr).filter (fun c => c = .core_util_critical_section_enter)

/-- The exits from the critical section in a stretch of trace. -/
def critExits (tr : List Event) : List Call :=
  (calls tr).filter (fun c => c = .core_util_critical_section_exit)

/-- A callback that calls back into the driver: it submits request C on handle 0
with the non-blocking `transfer`. -/
def reenter : Nat → Nat → State → State :=
  fun _ _ s => (transferOf demoPlatform ⟨0, reqC⟩ s).2

/-- Two instances, the transfer of handle 0 in flight, request B of handle 1
queued behind it. -/
def demoQueued : State :=
  run demoPlatform quiet [.ctor 0, .ctor 1, .transfer 0 reqA, .transfer 1 reqB] State.boot

/-- The state inside the critical section of `queue_transfer` right after the
push of the request `t` of handle `h`. -/
def enqueued (h : Handle) (t : transaction_t) (s : State) : State :=
  { s with
      crit := s.crit + 1
      queue := s.queue ++ [⟨h, t⟩]
      trace := s.trace ++
        [⟨.core_util_critical_section_enter, s.hw.active, s.depth, s.crit⟩,
         ⟨.push ⟨h, t⟩, s.hw.active, s.depth, s.crit + 1⟩] }

/-- The call goes to the hardware capability surface. -/
def Call.isHal : Call → Bool
  | .spi_init _ => true
  | .spi_format .. => true
  | .spi_frequency .. => true
  | .spi_master_write .. => true
  | .spi_master_transfer .. => true
  | .spi_abort_asynch _ => true
  | .spi_irq_handler_asynch .. => true
  | _ => false

end mbed

/-! # The URL decoder of `mxchip_advanced/src/utility.cpp` -/

namespace utility

/-! ## Data model

A `char` is kept as its byte value, a number below 256; `'+'` is 43, `'%'` is 37,
`' '` is 32, `'0'..'9'` are 48..57, `'A'..'F'` are 65..70 and `'a'..'f'` are 97..102.
The input is the memory behind the pointer `url`, a function from offsets to
bytes: the offsets below `length` are the input, the offsets from `length` on
are whatever lies behind it. The output object `outURL` is seen through the
calls made on it. -/

/-- The function `h2int`. The comparisons are on the byte value; the results
are converted to `unsigned char`. -/
def h2int (c : Nat) : Nat :=
  if 48 ≤ c ∧ c ≤ 57 then
    (c - 48) % 256
  else if 97 ≤ c ∧ c ≤ 102 then
    (c - 97 + 10) % 256
  else if 65 ≤ c ∧ c ≤ 70 then
    (c - 65 + 10) % 256
  else
    0

/-- A call on the output object `outURL` (a `StringBuffer`). -/
inductive BufCall where
  | alloc (size : Nat)
  | set (index : Nat) (c : Nat)
  | setLength (length : Nat)
deriving DecidableEq, Repr

/-- The variables of the loop of `urldecode`: the index `i`, `resultLength`, the
calls made on `outURL` so far and the offsets of `url` read so far. -/
structure Scan where
  i : Nat
  resultLength : Nat
  out : List BufCall
  reads : List Nat
deriving DecidableEq, Repr

/-- The modulus of the type `unsigned` (32 bits on the target). -/
def UINT_MOD : Nat := 4294967296

/-- The `for` loop of `urldecode`, run for at most `fuel` evaluations of its
condition; `none` when they do not suffice. -/
def urldecodeLoop (url : Nat → Nat) (length : Nat) : Nat → Scan → Option Scan
  | 0, _ => none
  | fuel + 1, st =>
    if st.i < length then
      let c := url st.i
      if c = 43 then
        urldecodeLoop url length fuel
          { i := (st.i + 1) % UINT_MOD
            resultLength := (st.resultLength + 1) % UINT_MOD
            out := st.out ++ [.set st.resultLength 32]
            reads := st.reads ++ [st.i] }
      else if c = 37 then
        let i1 := (st.i + 1) % UINT_MOD
        let code0 := url i1
        let i2 := (i1 + 1) % UINT_MOD
        let code1 := url i2
        let d := ((h2int code0 <<< 4) ||| h2int code1) % 256
        urldecodeLoop url length fuel
          { i := (i2 + 1) % UINT_MOD
            resultLength := (st.resultLength + 1) % UINT_MOD
            out := st.out ++ [.set st.resultLength d]
            reads := st.reads ++ [st.i, i1, i2] }
      else
        urldecodeLoop url length fuel
          { i := (st.i + 1) % UINT_MOD
            resultLength := (st.resultLength + 1) % UINT_MOD
            out := st.out ++ [.set st.resultLength c]
            reads := st.reads ++ [st.i] }
    else
      some st

/-- What a call of `urldecode` does: the value returned, the calls made on
`outURL`, and the offsets of `url` read, in order. -/
structure Decoded where
  result : Nat
  out : List BufCall
  reads : List Nat
deriving DecidableEq, Repr

/-- The function `urldecode` (`outURL` is not null). -/
def urldecode (fuel : Nat) (url : Nat → Nat) (length : Nat) : Option Decoded :=
  if length = 0 then
    some ⟨0, [], []⟩
  else
    match urldecodeLoop url length fuel ⟨0, 0, [.alloc ((length + 1) % UINT_MOD)], []⟩ with
    | some st =>
      some ⟨st.resultLength,
        st.out ++ [.set st.resultLength 0, .setLength st.resultLength], st.reads⟩
    | none => none

/-! ## The decoding as a function of the input bytes -/

/-- The input: the bytes of `url` at the offsets below `n`. -/
def input (url : Nat → Nat) (n : Nat) : List Nat :=
  (List.range n).map url

/-- The byte an escape `%XY` stands for. -/
def escapeByte (x y : Nat) : Nat :=
  (16 * h2int x + h2int y) % 256

/-- Scan left to right: `'+'` becomes a space, `%XY` becomes one byte, every
other byte is copied. A `'%'` with fewer than two bytes behind it is left to
the caller's hypothesis; it counts as one output byte here. -/
def specDecode : List Nat → List Nat
  | [] => []
  | c :: rest =>
    if c = 43 then 32 :: specDecode rest
    else if c = 37 then
      match rest with
      | x :: y :: tl => escapeByte x y :: specDecode tl
      | _ => c :: []
    else c :: specDecode rest

/-- The number of escapes `%XY` met by the scan. -/
def escapes : List Nat → Nat
  | [] => 0
  | c :: rest =>
    if c = 37 then
      match rest with
      | _ :: _ :: tl => escapes tl + 1
      | _ => 0
    else escapes rest

/-- How far behind the input a scan reads: 0 when every `'%'` scanned as an
escape start has two bytes behind it, 1 when the input ends in such a `'%'`
followed by one byte, 2 when it ends in such a `'%'`. -/
def overshoot : List Nat → Nat
  | [] => 0
  | c :: rest =>
    if c = 37 then
      match rest with
      | _ :: _ :: tl => overshoot tl
      | [_] => 1
      | [] => 2
    else overshoot rest

/-- The `set` calls that write the bytes `bs` from index `k` on. -/
def setsFrom (k : Nat) : List Nat → List BufCall
  | [] => []
  | b :: bs => .set k b :: setsFrom (k + 1) bs

/-- The indices written by the `set` calls among the calls on `outURL`. -/
def writeIndices : List BufCall → List Nat
  | [] => []
  | .set k _ :: cs => k :: writeIndices cs
  | _ :: cs => writeIndices cs

/-- A sample input: `a+b%41%` followed in memory by `0` and `7`. -/
def sampleUrl (k : Nat) : Nat :=
  [97, 43, 98, 37, 52, 49, 37, 0, 55].getD k 0

end utility

namespace mbed

/-! ## Theorems -/

theorem since_of_append {s t : State} {d : List Event} (h : t.trace = s.trace ++ d) :
    since s t = d := by
  simp [since, h]

theorem aquire_eq (h : Handle) (s : State) :
    aquire h s =
      if s.owner = some h then
        { s with trace := s.trace ++
            [⟨.mutex_lock, s.hw.active, s.depth, s.crit⟩,
             ⟨.mutex_unlock, s.hw.active, s.depth + 1, s.crit⟩] }
      else
        { s with
            owner := some h
            hw := { s.hw with bits := (s.obj h).bits, mode := (s.obj h).mode, slave := 0,
                              hz := (s.obj h).hz }
            trace := s.trace ++
              [⟨.mutex_lock, s.hw.active, s.depth, s.crit⟩,
               ⟨.spi_format h (s.obj h).bits (s.obj h).mode 0, s.hw.active, s.depth + 1, s.crit⟩,
               ⟨.spi_frequency h (s.obj h).hz, s.hw.active, s.depth + 1, s.crit⟩,
               ⟨.mutex_unlock, s.hw.active, s.depth + 1, s.crit⟩] } := by
  by_cases ho : s.owner = some h <;>
    simp [aquire, lock, unlock, emit, spi_format, spi_frequency, ho]

@[simp]
theorem aquire_trace (h : Handle) (s : State) :
    (aquire h s).trace = s.trace ++ aquireEvents h s := by
  rw [aquire_eq]; unfold aquireEvents; split <;> rfl

@[simp]
theorem aquire_queue (h : Handle) (s : State) : (aquire h s).queue = s.queue := by
  rw [aquire_eq]; split <;> rfl

@[simp]
theorem aquire_obj (h : Handle) (s : State) : (aquire h s).obj = s.obj := by
  rw [aquire_eq]; split <;> rfl

@[simp]
theorem aquire_active (h : Handle) (s : State) :
    (aquire h s).hw.active = s.hw.active := by
  rw [aquire_eq]; split <;> rfl

@[simp]
theorem aquire_depth (h : Handle) (s : State) : (aquire h s).depth = s.depth := by
  rw [aquire_eq]; split <;> rfl

@[simp]
theorem aquire_crit (h : Handle) (s : State) : (aquire h s).crit = s.crit := by
  rw [aquire_eq]; split <;> rfl

@[simp]
theorem aquire_owner (h : Handle) (s : State) : (aquire h s).owner = some h := by
  rw [aquire_eq]; split
  · assumption
  · rfl

@[simp]
theorem starts_aquireEvents (h : Handle) (s : State) :
    starts (aquireEvents h s) = [] := by
  unfold aquireEvents; split <;> rfl

@[simp]
theorem starts_append (a b : List Event) : starts (a ++ b) = starts a ++ starts b := by
  simp [starts, calls]

@[simp]
theorem starts_nil : starts [] = [] := rfl

@[simp]
theorem starts_cons (e : Event) (a : List Event) :
    starts (e :: a) = if e.call.isStart then e.call :: starts a else starts a := by
  simp only [starts, calls, List.map_cons, List.filter_cons]

@[simp]
theorem calls_nil : calls [] = [] := rfl

@[simp]
theorem calls_cons (e : Event) (a : List Event) : calls (e :: a) = e.call :: calls a := rfl

@[simp]
theorem calls_append (a b : List Event) : calls (a ++ b) = calls a ++ calls b := by
  simp [calls]

theorem start_transfer_eq (h : Handle) (tx_buffer : Nat) (tx_length : Int) (rx_buffer : Nat)
    (rx_length : Int) (bit_width : Nat) (callback : event_callback_t) (event : Int)
    (s : State) :
    start_transfer h tx_buffer tx_length rx_buffer rx_length bit_width callback event s =
      { aquire h s with
          obj := Function.update s.obj h { s.obj h with callback := callback, irq := true }
          hw := { (aquire h s).hw with active := true }
          trace := s.trace ++ aquireEvents h s ++
            [⟨.spi_master_transfer h tx_buffer tx_length rx_buffer rx_length bit_width event
                (s.obj h).usage, s.hw.active, s.depth, s.crit⟩] } := by
  apply State.ext <;> simp [start_transfer, spi_master_transfer, emit, setObj]

/-- C10: `aquire` on `h`. If the recorded owner is not `h`, it issues `spi_format`
with the bits and mode of `h` and then `spi_frequency` with the hz of `h` (both
inside the gate), the registers take these values and the owner becomes `h`.
If the recorded owner is `h`, it only takes and releases the gate: no hardware
call is issued and no part of the state other than the trace changes. -/
theorem C10_aquire (h : Handle) (s : State) :
    aquire h s =
      if s.owner = some h then
        { s with trace := s.trace ++
            [⟨.mutex_lock, s.hw.active, s.depth, s.crit⟩,
             ⟨.mutex_unlock, s.hw.active, s.depth + 1, s.crit⟩] }
      else
        { s with
            owner := some h
            hw := { s.hw with bits := (s.obj h).bits, mode := (s.obj h).mode, slave := 0,
                              hz := (s.obj h).hz }
            trace := s.trace ++
              [⟨.mutex_lock, s.hw.active, s.depth, s.crit⟩,
               ⟨.spi_format h (s.obj h).bits (s.obj h).mode 0, s.hw.active, s.depth + 1, s.crit⟩,
               ⟨.spi_frequency h (s.obj h).hz, s.hw.active, s.depth + 1, s.crit⟩,
               ⟨.mutex_unlock, s.hw.active, s.depth + 1, s.crit⟩] } := by
  unfold aquire
  by_cases ho : s.owner = some h
  · simp [lock, unlock, emit, ho]
  · simp [lock, unlock, emit, spi_format, spi_frequency, ho]

theorem transfer_idle (P : Platform) (h : Handle) (tx_buffer : Nat) (tx_length : Int)
    (rx_buffer : Nat) (rx_length : Int) (bit_width : Nat) (callback : event_callback_t)
    (event : Int) (s : State) (hidle : s.hw.active = false) :
    transfer P h tx_buffer tx_length rx_buffer rx_length bit_width callback event s =
      (0, start_transfer h tx_buffer tx_length rx_buffer rx_length bit_width callback event s) := by
  simp [transfer, spi_active, hidle]

/-- C9: `set_dma_usage(u)` on `h`. With the bus active it returns -1 and the state
is unchanged. Otherwise it returns 0 and the only change is the hint of `h`,
now `u`. In both cases the call issues nothing (the trace, the hardware and the
queue are as before, so a transfer already started is not touched), and the next
start for `h` passes the hint stored at that moment: after a successful call the
next `transfer` on the idle bus ends with a hardware start carrying `u`. -/
theorem C9_set_dma_usage (P : Platform) (h : Handle) (u : DMAUsage) (s : State) :
    set_dma_usage h u s =
        (if spi_active h s then (-1, s)
         else (0, { s with obj := Function.update s.obj h { s.obj h with usage := u } }))
    ∧ (spi_active h s = true → (set_dma_usage h u s).1 = -1 ∧ (set_dma_usage h u s).2 = s)
    ∧ (spi_active h s = false →
        (set_dma_usage h u s).1 = 0
        ∧ ((set_dma_usage h u s).2.obj h).usage = u
        ∧ ((set_dma_usage h u s).2.obj h).bits = (s.obj h).bits
        ∧ ((set_dma_usage h u s).2.obj h).mode = (s.obj h).mode
        ∧ ((set_dma_usage h u s).2.obj h).hz = (s.obj h).hz
        ∧ ((set_dma_usage h u s).2.obj h).callback = (s.obj h).callback
        ∧ ((set_dma_usage h u s).2.obj h).irq = (s.obj h).irq
        ∧ (∀ k, k ≠ h → (set_dma_usage h u s).2.obj k = s.obj k))
    ∧ ((set_dma_usage h u s).2.trace = s.trace
        ∧ (set_dma_usage h u s).2.hw = s.hw
        ∧ (set_dma_usage h u s).2.queue = s.queue
        ∧ (set_dma_usage h u s).2.owner = s.owner
        ∧ (set_dma_usage h u s).2.depth = s.depth
        ∧ (set_dma_usage h u s).2.crit = s.crit)
    ∧ (∀ (tx_buffer : Nat) (tx_length : Int) (rx_buffer : Nat) (rx_length : Int)
        (bit_width : Nat) (callback : event_callback_t) (event : Int) (t : State),
        starts (since t (start_transfer h tx_buffer tx_length rx_buffer rx_length bit_width
          callback event t)) =
          [.spi_master_transfer h tx_buffer tx_length rx_buffer rx_length bit_width event
            (t.obj h).usage])
    ∧ (∀ (tx_buffer : Nat) (tx_length : Int) (rx_buffer : Nat) (rx_length : Int)
        (bit_width : Nat) (callback : event_callback_t) (event : Int),
        spi_active h s = false →
        starts (since s (transfer P h tx_buffer tx_length rx_buffer rx_length bit_width
          callback event (set_dma_usage h u s).2).2) =
          [.spi_master_transfer h tx_buffer tx_length rx_buffer rx_length bit_width event u]) := by
  refine ⟨?_, ?_, ?_, ?_, ?_, ?_⟩
  · simp only [set_dma_usage, setObj]
  · intro ha
    simp [set_dma_usage, ha]
  · intro ha
    simp [set_dma_usage, ha, setObj]
    intro k hk
    simp [Function.update, hk]
  · simp only [set_dma_usage, setObj]
    split <;> simp
  · intro tx_buffer tx_length rx_buffer rx_length bit_width callback event t
    rw [since_of_append (d := aquireEvents h t ++
      [⟨.spi_master_transfer h tx_buffer tx_length rx_buffer rx_length bit_width event
        (t.obj h).usage, t.hw.active, t.depth, t.crit⟩])]
    · simp [Call.isStart]
    · simp [start_transfer_eq]
  · intro tx_buffer tx_length rx_buffer rx_length bit_width callback event ha
    have ha2 : s.hw.active = false := ha
    rw [transfer_idle _ _ _ _ _ _ _ _ _ _ (by simp [set_dma_usage, ha, setObj, ha2])]
    rw [since_of_append (d := aquireEvents h (set_dma_usage h u s).2 ++
      [⟨.spi_master_transfer h tx_buffer tx_length rx_buffer rx_length bit_width event
        u, s.hw.active, s.depth, s.crit⟩])]
    · simp [Call.isStart]
    · simp [start_transfer_eq, set_dma_usage, ha, setObj]

/-- C3: `transfer` returns 0 or -1; it returns -1 exactly when the bus is active
and the queue is full; a queue of capacity 0 is always full; and when -1 is
returned the state is unchanged. -/
theorem C3_transfer_result (P : Platform) (h : Handle) (tx_buffer : Nat) (tx_length : Int)
    (rx_buffer : Nat) (rx_length : Int) (bit_width : Nat) (callback : event_callback_t)
    (event : Int) (s : State) :
    ((transfer P h tx_buffer tx_length rx_buffer rx_length bit_width callback event s).1 = 0
      ∨ (transfer P h tx_buffer tx_length rx_buffer rx_length bit_width callback event s).1 = -1)
    ∧ ((transfer P h tx_buffer tx_length rx_buffer rx_length bit_width callback event s).1 = -1
        ↔ (spi_active h s = true ∧ CircularBuffer.full P s.queue = true))
    ∧ (P.TRANSACTION_QUEUE_SIZE_SPI = 0 → ∀ q, CircularBuffer.full P q = true)
    ∧ ((transfer P h tx_buffer tx_length rx_buffer rx_length bit_width callback event s).1 = -1
        → (transfer P h tx_buffer tx_length rx_buffer rx_length bit_width callback event s).2 = s) := by
  have hfull0 : P.TRANSACTION_QUEUE_SIZE_SPI = 0 → ∀ q, CircularBuffer.full P q = true := by
    intro h0 q
    simp [CircularBuffer.full, h0]
  by_cases ha : spi_active h s = true
  · by_cases hc : P.TRANSACTION_QUEUE_SIZE_SPI = 0
    · simp [transfer, queue_transfer, ha, hc, CircularBuffer.full]
    · by_cases hf : CircularBuffer.full P s.queue = true
      · simp [transfer, queue_transfer, ha, hc, hf]
      · simp [transfer, queue_transfer, ha, hc, hf]
  · simp [transfer, ha]
    exact hfull0

/-- Witness of C3: a third request on the busy demo state, whose queue of two is
full, is rejected and leaves the state as it was. -/
theorem C3_transfer_result_witness :
    (spi_active 0 demoBusy = true ∧ CircularBuffer.full demoPlatform demoBusy.queue = true)
    ∧ (transfer demoPlatform 0 100 4 200 4 8 (some 7) 4 demoBusy).1 = -1
    ∧ (transfer demoPlatform 0 100 4 200 4 8 (some 7) 4 demoBusy).2 = demoBusy :=
  have w := C3_transfer_result demoPlatform 0 100 4 200 4 8 (some 7) 4 demoBusy
  ⟨by decide, w.2.1.2 (by decide), w.2.2.2 (w.2.1.2 (by decide))⟩

/-- Witness of C9: the hint is refused on the busy demo state; on the idle bus
after construction it is taken and the next transfer carries it. -/
theorem C9_set_dma_usage_witness :
    (spi_active 1 demoBusy = true ∧ (set_dma_usage 1 2 demoBusy).1 = -1
      ∧ (set_dma_usage 1 2 demoBusy).2 = demoBusy)
    ∧ (spi_active 0 (MbedSPI.ctor 0 State.boot) = false
      ∧ (set_dma_usage 0 2 (MbedSPI.ctor 0 State.boot)).1 = 0
      ∧ starts (since (MbedSPI.ctor 0 State.boot)
          (transfer demoPlatform 0 100 4 200 4 8 (some 7) 4
            (set_dma_usage 0 2 (MbedSPI.ctor 0 State.boot)).2).2)
          = [.spi_master_transfer 0 100 4 200 4 8 4 2]) :=
  have w1 := C9_set_dma_usage demoPlatform 1 2 demoBusy
  have w2 := C9_set_dma_usage demoPlatform 0 2 (MbedSPI.ctor 0 State.boot)
  ⟨⟨by decide, (w1.2.1 (by decide)).1, (w1.2.1 (by decide)).2⟩,
   ⟨by decide, (w2.2.2.1 (by decide)).1, w2.2.2.2.2.2 100 4 200 4 8 (some 7) 4 (by decide)⟩⟩

theorem dequeue_transaction_nil (h : Handle) (s : State) (hq : s.queue = []) :
    dequeue_transaction h s = s := by
  simp [dequeue_transaction, CircularBuffer.pop, hq]

theorem dequeue_transaction_cons (h : Handle) (s : State) (t : Transaction)
    (rest : List Transaction) (hq : s.queue = t :: rest) :
    dequeue_transaction h s =
      start_transfer t.obj t.data.tx_buffer t.data.tx_length t.data.rx_buffer t.data.rx_length
        t.data.width t.data.callback t.data.event
        { s with queue := rest
                 trace := s.trace ++ [⟨.pop t, s.hw.active, s.depth, s.crit⟩] } := by
  simp [dequeue_transaction, CircularBuffer.pop, hq, start_transaction, emit]

/-- C5: `transfer` on an idle bus. It returns 0, issues exactly one hardware start
(after the arbitration of `aquire`), with the given buffers, lengths, width and
event mask and the current DMA hint of `h`, stores the callback on `h`, and
leaves the queue alone: no push, pop or reset is issued and the queue is the
same list as before. -/
theorem C5_transfer_idle_bypasses_queue (P : Platform) (h : Handle) (tx_buffer : Nat)
    (tx_length : Int) (rx_buffer : Nat) (rx_length : Int) (bit_width : Nat)
    (callback : event_callback_t) (event : Int) (s : State)
    (hidle : spi_active h s = false) :
    (transfer P h tx_buffer tx_length rx_buffer rx_length bit_width callback event s).1 = 0
    ∧ since s (transfer P h tx_buffer tx_length rx_buffer rx_length bit_width callback event s).2
        = aquireEvents h s ++
          [⟨.spi_master_transfer h tx_buffer tx_length rx_buffer rx_length bit_width event
              (s.obj h).usage, false, s.depth, s.crit⟩]
    ∧ starts (since s
        (transfer P h tx_buffer tx_length rx_buffer rx_length bit_width callback event s).2)
        = [.spi_master_transfer h tx_buffer tx_length rx_buffer rx_length bit_width event
            (s.obj h).usage]
    ∧ ((transfer P h tx_buffer tx_length rx_buffer rx_length bit_width callback event s).2.obj h).callback
        = callback
    ∧ (calls (since s
        (transfer P h tx_buffer tx_length rx_buffer rx_length bit_width callback event s).2)).filter
          Call.isQueueOp = []
    ∧ (transfer P h tx_buffer tx_length rx_buffer rx_length bit_width callback event s).2.queue
        = s.queue
    ∧ (s.queue.length = 0 →
        (transfer P h tx_buffer tx_length rx_buffer rx_length bit_width callback event s).2.queue.length
          = 0) := by
  have ha : s.hw.active = false := hidle
  have hd : since s
      (transfer P h tx_buffer tx_length rx_buffer rx_length bit_width callback event s).2
        = aquireEvents h s ++
          [⟨.spi_master_transfer h tx_buffer tx_length rx_buffer rx_length bit_width event
              (s.obj h).usage, false, s.depth, s.crit⟩] := by
    apply since_of_append
    simp [transfer_idle _ _ _ _ _ _ _ _ _ _ ha, start_transfer_eq, ha]
  rw [hd]
  refine ⟨?_, rfl, ?_, ?_, ?_, ?_, ?_⟩
  · simp [transfer_idle _ _ _ _ _ _ _ _ _ _ ha]
  · simp [Call.isStart]
  · simp [transfer_idle _ _ _ _ _ _ _ _ _ _ ha, start_transfer_eq]
  · unfold aquireEvents
    split <;> simp [calls, Call.isQueueOp]
  · simp [transfer_idle _ _ _ _ _ _ _ _ _ _ ha, start_transfer_eq]
  · intro h0
    simpa [transfer_idle _ _ _ _ _ _ _ _ _ _ ha, start_transfer_eq] using h0

/-- Witness of C5: the first transfer after construction of handle 0. -/
theorem C5_transfer_idle_bypasses_queue_witness :
    spi_active 0 (MbedSPI.ctor 0 State.boot) = false
    ∧ (transfer demoPlatform 0 100 4 200 4 8 (some 7) 4 (MbedSPI.ctor 0 State.boot)).1 = 0
    ∧ starts (since (MbedSPI.ctor 0 State.boot)
        (transfer demoPlatform 0 100 4 200 4 8 (some 7) 4 (MbedSPI.ctor 0 State.boot)).2)
        = [.spi_master_transfer 0 100 4 200 4 8 4 DMA_USAGE_NEVER]
    ∧ (transfer demoPlatform 0 100 4 200 4 8 (some 7) 4 (MbedSPI.ctor 0 State.boot)).2.queue = [] :=
  have w := C5_transfer_idle_bypasses_queue demoPlatform 0 100 4 200 4 8 (some 7) 4
    (MbedSPI.ctor 0 State.boot) rfl
  ⟨rfl, w.1, w.2.2.1, w.2.2.2.2.2.1⟩

theorem abort_transfer_cons (P : Platform) (h : Handle) (s : State) (t : Transaction)
    (rest : List Transaction) (hcap : P.TRANSACTION_QUEUE_SIZE_SPI ≠ 0)
    (hq : s.queue = t :: rest) :
    abort_transfer P h s =
      start_transfer t.obj t.data.tx_buffer t.data.tx_length t.data.rx_buffer t.data.rx_length
        t.data.width t.data.callback t.data.event
        { s with queue := rest
                 hw := { s.hw with active := false }
                 trace := s.trace ++ [⟨.spi_abort_asynch h, s.hw.active, s.depth, s.crit⟩,
                                      ⟨.pop t, false, s.depth, s.crit⟩] } := by
  simp only [abort_transfer]
  rw [if_pos hcap]
  rw [dequeue_transaction_cons h _ t rest (by simpa [spi_abort_asynch, emit] using hq)]
  simp [spi_abort_asynch, emit]

/-- C6, as the spec words it, fails: with the transfer of handle 0 in flight and
the requests B and C of handle 1 queued (capacity 2), `abort_transfer` leaves C
in the queue and starts B. -/
theorem C6_abort_transfer_counterexample :
    1 ≤ demoPlatform.TRANSACTION_QUEUE_SIZE_SPI
    ∧ demoBusy.queue = [⟨1, reqB⟩, ⟨1, reqC⟩]
    ∧ (abort_transfer demoPlatform 0 demoBusy).queue = [⟨1, reqC⟩]
    ∧ (abort_transfer demoPlatform 0 demoBusy).queue ≠ []
    ∧ starts (since demoBusy (abort_transfer demoPlatform 0 demoBusy))
        = [startCall ⟨1, reqB⟩ DMA_USAGE_NEVER] := by
  decide

/-- C6, amended: with queueing enabled, `abort_transfer` issues the hardware abort
and then drains one request. With an empty queue nothing else happens and the
bus is left idle. With pending requests, the oldest one is popped and started
on its own handle with its own arguments, right after the abort, the bus is
active again, and the other pending requests stay queued in their order. -/
theorem C6_abort_transfer_drains_one (P : Platform) (h : Handle) (s : State)
    (hcap : 1 ≤ P.TRANSACTION_QUEUE_SIZE_SPI) :
    (s.queue = [] →
      abort_transfer P h s =
        { s with hw := { s.hw with active := false }
                 trace := s.trace ++ [⟨.spi_abort_asynch h, s.hw.active, s.depth, s.crit⟩] })
    ∧ (∀ (t : Transaction) (rest : List Transaction), s.queue = t :: rest →
        (abort_transfer P h s).queue = rest
        ∧ since s (abort_transfer P h s) =
            [⟨.spi_abort_asynch h, s.hw.active, s.depth, s.crit⟩,
             ⟨.pop t, false, s.depth, s.crit⟩]
            ++ aquireEvents t.obj { s with hw := { s.hw with active := false } }
            ++ [⟨startCall t (s.obj t.obj).usage, false, s.depth, s.crit⟩]
        ∧ starts (since s (abort_transfer P h s)) = [startCall t (s.obj t.obj).usage]
        ∧ ((abort_transfer P h s).obj t.obj).callback = t.data.callback
        ∧ (abort_transfer P h s).hw.active = true) := by
  have hc : P.TRANSACTION_QUEUE_SIZE_SPI ≠ 0 := by omega
  constructor
  · intro hq
    simp only [abort_transfer]
    rw [if_pos hc]
    rw [dequeue_transaction_nil h _ (by simpa [spi_abort_asynch, emit] using hq)]
    simp [spi_abort_asynch, emit]
  · intro t rest hq
    have hd : since s (abort_transfer P h s) =
        [⟨.spi_abort_asynch h, s.hw.active, s.depth, s.crit⟩,
         ⟨.pop t, false, s.depth, s.crit⟩]
        ++ aquireEvents t.obj { s with hw := { s.hw with active := false } }
        ++ [⟨startCall t (s.obj t.obj).usage, false, s.depth, s.crit⟩] := by
      apply since_of_append
      rw [abort_transfer_cons P h s t rest hc hq]
      simp [start_transfer_eq, aquireEvents, startCall]
    rw [hd]
    refine ⟨?_, rfl, ?_, ?_, ?_⟩
    · rw [abort_transfer_cons P h s t rest hc hq]
      simp [start_transfer_eq]
    · simp [Call.isStart, startCall]
    · rw [abort_transfer_cons P h s t rest hc hq]
      simp [start_transfer_eq]
    · rw [abort_transfer_cons P h s t rest hc hq]
      simp [start_transfer_eq]

/-- Witness of the amended C6: the abort on the busy demo state. -/
theorem C6_abort_transfer_drains_one_witness :
    1 ≤ demoPlatform.TRANSACTION_QUEUE_SIZE_SPI
    ∧ (abort_transfer demoPlatform 0 demoBusy).queue = [⟨1, reqC⟩]
    ∧ (abort_transfer demoPlatform 0 demoBusy).hw.active = true :=
  have w := (C6_abort_transfer_drains_one demoPlatform 0 demoBusy (by decide)).2
    ⟨1, reqB⟩ [⟨1, reqC⟩] (by decide)
  ⟨by decide, w.1, w.2.2.2.2⟩

/-- C7: `abort_all_transfers`, from any state whose queue respects the capacity.
Afterwards the queue has length 0, the hardware abort was issued (once, for the
calling handle), no hardware start was issued, and the bus is idle. -/
theorem C7_abort_all_transfers (P : Platform) (h : Handle) (s : State)
    (hq : s.queue.length ≤ P.TRANSACTION_QUEUE_SIZE_SPI) :
    (abort_all_transfers P h s).queue.length = 0
    ∧ (calls (since s (abort_all_transfers P h s))).filter Call.isAbort = [.spi_abort_asynch h]
    ∧ starts (since s (abort_all_transfers P h s)) = []
    ∧ (abort_all_transfers P h s).hw.active = false
    ∧ since s (abort_all_transfers P h s) =
        (if P.TRANSACTION_QUEUE_SIZE_SPI ≠ 0 then
          [⟨.reset, s.hw.active, s.depth, s.crit⟩,
           ⟨.spi_abort_asynch h, s.hw.active, s.depth, s.crit⟩]
         else [⟨.spi_abort_asynch h, s.hw.active, s.depth, s.crit⟩]) := by
  by_cases hc : P.TRANSACTION_QUEUE_SIZE_SPI = 0
  · have hnil : s.queue = [] := by
      apply List.eq_nil_of_length_eq_zero
      omega
    have he : abort_all_transfers P h s =
        { s with hw := { s.hw with active := false }
                 trace := s.trace ++ [⟨.spi_abort_asynch h, s.hw.active, s.depth, s.crit⟩] } := by
      simp [abort_all_transfers, clear_transfer_buffer, abort_transfer, hc, spi_abort_asynch, emit]
    have hd := since_of_append (s := s) (t := abort_all_transfers P h s)
      (d := [⟨.spi_abort_asynch h, s.hw.active, s.depth, s.crit⟩]) (by rw [he])
    rw [hd]
    refine ⟨?_, ?_, ?_, ?_, ?_⟩
    · rw [he]; simp [hnil]
    · simp [calls, Call.isAbort]
    · simp [Call.isStart]
    · rw [he]
    · simp [hc]
  · have he : abort_all_transfers P h s =
        { s with queue := []
                 hw := { s.hw with active := false }
                 trace := s.trace ++ [⟨.reset, s.hw.active, s.depth, s.crit⟩,
                                      ⟨.spi_abort_asynch h, s.hw.active, s.depth, s.crit⟩] } := by
      simp only [abort_all_transfers, clear_transfer_buffer, abort_transfer]
      rw [if_pos hc, if_pos hc]
      rw [dequeue_transaction_nil h _ (by simp [spi_abort_asynch, emit, CircularBuffer.reset])]
      simp [spi_abort_asynch, emit, CircularBuffer.reset]
    have hd := since_of_append (s := s) (t := abort_all_transfers P h s)
      (d := [⟨.reset, s.hw.active, s.depth, s.crit⟩,
             ⟨.spi_abort_asynch h, s.hw.active, s.depth, s.crit⟩]) (by rw [he])
    rw [hd]
    refine ⟨?_, ?_, ?_, ?_, ?_⟩
    · rw [he]; simp
    · simp [calls, Call.isAbort]
    · simp [Call.isStart]
    · rw [he]
    · simp [hc]

/-- Witness of C7: abort-all on the busy demo state with two pending requests. -/
theorem C7_abort_all_transfers_witness :
    demoBusy.queue.length ≤ demoPlatform.TRANSACTION_QUEUE_SIZE_SPI
    ∧ demoBusy.queue.length = 2
    ∧ (abort_all_transfers demoPlatform 1 demoBusy).queue.length = 0
    ∧ starts (since demoBusy (abort_all_transfers demoPlatform 1 demoBusy)) = [] :=
  have w := C7_abort_all_transfers demoPlatform 1 demoBusy (by decide)
  ⟨by decide, by decide, w.1, w.2.2.1⟩

theorem or_eq_zero_left {a b : Nat} (h : a ||| b = 0) : a = 0 := by
  apply Nat.eq_of_testBit_eq
  intro i
  have hi := congrArg (fun n => n.testBit i) h
  simp only [Nat.testBit_or, Nat.zero_testBit, Bool.or_eq_false_iff] at hi
  simp [hi.1]

theorem busFree_of_all (P : Platform) (e : Nat) (h : e &&& P.SPI_EVENT_ALL ≠ 0) :
    busFree P e = true := by
  simp only [busFree, bne_iff_ne, ne_eq]
  intro h0
  rw [Nat.and_or_distrib_left] at h0
  exact h (or_eq_zero_left h0)

theorem busFree_iff (P : Platform) (e : Nat) :
    busFree P e = true ↔
      e &&& (P.SPI_EVENT_ALL ||| P.SPI_EVENT_INTERNAL_TRANSFER_COMPLETE) ≠ 0 := by
  simp [busFree]

theorem irq_handler_asynch_eq (P : Platform) (user : Nat → Nat → State → State) (h : Handle)
    (e : Nat) (s : State) :
    irq_handler_asynch P user h e s =
      if P.TRANSACTION_QUEUE_SIZE_SPI ≠ 0 ∧ busFree P e = true then
        dequeue_transaction h (afterCallback P user h e s)
      else afterCallback P user h e s := by
  have hdec : (spi_irq_handler_asynch P h e s).2 =
      { s with
          hw := { s.hw with active := s.hw.active && !busFree P e }
          trace := s.trace ++ [⟨.spi_irq_handler_asynch h e, s.hw.active, s.depth, s.crit⟩] } := by
    by_cases hb : busFree P e = true
    · simp [spi_irq_handler_asynch, emit, hb]
    · simp [spi_irq_handler_asynch, emit, hb]
  have hobj : (spi_irq_handler_asynch P h e s).2.obj = s.obj := by rw [hdec]
  have hfst : (spi_irq_handler_asynch P h e s).1 = e := rfl
  have hmid : (match ((spi_irq_handler_asynch P h e s).2.obj h).callback with
      | some c =>
        if (spi_irq_handler_asynch P h e s).1 &&& P.SPI_EVENT_ALL ≠ 0 then
          user c ((spi_irq_handler_asynch P h e s).1 &&& P.SPI_EVENT_ALL)
            (emit (.callback h c ((spi_irq_handler_asynch P h e s).1 &&& P.SPI_EVENT_ALL))
              (spi_irq_handler_asynch P h e s).2)
        else (spi_irq_handler_asynch P h e s).2
      | none => (spi_irq_handler_asynch P h e s).2) = afterCallback P user h e s := by
    rw [hobj, hfst, hdec]
    unfold afterCallback
    cases (s.obj h).callback with
    | none => rfl
    | some c =>
      by_cases ha : e &&& P.SPI_EVENT_ALL = 0
      · simp [ha]
      · simp [ha, emit]
  unfold irq_handler_asynch
  simp only [hfst] at hmid ⊢
  rw [hmid]
  by_cases hc : P.TRANSACTION_QUEUE_SIZE_SPI = 0
  · simp [hc]
  · by_cases hb : busFree P e = true
    · simp [hc, hb, (busFree_iff P e).1 hb]
    · have hb0 : e &&& (P.SPI_EVENT_ALL ||| P.SPI_EVENT_INTERNAL_TRANSFER_COMPLETE) = 0 := by
        by_contra hne
        exact hb ((busFree_iff P e).2 hne)
      simp [hc, hb, hb0]

theorem dequeue_transaction_trace (h : Handle) (s : State) :
    (dequeue_transaction h s).trace = s.trace ++ dequeueEvents s := by
  cases hq : s.queue with
  | nil => simp [dequeue_transaction_nil h s hq, dequeueEvents, hq]
  | cons t rest =>
    rw [dequeue_transaction_cons h s t rest hq]
    simp [start_transfer_eq, dequeueEvents, hq, aquireEvents, startCall]

theorem dequeue_transaction_queue (h : Handle) (s : State) :
    (dequeue_transaction h s).queue = s.queue.tail := by
  cases hq : s.queue with
  | nil => simp [dequeue_transaction_nil h s hq, hq]
  | cons t rest =>
    rw [dequeue_transaction_cons h s t rest hq]
    simp [start_transfer_eq]

theorem dequeue_transaction_active (h : Handle) (s : State) :
    (dequeue_transaction h s).hw.active = (s.hw.active || !s.queue.isEmpty) := by
  cases hq : s.queue with
  | nil => simp [dequeue_transaction_nil h s hq]
  | cons t rest =>
    rw [dequeue_transaction_cons h s t rest hq]
    simp [start_transfer_eq]

theorem callbacks_aquireEvents (h : Handle) (s : State) :
    (calls (aquireEvents h s)).filter Call.isCallback = [] := by
  unfold aquireEvents
  split <;> rfl

theorem callbacks_dequeueEvents (s : State) :
    (calls (dequeueEvents s)).filter Call.isCallback = [] := by
  unfold dequeueEvents
  cases s.queue with
  | nil => rfl
  | cons t rest =>
    simp only [List.cons_append, calls_cons, calls_append, List.filter_cons, List.filter_append,
      callbacks_aquireEvents, calls_nil]
    simp [Call.isCallback, startCall]

/-- C8: the completion handler of `h` on the decoded mask `e`.
It first runs the callback part: the callback of `h` is invoked, once and with
argument `e AND SPI_EVENT_ALL`, exactly when one is registered and that value is
not zero. Then, from the state the callback returned, it drains (pops and starts
at most one queued request) exactly when `e` meets `SPI_EVENT_ALL` or
`SPI_EVENT_INTERNAL_TRANSFER_COMPLETE`; no callback runs during the drain, and a
drain on an empty queue is the identity. With the queue compiled out there is
nothing to drain. In particular, when B is the only queued request and the
handle A has a callback, a completion of A invokes that callback and then starts
B, leaving the queue empty and the bus active. -/
theorem C8_irq_handler_asynch (P : Platform) (user : Nat → Nat → State → State) (h : Handle)
    (e : Nat) (s : State) :
    (irq_handler_asynch P user h e s =
      if P.TRANSACTION_QUEUE_SIZE_SPI ≠ 0 ∧
          e &&& (P.SPI_EVENT_ALL ||| P.SPI_EVENT_INTERNAL_TRANSFER_COMPLETE) ≠ 0 then
        dequeue_transaction h (afterCallback P user h e s)
      else afterCallback P user h e s)
    ∧ ((calls (since s (afterCallback P quiet h e s))).filter Call.isCallback =
        match (s.obj h).callback with
        | some c =>
          if e &&& P.SPI_EVENT_ALL ≠ 0 then [.callback h c (e &&& P.SPI_EVENT_ALL)] else []
        | none => [])
    ∧ ((calls (since s (irq_handler_asynch P quiet h e s))).filter Call.isCallback =
        match (s.obj h).callback with
        | some c =>
          if e &&& P.SPI_EVENT_ALL ≠ 0 then [.callback h c (e &&& P.SPI_EVENT_ALL)] else []
        | none => [])
    ∧ (starts (since s (afterCallback P quiet h e s)) = []
        ∧ (calls (since s (afterCallback P quiet h e s))).filter Call.isQueueOp = []
        ∧ (afterCallback P quiet h e s).queue = s.queue)
    ∧ (since s (irq_handler_asynch P quiet h e s) =
        since s (afterCallback P quiet h e s) ++
          since (afterCallback P quiet h e s) (irq_handler_asynch P quiet h e s)
        ∧ (calls (since (afterCallback P quiet h e s)
            (irq_handler_asynch P quiet h e s))).filter Call.isCallback = [])
    ∧ (∀ (k : Handle) (t : State), t.queue = [] → dequeue_transaction k t = t)
    ∧ (s.queue.length ≤ P.TRANSACTION_QUEUE_SIZE_SPI →
        irq_handler_asynch P quiet h e s =
          if e &&& (P.SPI_EVENT_ALL ||| P.SPI_EVENT_INTERNAL_TRANSFER_COMPLETE) ≠ 0 then
            dequeue_transaction h (afterCallback P quiet h e s)
          else afterCallback P quiet h e s)
    ∧ (∀ (b : Transaction) (c : Nat),
        P.TRANSACTION_QUEUE_SIZE_SPI ≠ 0 → s.queue = [b] → (s.obj h).callback = some c →
        e &&& P.SPI_EVENT_ALL ≠ 0 →
        (calls (since s (irq_handler_asynch P quiet h e s))).filter
            (fun x => x.isCallback || x.isStart) =
          [.callback h c (e &&& P.SPI_EVENT_ALL), startCall b (s.obj b.obj).usage]
        ∧ (irq_handler_asynch P quiet h e s).queue.length = 0
        ∧ (irq_handler_asynch P quiet h e s).hw.active = true) := by
  -- the events of the callback part, for a callback that does not re-enter
  have hcbtrace : ∃ d, (afterCallback P quiet h e s).trace = s.trace ++ d
      ∧ ((calls d).filter Call.isCallback =
          match (s.obj h).callback with
          | some c =>
            if e &&& P.SPI_EVENT_ALL ≠ 0 then [.callback h c (e &&& P.SPI_EVENT_ALL)] else []
          | none => [])
      ∧ starts d = [] ∧ (calls d).filter Call.isQueueOp = [] := by
    unfold afterCallback
    cases (s.obj h).callback with
    | none =>
      exact ⟨_, rfl, by simp [calls, Call.isCallback, Call.isStart, Call.isQueueOp]⟩
    | some c =>
      by_cases ha : e &&& P.SPI_EVENT_ALL = 0
      · simp only [ha, ne_eq, not_true_eq_false, if_false]
        exact ⟨_, rfl, by simp [calls, Call.isCallback, Call.isStart, Call.isQueueOp]⟩
      · simp only [ha, ne_eq, not_false_eq_true, if_true, quiet]
        exact ⟨_, rfl, by simp [calls, Call.isCallback, Call.isStart, Call.isQueueOp]⟩
  obtain ⟨d, hd, hdcb, hdst, hdq⟩ := hcbtrace
  have hqueue : (afterCallback P quiet h e s).queue = s.queue := by
    unfold afterCallback
    cases (s.obj h).callback with
    | none => rfl
    | some c => by_cases ha : e &&& P.SPI_EVENT_ALL = 0 <;> simp [ha, quiet]
  -- the events of the drain part
  have hdrain : ∃ d2, (irq_handler_asynch P quiet h e s).trace =
        (afterCallback P quiet h e s).trace ++ d2
      ∧ (calls d2).filter Call.isCallback = [] := by
    rw [irq_handler_asynch_eq]
    split
    · exact ⟨_, dequeue_transaction_trace _ _, callbacks_dequeueEvents _⟩
    · exact ⟨[], by simp, rfl⟩
  obtain ⟨d2, hd2, hd2cb⟩ := hdrain
  have hs1 : since s (afterCallback P quiet h e s) = d := since_of_append hd
  have hs2 : since (afterCallback P quiet h e s) (irq_handler_asynch P quiet h e s) = d2 :=
    since_of_append hd2
  have hs3 : since s (irq_handler_asynch P quiet h e s) = d ++ d2 :=
    since_of_append (by rw [hd2, hd, List.append_assoc])
  have hgen : ∀ u : Nat → Nat → State → State, irq_handler_asynch P u h e s =
      if P.TRANSACTION_QUEUE_SIZE_SPI ≠ 0 ∧
          e &&& (P.SPI_EVENT_ALL ||| P.SPI_EVENT_INTERNAL_TRANSFER_COMPLETE) ≠ 0 then
        dequeue_transaction h (afterCallback P u h e s)
      else afterCallback P u h e s := by
    intro u
    rw [irq_handler_asynch_eq]
    simp only [busFree_iff]
  refine ⟨hgen user, ?_, ?_, ⟨?_, ?_, hqueue⟩, ⟨?_, ?_⟩, ?_, ?_, ?_⟩
  · rw [hs1]; exact hdcb
  · rw [hs3, calls_append, List.filter_append, hd2cb, List.append_nil]; exact hdcb
  · rw [hs1]; exact hdst
  · rw [hs1]; exact hdq
  · rw [hs1, hs2, hs3]
  · rw [hs2]; exact hd2cb
  · intro k t ht
    exact dequeue_transaction_nil k t ht
  · intro hlen
    rw [hgen quiet]
    by_cases hc : P.TRANSACTION_QUEUE_SIZE_SPI = 0
    · have hnil : (afterCallback P quiet h e s).queue = [] := by
        rw [hqueue]
        apply List.eq_nil_of_length_eq_zero
        omega
      simp [hc, dequeue_transaction_nil h _ hnil]
    · simp [hc]
  · intro b c hc hq hcb ha
    have hbf : busFree P e = true := busFree_of_all P e ha
    have hac : afterCallback P quiet h e s =
        { s with
            hw := { s.hw with active := false }
            trace := s.trace ++
              [⟨.spi_irq_handler_asynch h e, s.hw.active, s.depth, s.crit⟩,
               ⟨.callback h c (e &&& P.SPI_EVENT_ALL), false, s.depth, s.crit⟩] } := by
      simp [afterCallback, hcb, ha, hbf, quiet]
    have hirq : irq_handler_asynch P quiet h e s =
        dequeue_transaction h (afterCallback P quiet h e s) := by
      rw [irq_handler_asynch_eq, if_pos ⟨hc, hbf⟩]
    have hsince : since s (irq_handler_asynch P quiet h e s) =
        [⟨.spi_irq_handler_asynch h e, s.hw.active, s.depth, s.crit⟩,
         ⟨.callback h c (e &&& P.SPI_EVENT_ALL), false, s.depth, s.crit⟩]
        ++ dequeueEvents (afterCallback P quiet h e s) := by
      apply since_of_append
      rw [hirq, dequeue_transaction_trace, hac]
      simp
    refine ⟨?_, ?_, ?_⟩
    · rw [hsince, hac]
      simp only [dequeueEvents, hq, aquireEvents]
      split <;> simp [calls, Call.isCallback, Call.isStart, startCall]
    · rw [hirq, dequeue_transaction_queue, hqueue, hq]
      rfl
    · rw [hirq, dequeue_transaction_active, hqueue, hq]
      simp

/-- Witness of C8: handle 0 is transferring with callback 7, request B of handle 1
is queued; the completion of handle 0 with mask 4 invokes callback 7 with
argument 4 and then starts B, and the queue is empty again. -/
theorem C8_irq_handler_asynch_witness :
    (demoPlatform.TRANSACTION_QUEUE_SIZE_SPI ≠ 0
      ∧ (run demoPlatform quiet [.ctor 0, .ctor 1, .transfer 0 reqA, .transfer 1 reqB]
          State.boot).queue = [⟨1, reqB⟩])
    ∧ (calls (since
          (run demoPlatform quiet [.ctor 0, .ctor 1, .transfer 0 reqA, .transfer 1 reqB]
            State.boot)
          (irq_handler_asynch demoPlatform quiet 0 4
            (run demoPlatform quiet [.ctor 0, .ctor 1, .transfer 0 reqA, .transfer 1 reqB]
              State.boot)))).filter (fun x => x.isCallback || x.isStart)
        = [.callback 0 7 4, startCall ⟨1, reqB⟩ DMA_USAGE_NEVER]
    ∧ (irq_handler_asynch demoPlatform quiet 0 4
        (run demoPlatform quiet [.ctor 0, .ctor 1, .transfer 0 reqA, .transfer 1 reqB]
          State.boot)).queue.length = 0 :=
  have w := (C8_irq_handler_asynch demoPlatform quiet 0 4
    (run demoPlatform quiet [.ctor 0, .ctor 1, .transfer 0 reqA, .transfer 1 reqB]
      State.boot)).2.2.2.2.2.2.2 ⟨1, reqB⟩ 7 (by decide) (by decide) (by decide) (by decide)
  ⟨by decide, w.1, w.2.1⟩

theorem busCount_le (a : Bool) : busCount a ≤ 1 := by
  cases a <;> simp [busCount]

theorem inFlight_append (P : Platform) (n : Nat) (a b : List Event) :
    inFlight P n (a ++ b) = inFlight P (inFlight P n a) b := by
  simp [inFlight, List.foldl_append]

theorem OneAtATime.nil (P : Platform) (a : Bool) : OneAtATime P a [] a := by
  refine ⟨by simp, ?_, rfl⟩
  intro k
  simpa [inFlight] using busCount_le a

theorem OneAtATime.append {P : Platform} {a b c : Bool} {x y : List Event}
    (h1 : OneAtATime P a x b) (h2 : OneAtATime P b y c) : OneAtATime P a (x ++ y) c := by
  obtain ⟨h1s, h1p, h1e⟩ := h1
  obtain ⟨h2s, h2p, h2e⟩ := h2
  refine ⟨?_, ?_, ?_⟩
  · intro ev hev
    rcases List.mem_append.1 hev with hm | hm
    · exact h1s ev hm
    · exact h2s ev hm
  · intro k
    rw [List.take_append_eq_append_take, inFlight_append]
    by_cases hk : k ≤ x.length
    · have h0 : k - x.length = 0 := by omega
      rw [h0]
      simpa [inFlight] using h1p k
    · have hall : List.take k x = x := List.take_of_length_le (by omega)
      rw [hall, h1e]
      exact h2p _
  · rw [inFlight_append, h1e, h2e]

theorem OneAtATime.single {P : Platform} {a b : Bool} (ev : Event)
    (hs : ev.call.isStart = true → ev.busy = false)
    (hc : inFlightStep P (busCount a) ev.call = busCount b) : OneAtATime P a [ev] b := by
  refine ⟨?_, ?_, ?_⟩
  · intro x hx
    rw [List.mem_singleton.1 hx]
    exact hs
  · intro k
    cases k with
    | zero => simpa [inFlight] using busCount_le a
    | succ k =>
      simp only [List.take_succ_cons, List.take_nil, inFlight, List.foldl_cons, List.foldl_nil]
      rw [hc]
      exact busCount_le b
  · simp only [inFlight, List.foldl_cons, List.foldl_nil]
    exact hc

theorem Ext.refl (P : Platform) (s : State) : Ext P s s :=
  ⟨[], by simp, OneAtATime.nil P _⟩

theorem Ext.trans {P : Platform} {s t u : State} (h1 : Ext P s t) (h2 : Ext P t u) :
    Ext P s u := by
  obtain ⟨d1, e1, g1⟩ := h1
  obtain ⟨d2, e2, g2⟩ := h2
  exact ⟨d1 ++ d2, by rw [e2, e1, List.append_assoc], g1.append g2⟩

theorem Ext.same {P : Platform} {s t : State} (ht : t.trace = s.trace)
    (ha : t.hw.active = s.hw.active) : Ext P s t :=
  ⟨[], by simp [ht], by rw [ha]; exact OneAtATime.nil P _⟩

theorem Ext.snoc {P : Platform} {s t : State} (ev : Event)
    (ht : t.trace = s.trace ++ [ev])
    (hs : ev.call.isStart = true → ev.busy = false)
    (hc : inFlightStep P (busCount s.hw.active) ev.call = busCount t.hw.active) : Ext P s t :=
  ⟨[ev], ht, OneAtATime.single ev hs hc⟩

theorem Ext.quietCall {P : Platform} {s t : State} (c : Call) (b : Bool) (m n : Nat)
    (ht : t.trace = s.trace ++ [⟨c, b, m, n⟩])
    (ha : t.hw.active = s.hw.active)
    (hb : c.isBusEvent = false) : Ext P s t := by
  apply Ext.snoc ⟨c, b, m, n⟩ ht
  · intro hst
    cases c <;> simp [Call.isStart, Call.isBusEvent] at hst hb
  · rw [ha]
    cases c <;> simp [inFlightStep, Call.isBusEvent] at hb ⊢

theorem ext_lock (P : Platform) (s : State) : Ext P s (lock s) :=
  Ext.quietCall .mutex_lock s.hw.active s.depth s.crit rfl rfl rfl

theorem ext_unlock (P : Platform) (s : State) : Ext P s (unlock s) :=
  Ext.quietCall .mutex_unlock s.hw.active s.depth s.crit rfl rfl rfl

theorem ext_aquire (P : Platform) (h : Handle) (s : State) : Ext P s (aquire h s) := by
  unfold aquire
  refine Ext.trans ?_ (ext_unlock P _)
  refine Ext.trans (ext_lock P s) ?_
  split
  · refine Ext.trans (t := spi_format h ((lock s).obj h).bits ((lock s).obj h).mode 0 (lock s)) ?_ ?_
    · exact Ext.quietCall _ _ _ _ rfl rfl rfl
    · refine Ext.trans (t := spi_frequency h ((lock s).obj h).hz
        (spi_format h ((lock s).obj h).bits ((lock s).obj h).mode 0 (lock s))) ?_ ?_
      · exact Ext.quietCall _ _ _ _ rfl rfl rfl
      · exact Ext.same rfl rfl
  · exact Ext.refl P _

theorem ext_spi_master_transfer (P : Platform) (h : Handle) (tx_buffer : Nat) (tx_length : Int)
    (rx_buffer : Nat) (rx_length : Int) (bit_width : Nat) (event : Int) (hint : DMAUsage)
    (s : State) (hidle : s.hw.active = false) :
    Ext P s (spi_master_transfer h tx_buffer tx_length rx_buffer rx_length bit_width event hint s) := by
  refine Ext.snoc ⟨_, s.hw.active, s.depth, s.crit⟩ rfl (fun _ => hidle) ?_
  simp [inFlightStep, spi_master_transfer, hidle, busCount]

theorem ext_start_transfer (P : Platform) (h : Handle) (tx_buffer : Nat) (tx_length : Int)
    (rx_buffer : Nat) (rx_length : Int) (bit_width : Nat) (callback : event_callback_t)
    (event : Int) (s : State) (hidle : s.hw.active = false) :
    Ext P s (start_transfer h tx_buffer tx_length rx_buffer rx_length bit_width callback event s) := by
  unfold start_transfer
  refine Ext.trans (ext_aquire P h s) ?_
  refine Ext.trans ?_ (ext_spi_master_transfer P _ _ _ _ _ _ _ _ _ ?_)
  · exact Ext.same rfl rfl
  · simp [setObj, hidle]

theorem ext_dequeue_transaction (P : Platform) (h : Handle) (s : State)
    (hidle : s.hw.active = false ∨ s.queue = []) : Ext P s (dequeue_transaction h s) := by
  cases hq : s.queue with
  | nil =>
    rw [dequeue_transaction_nil h s hq]
    exact Ext.refl P s
  | cons t rest =>
    have ha : s.hw.active = false := by
      rcases hidle with ha | hnil
      · exact ha
      · rw [hq] at hnil; cases hnil
    rw [dequeue_transaction_cons h s t rest hq]
    refine Ext.trans
      (t := { s with queue := rest,
                     trace := s.trace ++ [⟨.pop t, s.hw.active, s.depth, s.crit⟩] })
      ?_ (ext_start_transfer P _ _ _ _ _ _ _ _ _ ha)
    exact Ext.quietCall _ _ _ _ rfl rfl rfl

theorem ext_ctor (P : Platform) (h : Handle) (s : State) : Ext P s (MbedSPI.ctor h s) := by
  unfold MbedSPI.ctor
  refine Ext.trans ?_ (ext_aquire P h _)
  refine Ext.trans (t := setObj h ⟨8, 0, 1000000, DMA_USAGE_NEVER, none, false⟩ s) ?_ ?_
  · exact Ext.same rfl rfl
  · exact Ext.quietCall _ _ _ _ rfl rfl rfl

theorem ext_format (P : Platform) (h : Handle) (bits mode : Int) (s : State) :
    Ext P s (format h bits mode s) := by
  unfold format
  refine Ext.trans ?_ (ext_unlock P _)
  refine Ext.trans ?_ (ext_aquire P h _)
  refine Ext.trans (ext_lock P s) ?_
  exact Ext.same rfl rfl

theorem ext_frequency (P : Platform) (h : Handle) (hz : Int) (s : State) :
    Ext P s (frequency h hz s) := by
  unfold frequency
  refine Ext.trans ?_ (ext_unlock P _)
  refine Ext.trans ?_ (ext_aquire P h _)
  refine Ext.trans (ext_lock P s) ?_
  exact Ext.same rfl rfl

theorem ext_write (P : Platform) (h : Handle) (value : Int) (s : State) :
    Ext P s (write P h value s).2 := by
  unfold write
  refine Ext.trans ?_ (ext_unlock P _)
  refine Ext.trans (ext_lock P s) ?_
  refine Ext.trans (ext_aquire P h _) ?_
  exact Ext.quietCall _ _ _ _ rfl rfl rfl

theorem queue_transfer_busy (P : Platform) (h : Handle) (tx_buffer : Nat) (tx_length : Int)
    (rx_buffer : Nat) (rx_length : Int) (bit_width : Nat) (callback : event_callback_t)
    (event : Int) (s : State) (hbusy : s.hw.active = true)
    (hroom : CircularBuffer.full P s.queue = false) :
    queue_transfer P h tx_buffer tx_length rx_buffer rx_length bit_width callback event s =
      (0, { s with
              queue := s.queue ++ [⟨h, ⟨tx_buffer, tx_length, rx_buffer, rx_length, event,
                                        callback, bit_width⟩⟩]
              trace := s.trace ++
                [⟨.core_util_critical_section_enter, true, s.depth, s.crit⟩,
                 ⟨.push ⟨h, ⟨tx_buffer, tx_length, rx_buffer, rx_length, event, callback,
                            bit_width⟩⟩, true, s.depth, s.crit + 1⟩,
                 ⟨.core_util_critical_section_exit, true, s.depth, s.crit + 1⟩] }) := by
  have hc : P.TRANSACTION_QUEUE_SIZE_SPI ≠ 0 := by
    intro h0
    simp [CircularBuffer.full, h0] at hroom
  simp [queue_transfer, hc, hroom, core_util_critical_section_enter,
    core_util_critical_section_exit, emit, spi_active, hbusy, CircularBuffer.push]

theorem queue_transfer_full (P : Platform) (h : Handle) (tx_buffer : Nat) (tx_length : Int)
    (rx_buffer : Nat) (rx_length : Int) (bit_width : Nat) (callback : event_callback_t)
    (event : Int) (s : State) (hfull : CircularBuffer.full P s.queue = true) :
    queue_transfer P h tx_buffer tx_length rx_buffer rx_length bit_width callback event s =
      (-1, s) := by
  by_cases hc : P.TRANSACTION_QUEUE_SIZE_SPI = 0
  · simp [queue_transfer, hc]
  · simp [queue_transfer, hc, hfull]

theorem ext_transfer (P : Platform) (h : Handle) (tx_buffer : Nat) (tx_length : Int)
    (rx_buffer : Nat) (rx_length : Int) (bit_width : Nat) (callback : event_callback_t)
    (event : Int) (s : State) :
    Ext P s (transfer P h tx_buffer tx_length rx_buffer rx_length bit_width callback event s).2 := by
  cases ha : s.hw.active with
  | false =>
    rw [transfer_idle _ _ _ _ _ _ _ _ _ _ ha]
    exact ext_start_transfer P _ _ _ _ _ _ _ _ _ ha
  | true =>
    have ht : transfer P h tx_buffer tx_length rx_buffer rx_length bit_width callback event s =
        queue_transfer P h tx_buffer tx_length rx_buffer rx_length bit_width callback event s := by
      simp [transfer, spi_active, ha]
    rw [ht]
    cases hf : CircularBuffer.full P s.queue with
    | true =>
      rw [queue_transfer_full _ _ _ _ _ _ _ _ _ _ hf]
      exact Ext.refl P s
    | false =>
      rw [queue_transfer_busy _ _ _ _ _ _ _ _ _ _ ha hf]
      refine ⟨_, rfl, ?_⟩
      refine OneAtATime.append (b := s.hw.active)
        (x := [⟨.core_util_critical_section_enter, true, s.depth, s.crit⟩]) ?_ ?_
      · exact OneAtATime.single _ (by simp [Call.isStart]) (by simp [inFlightStep])
      · refine OneAtATime.append (b := s.hw.active)
          (x := [⟨.push _, true, s.depth, s.crit + 1⟩]) ?_ ?_
        · exact OneAtATime.single _ (by simp [Call.isStart]) (by simp [inFlightStep])
        · exact OneAtATime.single _ (by simp [Call.isStart]) (by simp [inFlightStep])

theorem ext_spi_abort_asynch (P : Platform) (h : Handle) (s : State) :
    Ext P s (spi_abort_asynch h s) := by
  refine Ext.snoc ⟨_, s.hw.active, s.depth, s.crit⟩ rfl (by simp [Call.isStart]) ?_
  cases ha : s.hw.active <;> simp [inFlightStep, spi_abort_asynch, busCount]

theorem ext_abort_transfer (P : Platform) (h : Handle) (s : State) :
    Ext P s (abort_transfer P h s) := by
  unfold abort_transfer
  refine Ext.trans (ext_spi_abort_asynch P h s) ?_
  split
  · exact ext_dequeue_transaction P h _ (Or.inl rfl)
  · exact Ext.refl P _

theorem ext_clear_transfer_buffer (P : Platform) (h : Handle) (s : State) :
    Ext P s (clear_transfer_buffer P h s) := by
  unfold clear_transfer_buffer
  split
  · exact Ext.quietCall _ _ _ _ rfl rfl rfl
  · exact Ext.refl P _

theorem ext_abort_all_transfers (P : Platform) (h : Handle) (s : State) :
    Ext P s (abort_all_transfers P h s) := by
  unfold abort_all_transfers
  exact Ext.trans (ext_clear_transfer_buffer P h s) (ext_abort_transfer P h _)

theorem ext_set_dma_usage (P : Platform) (h : Handle) (usage : DMAUsage) (s : State) :
    Ext P s (set_dma_usage h usage s).2 := by
  unfold set_dma_usage
  split
  · exact Ext.refl P _
  · exact Ext.same rfl rfl

theorem afterCallback_quiet (P : Platform) (h : Handle) (e : Nat) (s : State) :
    (afterCallback P quiet h e s).hw.active = (s.hw.active && !busFree P e)
    ∧ (afterCallback P quiet h e s).queue = s.queue
    ∧ (afterCallback P quiet h e s).obj = s.obj := by
  unfold afterCallback
  cases (s.obj h).callback with
  | none => exact ⟨rfl, rfl, rfl⟩
  | some c =>
    by_cases ha : e &&& P.SPI_EVENT_ALL = 0
    · simp [ha]
    · simp [ha, quiet]

theorem ext_afterCallback (P : Platform) (h : Handle) (e : Nat) (s : State) :
    Ext P s (afterCallback P quiet h e s) := by
  have hdec : Ext P s
      { s with
          hw := { s.hw with active := s.hw.active && !busFree P e }
          trace := s.trace ++ [⟨.spi_irq_handler_asynch h e, s.hw.active, s.depth, s.crit⟩] } := by
    refine Ext.snoc ⟨_, s.hw.active, s.depth, s.crit⟩ rfl (by simp [Call.isStart]) ?_
    cases ha : s.hw.active <;> cases hb : busFree P e <;> simp [inFlightStep, busCount, hb]
  unfold afterCallback
  cases (s.obj h).callback with
  | none => exact hdec
  | some c =>
    by_cases ha : e &&& P.SPI_EVENT_ALL = 0
    · simp only [ha, ne_eq, not_true_eq_false, if_false]
      exact hdec
    · simp only [ha, ne_eq, not_false_eq_true, if_true, quiet]
      refine Ext.trans hdec ?_
      exact Ext.quietCall (.callback h c (e &&& P.SPI_EVENT_ALL)) (s.hw.active && !busFree P e)
        s.depth s.crit (by simp) rfl rfl

theorem ext_irq_handler_asynch (P : Platform) (h : Handle) (e : Nat) (s : State) :
    Ext P s (irq_handler_asynch P quiet h e s) := by
  rw [irq_handler_asynch_eq]
  split
  · rename_i hc
    refine Ext.trans (ext_afterCallback P h e s) (ext_dequeue_transaction P h _ (Or.inl ?_))
    rw [(afterCallback_quiet P h e s).1, hc.2]
    simp
  · exact ext_afterCallback P h e s

theorem ext_step (P : Platform) (o : Op) (s : State) : Ext P s (step P quiet o s) := by
  cases o with
  | ctor h => exact ext_ctor P h s
  | format h bits mode => exact ext_format P h bits mode s
  | frequency h hz => exact ext_frequency P h hz s
  | write h value => exact ext_write P h value s
  | transfer h t => exact ext_transfer P h _ _ _ _ _ _ _ s
  | abort_transfer h => exact ext_abort_transfer P h s
  | clear_transfer_buffer h => exact ext_clear_transfer_buffer P h s
  | abort_all_transfers h => exact ext_abort_all_transfers P h s
  | set_dma_usage h usage => exact ext_set_dma_usage P h usage s
  | irq h pending => exact ext_irq_handler_asynch P h pending s

theorem run_cons (P : Platform) (user : Nat → Nat → State → State) (o : Op) (ops : List Op)
    (s : State) : run P user (o :: ops) s = run P user ops (step P user o s) := rfl

theorem run_append (P : Platform) (user : Nat → Nat → State → State) (a b : List Op)
    (s : State) : run P user (a ++ b) s = run P user b (run P user a s) := by
  simp [run, List.foldl_append]

theorem ext_run (P : Platform) (ops : List Op) (s : State) : Ext P s (run P quiet ops s) := by
  induction ops generalizing s with
  | nil => exact Ext.refl P s
  | cons o ops ih =>
    rw [run_cons]
    exact Ext.trans (ext_step P o s) (ih _)

/-- C1: from any state and for any sequence of driver calls and completion
interrupts (callbacks do not call back into the driver), every hardware start
issued during the run was issued with the bus idle; replaying the events of
the run (a start puts one transfer in flight, an abort or a completion ends
one), at no point are two transfers in flight, and at the end the transfers in
flight are exactly what the bus state shows (one if active, none if idle). -/
theorem C1_one_transfer_at_a_time (P : Platform) (ops : List Op) (s : State) :
    (∀ ev ∈ since s (run P quiet ops s), ev.call.isStart = true → ev.busy = false)
    ∧ (∀ k, inFlight P (busCount s.hw.active) ((since s (run P quiet ops s)).take k) ≤ 1)
    ∧ inFlight P (busCount s.hw.active) (since s (run P quiet ops s))
        = busCount (run P quiet ops s).hw.active := by
  obtain ⟨d, hd, hgood⟩ := ext_run P ops s
  rw [since_of_append hd]
  exact hgood

theorem transferOf_busy (P : Platform) (r : Transaction) (s : State)
    (hbusy : s.hw.active = true) (hroom : s.queue.length < P.TRANSACTION_QUEUE_SIZE_SPI) :
    transferOf P r s =
      (0, { s with
              queue := s.queue ++ [r]
              trace := s.trace ++
                [⟨.core_util_critical_section_enter, true, s.depth, s.crit⟩,
                 ⟨.push r, true, s.depth, s.crit + 1⟩,
                 ⟨.core_util_critical_section_exit, true, s.depth, s.crit + 1⟩] }) := by
  have hf : CircularBuffer.full P s.queue = false := by
    simp [CircularBuffer.full, hroom]
  have ht : transferOf P r s =
      queue_transfer P r.obj r.data.tx_buffer r.data.tx_length r.data.rx_buffer r.data.rx_length
        r.data.width r.data.callback r.data.event s := by
    simp [transferOf, transfer, spi_active, hbusy]
  rw [ht, queue_transfer_busy _ _ _ _ _ _ _ _ _ _ hbusy hf]

theorem transferOf_full (P : Platform) (r : Transaction) (s : State)
    (hbusy : s.hw.active = true) (hfull : P.TRANSACTION_QUEUE_SIZE_SPI ≤ s.queue.length) :
    transferOf P r s = (-1, s) := by
  have hf : CircularBuffer.full P s.queue = true := by
    simp [CircularBuffer.full, hfull]
  have ht : transferOf P r s =
      queue_transfer P r.obj r.data.tx_buffer r.data.tx_length r.data.rx_buffer r.data.rx_length
        r.data.width r.data.callback r.data.event s := by
    simp [transferOf, transfer, spi_active, hbusy]
  rw [ht, queue_transfer_full _ _ _ _ _ _ _ _ _ _ hf]

theorem transfers_busy (P : Platform) (reqs : List Transaction) (s : State)
    (hbusy : s.hw.active = true)
    (hroom : s.queue.length + reqs.length ≤ P.TRANSACTION_QUEUE_SIZE_SPI) :
    (transfers P reqs s).1 = List.replicate reqs.length 0
    ∧ (transfers P reqs s).2.queue = s.queue ++ reqs
    ∧ (transfers P reqs s).2.hw = s.hw
    ∧ (transfers P reqs s).2.obj = s.obj
    ∧ (transfers P reqs s).2.owner = s.owner
    ∧ (transfers P reqs s).2.depth = s.depth
    ∧ (transfers P reqs s).2.crit = s.crit
    ∧ ∃ d, (transfers P reqs s).2.trace = s.trace ++ d ∧ starts d = [] := by
  induction reqs generalizing s with
  | nil => simp [transfers]
  | cons r rs ih =>
    have hlt : s.queue.length < P.TRANSACTION_QUEUE_SIZE_SPI := by
      simp only [List.length_cons] at hroom
      omega
    have hstep := transferOf_busy P r s hbusy hlt
    have hroom2 : (transferOf P r s).2.queue.length + rs.length
        ≤ P.TRANSACTION_QUEUE_SIZE_SPI := by
      rw [hstep]
      simp only [List.length_append, List.length_cons, List.length_nil] at hroom ⊢
      omega
    have hbusy2 : (transferOf P r s).2.hw.active = true := by
      rw [hstep]; exact hbusy
    obtain ⟨i1, i2, i3, i4, i5, i6, i7, i8⟩ := ih (transferOf P r s).2 hbusy2 hroom2
    simp only [transfers]
    refine ⟨?_, ?_, ?_, ?_, ?_, ?_, ?_, ?_⟩
    · rw [i1, hstep]; rfl
    · rw [i2, hstep]; simp
    · rw [i3, hstep]
    · rw [i4, hstep]
    · rw [i5, hstep]
    · rw [i6, hstep]
    · rw [i7, hstep]
    · obtain ⟨d, hd, hds⟩ := i8
      refine ⟨[⟨.core_util_critical_section_enter, true, s.depth, s.crit⟩,
                 ⟨.push r, true, s.depth, s.crit + 1⟩,
                 ⟨.core_util_critical_section_exit, true, s.depth, s.crit + 1⟩] ++ d, ?_, ?_⟩
      · rw [hd, hstep, List.append_assoc]
      · simp [hds, Call.isStart]

theorem dequeue_transaction_queue_le (h : Handle) (s : State) :
    (dequeue_transaction h s).queue.length ≤ s.queue.length := by
  rw [dequeue_transaction_queue]
  simp

theorem abort_transfer_queue_le (P : Platform) (h : Handle) (s : State) :
    (abort_transfer P h s).queue.length ≤ s.queue.length := by
  unfold abort_transfer
  split
  · exact dequeue_transaction_queue_le h _
  · exact Nat.le_refl _

theorem clear_transfer_buffer_queue_le (P : Platform) (h : Handle) (s : State) :
    (clear_transfer_buffer P h s).queue.length ≤ s.queue.length := by
  unfold clear_transfer_buffer
  split
  · simp [emit, CircularBuffer.reset]
  · exact Nat.le_refl _

theorem transferOf_queue_le (P : Platform) (r : Transaction) (s : State)
    (hq : s.queue.length ≤ P.TRANSACTION_QUEUE_SIZE_SPI) :
    (transferOf P r s).2.queue.length ≤ P.TRANSACTION_QUEUE_SIZE_SPI := by
  cases ha : s.hw.active with
  | false =>
    simp only [transferOf]
    rw [transfer_idle _ _ _ _ _ _ _ _ _ _ ha]
    simpa [start_transfer_eq] using hq
  | true =>
    by_cases hf : P.TRANSACTION_QUEUE_SIZE_SPI ≤ s.queue.length
    · rw [transferOf_full P r s ha hf]
      exact hq
    · rw [transferOf_busy P r s ha (by omega)]
      simp only [List.length_append, List.length_cons, List.length_nil]
      omega

theorem step_queue_le (P : Platform) (o : Op) (s : State)
    (hq : s.queue.length ≤ P.TRANSACTION_QUEUE_SIZE_SPI) :
    (step P quiet o s).queue.length ≤ P.TRANSACTION_QUEUE_SIZE_SPI := by
  cases o with
  | ctor h => simpa [step, MbedSPI.ctor, spi_init, emit, setObj] using hq
  | format h bits mode => simpa [step, format, lock, unlock, emit, setObj] using hq
  | frequency h hz => simpa [step, frequency, lock, unlock, emit, setObj] using hq
  | write h value => simpa [step, write, spi_master_write, lock, unlock, emit] using hq
  | transfer h t => exact transferOf_queue_le P ⟨h, t⟩ s hq
  | abort_transfer h => exact Nat.le_trans (abort_transfer_queue_le P h s) hq
  | clear_transfer_buffer h => exact Nat.le_trans (clear_transfer_buffer_queue_le P h s) hq
  | abort_all_transfers h =>
    exact Nat.le_trans (abort_transfer_queue_le P h _)
      (Nat.le_trans (clear_transfer_buffer_queue_le P h s) hq)
  | set_dma_usage h usage =>
    simp only [step, set_dma_usage]
    split
    · exact hq
    · exact hq
  | irq h pending =>
    simp only [step]
    rw [irq_handler_asynch_eq]
    split
    · exact Nat.le_trans (dequeue_transaction_queue_le h _)
        (by rw [(afterCallback_quiet P h pending s).2.1]; exact hq)
    · rw [(afterCallback_quiet P h pending s).2.1]; exact hq

theorem run_queue_le (P : Platform) (ops : List Op) (s : State)
    (hq : s.queue.length ≤ P.TRANSACTION_QUEUE_SIZE_SPI) :
    (run P quiet ops s).queue.length ≤ P.TRANSACTION_QUEUE_SIZE_SPI := by
  induction ops generalizing s with
  | nil => exact hq
  | cons o ops ih =>
    rw [run_cons]
    exact ih _ (step_queue_le P o s hq)

theorem transfers_append (P : Platform) (a b : List Transaction) (s : State) :
    transfers P (a ++ b) s =
      ((transfers P a s).1 ++ (transfers P b (transfers P a s).2).1,
        (transfers P b (transfers P a s).2).2) := by
  induction a generalizing s with
  | nil => simp [transfers]
  | cons r rs ih => simp [transfers, ih]

/-- C4: capacity `C` (any number, so every `C >= 1`), empty queue, bus active. Of `C + 1` consecutive
`transfer` calls the first `C` return 0 and the last returns -1; the bus is
still active and the queue then holds exactly the first `C` requests, in
submission order (so its length is `C`). Moreover the bound on the queue length
is an invariant: no sequence of driver calls and completion interrupts takes a
queue of length at most `C` beyond `C`. -/
theorem C4_queue_capacity (P : Platform) (reqs : List Transaction) (extra : Transaction)
    (s : State) (hq : s.queue = []) (hbusy : spi_active extra.obj s = true)
    (hlen : reqs.length = P.TRANSACTION_QUEUE_SIZE_SPI) :
    (transfers P (reqs ++ [extra]) s).1
        = List.replicate P.TRANSACTION_QUEUE_SIZE_SPI 0 ++ [-1]
    ∧ (transfers P (reqs ++ [extra]) s).2.queue = reqs
    ∧ (transfers P (reqs ++ [extra]) s).2.queue.length = P.TRANSACTION_QUEUE_SIZE_SPI
    ∧ (transfers P (reqs ++ [extra]) s).2 = (transfers P reqs s).2
    ∧ (transfers P (reqs ++ [extra]) s).2.hw.active = true
    ∧ (∀ (ops : List Op) (t : State), t.queue.length ≤ P.TRANSACTION_QUEUE_SIZE_SPI →
        (run P quiet ops t).queue.length ≤ P.TRANSACTION_QUEUE_SIZE_SPI) := by
  have ha : s.hw.active = true := hbusy
  obtain ⟨i1, i2, i3, _, _, _, _, _⟩ := transfers_busy P reqs s ha (by simp [hq, hlen])
  have hq2 : (transfers P reqs s).2.queue = reqs := by simpa [hq] using i2
  have ha2 : (transfers P reqs s).2.hw.active = true := by rw [i3]; exact ha
  have hlast : transferOf P extra (transfers P reqs s).2 = (-1, (transfers P reqs s).2) :=
    transferOf_full P extra _ ha2 (by rw [hq2, hlen])
  have hall : transfers P (reqs ++ [extra]) s =
      (List.replicate P.TRANSACTION_QUEUE_SIZE_SPI 0 ++ [-1], (transfers P reqs s).2) := by
    rw [transfers_append, i1, hlen]
    simp [transfers, hlast]
  rw [hall]
  exact ⟨rfl, hq2, by rw [hq2, hlen], rfl, ha2, fun ops t ht => run_queue_le P ops t ht⟩

/-- Witness of C4: capacity 2, the transfer of handle 0 in flight, then three
more requests. -/
theorem C4_queue_capacity_witness :
    1 ≤ demoPlatform.TRANSACTION_QUEUE_SIZE_SPI
    ∧ (run demoPlatform quiet [.ctor 0, .ctor 1, .transfer 0 reqA] State.boot).queue = []
    ∧ (transfers demoPlatform ([⟨1, reqB⟩, ⟨0, reqC⟩] ++ [⟨1, reqA⟩])
        (run demoPlatform quiet [.ctor 0, .ctor 1, .transfer 0 reqA] State.boot)).1 = [0, 0, -1]
    ∧ (transfers demoPlatform ([⟨1, reqB⟩, ⟨0, reqC⟩] ++ [⟨1, reqA⟩])
        (run demoPlatform quiet [.ctor 0, .ctor 1, .transfer 0 reqA] State.boot)).2.queue
          = [⟨1, reqB⟩, ⟨0, reqC⟩] :=
  have w := C4_queue_capacity demoPlatform [⟨1, reqB⟩, ⟨0, reqC⟩] ⟨1, reqA⟩
    (run demoPlatform quiet [.ctor 0, .ctor 1, .transfer 0 reqA] State.boot)
    (by decide) (by decide) (by decide)
  ⟨by decide, by decide, w.1, w.2.1⟩

theorem irq_quiet_busFree (P : Platform) (h : Handle) (e : Nat) (s : State)
    (hwf : s.queue.length ≤ P.TRANSACTION_QUEUE_SIZE_SPI) (hb : busFree P e = true) :
    irq_handler_asynch P quiet h e s = dequeue_transaction h (afterCallback P quiet h e s) := by
  rw [irq_handler_asynch_eq]
  by_cases hc : P.TRANSACTION_QUEUE_SIZE_SPI = 0
  · have hnil : (afterCallback P quiet h e s).queue = [] := by
      rw [(afterCallback_quiet P h e s).2.1]
      apply List.eq_nil_of_length_eq_zero
      omega
    simp [hc, dequeue_transaction_nil h _ hnil]
  · simp [hc, hb]

theorem afterCallback_quiet_trace (P : Platform) (h : Handle) (e : Nat) (s : State) :
    ∃ d, (afterCallback P quiet h e s).trace = s.trace ++ d
      ∧ starts d = [] ∧ (calls d).filter Call.isPop = [] := by
  unfold afterCallback
  cases (s.obj h).callback with
  | none => exact ⟨_, rfl, by simp [Call.isStart, Call.isPop]⟩
  | some c =>
    by_cases ha : e &&& P.SPI_EVENT_ALL = 0
    · simp only [ha, ne_eq, not_true_eq_false, if_false]
      exact ⟨_, rfl, by simp [Call.isStart, Call.isPop]⟩
    · simp only [ha, ne_eq, not_false_eq_true, if_true, quiet]
      exact ⟨_, rfl, by simp [Call.isStart, Call.isPop]⟩

theorem pops_aquireEvents (h : Handle) (s : State) :
    (calls (aquireEvents h s)).filter Call.isPop = [] := by
  unfold aquireEvents
  split <;> rfl

theorem dequeueEvents_starts (s : State) :
    starts (dequeueEvents s) = (s.queue.take 1).map (fun r => startCall r (s.obj r.obj).usage) := by
  unfold dequeueEvents
  cases s.queue with
  | nil => rfl
  | cons t rest => simp [Call.isStart, startCall]

theorem dequeueEvents_pops (s : State) :
    (calls (dequeueEvents s)).filter Call.isPop = (s.queue.take 1).map Call.pop := by
  unfold dequeueEvents
  cases s.queue with
  | nil => rfl
  | cons t rest =>
    simp only [List.cons_append, calls_cons, calls_append, List.filter_cons, List.filter_append,
      pops_aquireEvents, calls_nil]
    simp [Call.isPop, startCall]

theorem dequeue_transaction_usage (h : Handle) (s : State) (k : Handle) :
    ((dequeue_transaction h s).obj k).usage = (s.obj k).usage := by
  cases hq : s.queue with
  | nil => rw [dequeue_transaction_nil h s hq]
  | cons t rest =>
    rw [dequeue_transaction_cons h s t rest hq]
    simp only [start_transfer_eq]
    by_cases hk : k = t.obj
    · subst hk; simp
    · simp [Function.update, hk]

/-- One completion interrupt with a bus-free mask: the facts a drain gives. -/
theorem irq_drains_one (P : Platform) (h : Handle) (e : Nat) (s : State)
    (hwf : s.queue.length ≤ P.TRANSACTION_QUEUE_SIZE_SPI) (hb : busFree P e = true) :
    (∃ d, (irq_handler_asynch P quiet h e s).trace = s.trace ++ d
      ∧ starts d = (s.queue.take 1).map (fun r => startCall r (s.obj r.obj).usage)
      ∧ (calls d).filter Call.isPop = (s.queue.take 1).map Call.pop)
    ∧ (irq_handler_asynch P quiet h e s).queue = s.queue.drop 1
    ∧ (∀ k, ((irq_handler_asynch P quiet h e s).obj k).usage = (s.obj k).usage) := by
  rw [irq_quiet_busFree P h e s hwf hb]
  obtain ⟨hact, hqu, hobj⟩ := afterCallback_quiet P h e s
  obtain ⟨d, hd, hds, hdp⟩ := afterCallback_quiet_trace P h e s
  refine ⟨⟨d ++ dequeueEvents (afterCallback P quiet h e s), ?_, ?_, ?_⟩, ?_, ?_⟩
  · rw [dequeue_transaction_trace, hd, List.append_assoc]
  · rw [starts_append, hds, dequeueEvents_starts, hqu, hobj]
    rfl
  · rw [calls_append, List.filter_append, hdp, dequeueEvents_pops, hqu]
    rfl
  · rw [dequeue_transaction_queue, hqu]
    cases s.queue <;> rfl
  · intro k
    rw [dequeue_transaction_usage, hobj]

theorem irq_drains (P : Platform) (irqs : List (Handle × Nat)) (s : State)
    (hwf : s.queue.length ≤ P.TRANSACTION_QUEUE_SIZE_SPI)
    (hb : ∀ x ∈ irqs, busFree P x.2 = true) :
    (∃ d, (run P quiet (irqOps irqs) s).trace = s.trace ++ d
      ∧ starts d = (s.queue.take irqs.length).map (fun r => startCall r (s.obj r.obj).usage)
      ∧ (calls d).filter Call.isPop = (s.queue.take irqs.length).map Call.pop)
    ∧ (run P quiet (irqOps irqs) s).queue = s.queue.drop irqs.length
    ∧ (∀ k, ((run P quiet (irqOps irqs) s).obj k).usage = (s.obj k).usage) := by
  induction irqs generalizing s with
  | nil => exact ⟨⟨[], by simp [irqOps, run], by simp, by simp⟩, by simp [irqOps, run], fun _ => rfl⟩
  | cons x xs ih =>
    have hx : busFree P x.2 = true := hb x (List.mem_cons_self _ _)
    obtain ⟨⟨d1, hd1, hs1, hp1⟩, hq1, hu1⟩ := irq_drains_one P x.1 x.2 s hwf hx
    have hwf1 : (irq_handler_asynch P quiet x.1 x.2 s).queue.length
        ≤ P.TRANSACTION_QUEUE_SIZE_SPI := by
      rw [hq1, List.length_drop]
      omega
    obtain ⟨⟨d2, hd2, hs2, hp2⟩, hq2, hu2⟩ :=
      ih (irq_handler_asynch P quiet x.1 x.2 s) hwf1
        (fun y hy => hb y (List.mem_cons_of_mem _ hy))
    have hrun : run P quiet (irqOps (x :: xs)) s =
        run P quiet (irqOps xs) (irq_handler_asynch P quiet x.1 x.2 s) := rfl
    have hfun : (fun r : Transaction =>
          startCall r (((irq_handler_asynch P quiet x.1 x.2 s).obj r.obj).usage))
        = (fun r : Transaction => startCall r (s.obj r.obj).usage) := by
      funext r
      rw [hu1]
    have htake : List.take (xs.length + 1) s.queue
        = List.take 1 s.queue ++ List.take xs.length (List.drop 1 s.queue) := by
      cases s.queue with
      | nil => simp
      | cons t rest => simp
    rw [hrun]
    refine ⟨⟨d1 ++ d2, ?_, ?_, ?_⟩, ?_, ?_⟩
    · rw [hd2, hd1, List.append_assoc]
    · rw [starts_append, hs1, hs2, hq1, hfun, List.length_cons, htake, List.map_append]
    · rw [calls_append, List.filter_append, hp1, hp2, hq1, List.length_cons, htake,
        List.map_append]
    · rw [hq2, hq1, List.length_cons]
      cases s.queue with
      | nil => simp
      | cons t rest => simp
    · intro k
      rw [hu2, hu1]

/-- C2: requests `reqs` (at most as many as the queue holds) submitted with
`transfer` by any handles while the bus is busy and the queue empty are all
accepted and queued in submission order. The completion interrupts that follow
(each with a bus-free mask, on any handles) start the queued requests in that
order, one per interrupt: after `j` interrupts exactly the first `j` requests
have been popped and started, each once, on the handle that submitted it and
with its own buffers, lengths, width and event mask, and the rest is still
queued; after as many interrupts as requests the queue is empty. Each such
interrupt on a non-empty queue pops the oldest request, stores its callback on
its handle and starts it. -/
theorem C2_fifo_service (P : Platform) (reqs : List Transaction) (irqs : List (Handle × Nat))
    (s : State) (hq : s.queue = []) (hbusy : s.hw.active = true)
    (hk : reqs.length ≤ P.TRANSACTION_QUEUE_SIZE_SPI)
    (hb : ∀ x ∈ irqs, busFree P x.2 = true) :
    (transfers P reqs s).1 = List.replicate reqs.length 0
    ∧ (transfers P reqs s).2.queue = reqs
    ∧ starts (since (transfers P reqs s).2 (run P quiet (irqOps irqs) (transfers P reqs s).2))
        = (reqs.take irqs.length).map (fun r => startCall r (s.obj r.obj).usage)
    ∧ (calls (since (transfers P reqs s).2
          (run P quiet (irqOps irqs) (transfers P reqs s).2))).filter Call.isPop
        = (reqs.take irqs.length).map Call.pop
    ∧ (run P quiet (irqOps irqs) (transfers P reqs s).2).queue = reqs.drop irqs.length
    ∧ (irqs.length = reqs.length →
        (run P quiet (irqOps irqs) (transfers P reqs s).2).queue = [])
    ∧ (∀ (t : State) (r : Transaction) (rest : List Transaction) (h : Handle) (e : Nat),
        t.queue.length ≤ P.TRANSACTION_QUEUE_SIZE_SPI → busFree P e = true →
        t.queue = r :: rest →
        starts (since t (irq_handler_asynch P quiet h e t)) = [startCall r (t.obj r.obj).usage]
        ∧ ((irq_handler_asynch P quiet h e t).obj r.obj).callback = r.data.callback
        ∧ (irq_handler_asynch P quiet h e t).queue = rest
        ∧ (irq_handler_asynch P quiet h e t).hw.active = true) := by
  obtain ⟨i1, i2, _, i4, _, _, _, _⟩ := transfers_busy P reqs s hbusy (by simp [hq, hk])
  have hq2 : (transfers P reqs s).2.queue = reqs := by simpa [hq] using i2
  obtain ⟨⟨d, hd, hds, hdp⟩, hdq, _⟩ :=
    irq_drains P irqs (transfers P reqs s).2 (by rw [hq2]; exact hk) hb
  rw [since_of_append hd, hds, hdp, hdq, hq2, i4]
  refine ⟨i1, rfl, rfl, rfl, rfl, ?_, ?_⟩
  · intro hlen
    rw [hlen]
    exact List.drop_length reqs
  · intro t r rest h e hwf hbf htq
    obtain ⟨⟨d1, hd1, hs1, _⟩, hq1, _⟩ := irq_drains_one P h e t hwf hbf
    rw [since_of_append hd1, hs1, hq1, htq]
    refine ⟨rfl, ?_, rfl, ?_⟩
    · rw [irq_quiet_busFree P h e t hwf hbf]
      rw [dequeue_transaction_cons h _ r rest
        (by rw [(afterCallback_quiet P h e t).2.1]; exact htq)]
      simp [start_transfer_eq]
    · rw [irq_quiet_busFree P h e t hwf hbf, dequeue_transaction_active,
        (afterCallback_quiet P h e t).2.1, htq]
      simp

/-- Witness of C2: the transfer of handle 0 in flight, the requests B (handle 1)
and C (handle 0) queued, then two completion interrupts. -/
theorem C2_fifo_service_witness :
    (run demoPlatform quiet [.ctor 0, .ctor 1, .transfer 0 reqA] State.boot).queue = []
    ∧ (run demoPlatform quiet [.ctor 0, .ctor 1, .transfer 0 reqA] State.boot).hw.active = true
    ∧ starts (since
        (transfers demoPlatform [⟨1, reqB⟩, ⟨0, reqC⟩]
          (run demoPlatform quiet [.ctor 0, .ctor 1, .transfer 0 reqA] State.boot)).2
        (run demoPlatform quiet (irqOps [(0, 4), (1, 1073741824)])
          (transfers demoPlatform [⟨1, reqB⟩, ⟨0, reqC⟩]
            (run demoPlatform quiet [.ctor 0, .ctor 1, .transfer 0 reqA] State.boot)).2))
        = [startCall ⟨1, reqB⟩ DMA_USAGE_NEVER, startCall ⟨0, reqC⟩ DMA_USAGE_NEVER]
    ∧ (run demoPlatform quiet (irqOps [(0, 4), (1, 1073741824)])
        (transfers demoPlatform [⟨1, reqB⟩, ⟨0, reqC⟩]
          (run demoPlatform quiet [.ctor 0, .ctor 1, .transfer 0 reqA] State.boot)).2).queue = [] :=
  have w := C2_fifo_service demoPlatform [⟨1, reqB⟩, ⟨0, reqC⟩] [(0, 4), (1, 1073741824)]
    (run demoPlatform quiet [.ctor 0, .ctor 1, .transfer 0 reqA] State.boot)
    (by decide) (by decide) (by decide) (by decide)
  ⟨by decide, by decide, w.2.2.1, w.2.2.2.2.2.1 rfl⟩

theorem ownerSync_frame {s t : State} (hs : ownerSync s) (ho : t.owner = s.owner)
    (hb : t.hw.bits = s.hw.bits) (hm : t.hw.mode = s.hw.mode) (hz : t.hw.hz = s.hw.hz)
    (hobj : ∀ h, (t.obj h).bits = (s.obj h).bits ∧ (t.obj h).mode = (s.obj h).mode
      ∧ (t.obj h).hz = (s.obj h).hz) : ownerSync t := by
  intro h hown
  rw [ho] at hown
  obtain ⟨h1, h2, h3⟩ := hs h hown
  obtain ⟨o1, o2, o3⟩ := hobj h
  rw [hb, hm, hz, o1, o2, o3]
  exact ⟨h1, h2, h3⟩

theorem ownerSync_aquire_fresh (h : Handle) (s : State) (hne : s.owner ≠ some h) :
    ownerSync (aquire h s) := by
  rw [aquire_eq, if_neg hne]
  intro k hk
  have hkh : k = h := by
    simp only [Option.some.injEq] at hk
    exact hk.symm
  subst hkh
  exact ⟨rfl, rfl, rfl⟩

theorem ownerSync_aquire (h : Handle) (s : State) (hs : ownerSync s) :
    ownerSync (aquire h s) := by
  by_cases ho : s.owner = some h
  · rw [aquire_eq, if_pos ho]
    exact ownerSync_frame hs rfl rfl rfl rfl (fun _ => ⟨rfl, rfl, rfl⟩)
  · exact ownerSync_aquire_fresh h s ho

theorem ownerSync_lock (s : State) (hs : ownerSync s) : ownerSync (lock s) :=
  ownerSync_frame hs rfl rfl rfl rfl (fun _ => ⟨rfl, rfl, rfl⟩)

theorem ownerSync_unlock (s : State) (hs : ownerSync s) : ownerSync (unlock s) :=
  ownerSync_frame hs rfl rfl rfl rfl (fun _ => ⟨rfl, rfl, rfl⟩)

theorem ownerSync_start_transfer (h : Handle) (tx_buffer : Nat) (tx_length : Int)
    (rx_buffer : Nat) (rx_length : Int) (bit_width : Nat) (callback : event_callback_t)
    (event : Int) (s : State) (hs : ownerSync s) :
    ownerSync (start_transfer h tx_buffer tx_length rx_buffer rx_length bit_width callback
      event s) := by
  refine ownerSync_frame (ownerSync_aquire h s hs) ?_ ?_ ?_ ?_ ?_
  · rw [start_transfer_eq]
  · rw [start_transfer_eq]
  · rw [start_transfer_eq]
  · rw [start_transfer_eq]
  · intro k
    rw [start_transfer_eq]
    by_cases hk : k = h
    · subst hk; simp
    · simp [Function.update, hk]

theorem ownerSync_dequeue_transaction (h : Handle) (s : State) (hs : ownerSync s) :
    ownerSync (dequeue_transaction h s) := by
  cases hq : s.queue with
  | nil => rw [dequeue_transaction_nil h s hq]; exact hs
  | cons t rest =>
    rw [dequeue_transaction_cons h s t rest hq]
    apply ownerSync_start_transfer
    exact ownerSync_frame hs rfl rfl rfl rfl (fun _ => ⟨rfl, rfl, rfl⟩)

theorem ownerSync_format (h : Handle) (bits mode : Int) (s : State) :
    ownerSync (format h bits mode s) := by
  unfold format
  apply ownerSync_unlock
  apply ownerSync_aquire_fresh
  simp

theorem ownerSync_frequency (h : Handle) (hz : Int) (s : State) :
    ownerSync (frequency h hz s) := by
  unfold frequency
  apply ownerSync_unlock
  apply ownerSync_aquire_fresh
  simp

theorem ownerSync_ctor (h : Handle) (s : State) (hne : s.owner ≠ some h) :
    ownerSync (MbedSPI.ctor h s) := by
  unfold MbedSPI.ctor
  apply ownerSync_aquire_fresh
  simpa [spi_init, emit, setObj] using hne

theorem ownerSync_write (P : Platform) (h : Handle) (value : Int) (s : State)
    (hs : ownerSync s) : ownerSync (write P h value s).2 := by
  unfold write
  apply ownerSync_unlock
  refine ownerSync_frame (ownerSync_aquire h _ (ownerSync_lock s hs)) rfl rfl rfl rfl
    (fun _ => ⟨rfl, rfl, rfl⟩)

theorem ownerSync_transferOf (P : Platform) (r : Transaction) (s : State) (hs : ownerSync s) :
    ownerSync (transferOf P r s).2 := by
  cases ha : s.hw.active with
  | false =>
    simp only [transferOf]
    rw [transfer_idle _ _ _ _ _ _ _ _ _ _ ha]
    exact ownerSync_start_transfer _ _ _ _ _ _ _ _ s hs
  | true =>
    by_cases hf : P.TRANSACTION_QUEUE_SIZE_SPI ≤ s.queue.length
    · rw [transferOf_full P r s ha hf]
      exact hs
    · rw [transferOf_busy P r s ha (by omega)]
      exact ownerSync_frame hs rfl rfl rfl rfl (fun _ => ⟨rfl, rfl, rfl⟩)

theorem ownerSync_abort_transfer (P : Platform) (h : Handle) (s : State) (hs : ownerSync s) :
    ownerSync (abort_transfer P h s) := by
  have h1 : ownerSync (spi_abort_asynch h s) :=
    ownerSync_frame hs rfl rfl rfl rfl (fun _ => ⟨rfl, rfl, rfl⟩)
  unfold abort_transfer
  split
  · exact ownerSync_dequeue_transaction h _ h1
  · exact h1

theorem ownerSync_clear_transfer_buffer (P : Platform) (h : Handle) (s : State)
    (hs : ownerSync s) : ownerSync (clear_transfer_buffer P h s) := by
  unfold clear_transfer_buffer
  split
  · exact ownerSync_frame hs rfl rfl rfl rfl (fun _ => ⟨rfl, rfl, rfl⟩)
  · exact hs

theorem ownerSync_set_dma_usage (h : Handle) (usage : DMAUsage) (s : State)
    (hs : ownerSync s) : ownerSync (set_dma_usage h usage s).2 := by
  unfold set_dma_usage
  split
  · exact hs
  · refine ownerSync_frame hs rfl rfl rfl rfl ?_
    intro k
    by_cases hk : k = h
    · subst hk; simp [setObj]
    · simp [setObj, Function.update, hk]

theorem ownerSync_afterCallback (P : Platform) (h : Handle) (e : Nat) (s : State)
    (hs : ownerSync s) : ownerSync (afterCallback P quiet h e s) := by
  unfold afterCallback
  cases (s.obj h).callback with
  | none => exact ownerSync_frame hs rfl rfl rfl rfl (fun _ => ⟨rfl, rfl, rfl⟩)
  | some c =>
    by_cases ha : e &&& P.SPI_EVENT_ALL = 0
    · simp only [ha, ne_eq, not_true_eq_false, if_false]
      exact ownerSync_frame hs rfl rfl rfl rfl (fun _ => ⟨rfl, rfl, rfl⟩)
    · simp only [ha, ne_eq, not_false_eq_true, if_true, quiet]
      exact ownerSync_frame hs rfl rfl rfl rfl (fun _ => ⟨rfl, rfl, rfl⟩)

theorem ownerSync_irq_handler_asynch (P : Platform) (h : Handle) (e : Nat) (s : State)
    (hs : ownerSync s) : ownerSync (irq_handler_asynch P quiet h e s) := by
  rw [irq_handler_asynch_eq]
  split
  · exact ownerSync_dequeue_transaction h _ (ownerSync_afterCallback P h e s hs)
  · exact ownerSync_afterCallback P h e s hs

theorem ownerSync_step (P : Platform) (o : Op) (s : State) (hs : ownerSync s)
    (ho : o.isCtor = false) : ownerSync (step P quiet o s) := by
  cases o with
  | ctor h => simp [Op.isCtor] at ho
  | format h bits mode => exact ownerSync_format h bits mode s
  | frequency h hz => exact ownerSync_frequency h hz s
  | write h value => exact ownerSync_write P h value s hs
  | transfer h t => exact ownerSync_transferOf P ⟨h, t⟩ s hs
  | abort_transfer h => exact ownerSync_abort_transfer P h s hs
  | clear_transfer_buffer h => exact ownerSync_clear_transfer_buffer P h s hs
  | abort_all_transfers h =>
    exact ownerSync_abort_transfer P h _ (ownerSync_clear_transfer_buffer P h s hs)
  | set_dma_usage h usage => exact ownerSync_set_dma_usage h usage s hs
  | irq h pending => exact ownerSync_irq_handler_asynch P h pending s hs

theorem ownerSync_run (P : Platform) (ops : List Op) (s : State) (hs : ownerSync s)
    (ho : ∀ o ∈ ops, o.isCtor = false) : ownerSync (run P quiet ops s) := by
  induction ops generalizing s with
  | nil => exact hs
  | cons o ops ih =>
    rw [run_cons]
    exact ih _ (ownerSync_step P o s hs (ho o (List.mem_cons_self _ _)))
      (fun x hx => ho x (List.mem_cons_of_mem _ hx))

theorem ctor_owner (h : Handle) (s : State) : (MbedSPI.ctor h s).owner = some h := by
  simp [MbedSPI.ctor]

theorem ownerSync_ctors (P : Platform) (hs : List Handle) (s : State) (h0 : ownerSync s)
    (hfresh : ∀ h ∈ hs, s.owner ≠ some h) (hnd : hs.Nodup) :
    ownerSync (run P quiet (hs.map Op.ctor) s) := by
  induction hs generalizing s with
  | nil => exact h0
  | cons h hs ih =>
    rw [List.map_cons, run_cons]
    have hn := List.nodup_cons.1 hnd
    refine ih _ (ownerSync_ctor h s (hfresh h (List.mem_cons_self _ _))) ?_ hn.2
    intro k hk
    show (MbedSPI.ctor h s).owner ≠ some k
    rw [ctor_owner]
    intro heq
    simp only [Option.some.injEq] at heq
    subst heq
    exact hn.1 hk

/-- C11: construct any distinct handles from a state in which nobody owns the
bus, then run any sequence of `format`, `frequency`, `write`, `transfer`,
`set_dma_usage`, abort, clear and completion-handler steps on any handles
(callbacks do not call back into the driver). In the state reached, if a handle
`h` is recorded as owner, the format and clock registers hold exactly the
current bits, mode and hz of `h`. -/
theorem C11_owner_registers (P : Platform) (hs : List Handle) (ops : List Op) (s : State)
    (h0 : s.owner = none) (hnd : hs.Nodup) (hops : ∀ o ∈ ops, o.isCtor = false) :
    ∀ h, (run P quiet ops (run P quiet (hs.map Op.ctor) s)).owner = some h →
      (run P quiet ops (run P quiet (hs.map Op.ctor) s)).hw.bits
          = ((run P quiet ops (run P quiet (hs.map Op.ctor) s)).obj h).bits
      ∧ (run P quiet ops (run P quiet (hs.map Op.ctor) s)).hw.mode
          = ((run P quiet ops (run P quiet (hs.map Op.ctor) s)).obj h).mode
      ∧ (run P quiet ops (run P quiet (hs.map Op.ctor) s)).hw.hz
          = ((run P quiet ops (run P quiet (hs.map Op.ctor) s)).obj h).hz := by
  have hboot : ownerSync s := by
    intro h hh
    rw [h0] at hh
    cases hh
  exact ownerSync_run P ops _
    (ownerSync_ctors P hs s hboot (fun h _ => by rw [h0]; simp) hnd) hops

/-- Witness of C11: two handles constructed from boot, then handle 1 changes its
format, handle 0 starts a transfer, handle 1 queues one, handle 1 changes its
clock and the transfer of handle 0 completes. -/
theorem C11_owner_registers_witness :
    State.boot.owner = none
    ∧ [0, 1].Nodup
    ∧ (run demoPlatform quiet
        [.format 1 16 3, .transfer 0 reqA, .transfer 1 reqB, .frequency 1 2000000, .irq 0 4]
        (run demoPlatform quiet ([0, 1].map Op.ctor) State.boot)).owner = some 1
    ∧ (run demoPlatform quiet
        [.format 1 16 3, .transfer 0 reqA, .transfer 1 reqB, .frequency 1 2000000, .irq 0 4]
        (run demoPlatform quiet ([0, 1].map Op.ctor) State.boot)).hw.bits = 16
    ∧ (run demoPlatform quiet
        [.format 1 16 3, .transfer 0 reqA, .transfer 1 reqB, .frequency 1 2000000, .irq 0 4]
        (run demoPlatform quiet ([0, 1].map Op.ctor) State.boot)).hw.bits
        = ((run demoPlatform quiet
        [.format 1 16 3, .transfer 0 reqA, .transfer 1 reqB, .frequency 1 2000000, .irq 0 4]
        (run demoPlatform quiet ([0, 1].map Op.ctor) State.boot)).obj 1).bits :=
  have w := C11_owner_registers demoPlatform [0, 1]
    [.format 1 16 3, .transfer 0 reqA, .transfer 1 reqB, .frequency 1 2000000, .irq 0 4]
    State.boot rfl (by decide) (by decide) 1 (by decide)
  ⟨rfl, by decide, by decide, by decide, w.1⟩

theorem format_eq (h : Handle) (bits mode : Int) (s : State) :
    format h bits mode s =
      { s with
          obj := Function.update s.obj h { s.obj h with bits := bits, mode := mode }
          owner := some h
          hw := { s.hw with bits := bits, mode := mode, slave := 0, hz := (s.obj h).hz }
          trace := s.trace ++
            [⟨.mutex_lock, s.hw.active, s.depth, s.crit⟩,
             ⟨.mutex_lock, s.hw.active, s.depth + 1, s.crit⟩,
             ⟨.spi_format h bits mode 0, s.hw.active, s.depth + 2, s.crit⟩,
             ⟨.spi_frequency h (s.obj h).hz, s.hw.active, s.depth + 2, s.crit⟩,
             ⟨.mutex_unlock, s.hw.active, s.depth + 2, s.crit⟩,
             ⟨.mutex_unlock, s.hw.active, s.depth + 1, s.crit⟩] } := by
  simp [format, aquire_eq, lock, unlock, emit, setObj]

theorem frequency_eq (h : Handle) (hz : Int) (s : State) :
    frequency h hz s =
      { s with
          obj := Function.update s.obj h { s.obj h with hz := hz }
          owner := some h
          hw := { s.hw with bits := (s.obj h).bits, mode := (s.obj h).mode, slave := 0, hz := hz }
          trace := s.trace ++
            [⟨.mutex_lock, s.hw.active, s.depth, s.crit⟩,
             ⟨.mutex_lock, s.hw.active, s.depth + 1, s.crit⟩,
             ⟨.spi_format h (s.obj h).bits (s.obj h).mode 0, s.hw.active, s.depth + 2, s.crit⟩,
             ⟨.spi_frequency h hz, s.hw.active, s.depth + 2, s.crit⟩,
             ⟨.mutex_unlock, s.hw.active, s.depth + 2, s.crit⟩,
             ⟨.mutex_unlock, s.hw.active, s.depth + 1, s.crit⟩] } := by
  simp [frequency, aquire_eq, lock, unlock, emit, setObj]

/-- C12: `format(bits, mode)` on `h` sets the bits and mode of `h` and keeps its
hz; `frequency(hz)` sets the hz of `h` and keeps its bits and mode; no other
handle is changed. Whatever the recorded owner was (nobody, another handle, or
`h` itself) and whether or not the values are new, each call issues `spi_format`
and then `spi_frequency` with the updated configuration of `h`, inside the gate,
and leaves `h` as owner with the registers holding that configuration: the owner
reset in the call makes the `aquire` that follows reprogram the hardware. -/
theorem C12_format_frequency (h : Handle) (bits mode hz : Int) (s : State) :
    (((format h bits mode s).obj h).bits = bits
      ∧ ((format h bits mode s).obj h).mode = mode
      ∧ ((format h bits mode s).obj h).hz = (s.obj h).hz
      ∧ (∀ k, k ≠ h → (format h bits mode s).obj k = s.obj k)
      ∧ since s (format h bits mode s) =
          [⟨.mutex_lock, s.hw.active, s.depth, s.crit⟩,
           ⟨.mutex_lock, s.hw.active, s.depth + 1, s.crit⟩,
           ⟨.spi_format h bits mode 0, s.hw.active, s.depth + 2, s.crit⟩,
           ⟨.spi_frequency h (s.obj h).hz, s.hw.active, s.depth + 2, s.crit⟩,
           ⟨.mutex_unlock, s.hw.active, s.depth + 2, s.crit⟩,
           ⟨.mutex_unlock, s.hw.active, s.depth + 1, s.crit⟩]
      ∧ (format h bits mode s).owner = some h
      ∧ (format h bits mode s).hw.bits = bits
      ∧ (format h bits mode s).hw.mode = mode
      ∧ (format h bits mode s).hw.hz = (s.obj h).hz)
    ∧ (((frequency h hz s).obj h).hz = hz
      ∧ ((frequency h hz s).obj h).bits = (s.obj h).bits
      ∧ ((frequency h hz s).obj h).mode = (s.obj h).mode
      ∧ (∀ k, k ≠ h → (frequency h hz s).obj k = s.obj k)
      ∧ since s (frequency h hz s) =
          [⟨.mutex_lock, s.hw.active, s.depth, s.crit⟩,
           ⟨.mutex_lock, s.hw.active, s.depth + 1, s.crit⟩,
           ⟨.spi_format h (s.obj h).bits (s.obj h).mode 0, s.hw.active, s.depth + 2, s.crit⟩,
           ⟨.spi_frequency h hz, s.hw.active, s.depth + 2, s.crit⟩,
           ⟨.mutex_unlock, s.hw.active, s.depth + 2, s.crit⟩,
           ⟨.mutex_unlock, s.hw.active, s.depth + 1, s.crit⟩]
      ∧ (frequency h hz s).owner = some h
      ∧ (frequency h hz s).hw.bits = (s.obj h).bits
      ∧ (frequency h hz s).hw.mode = (s.obj h).mode
      ∧ (frequency h hz s).hw.hz = hz) := by
  constructor
  · refine ⟨?_, ?_, ?_, ?_, ?_, ?_, ?_, ?_, ?_⟩
    · simp [format_eq]
    · simp [format_eq]
    · simp [format_eq]
    · intro k hk
      simp [format_eq, Function.update, hk]
    · exact since_of_append (by rw [format_eq])
    · rw [format_eq]
    · rw [format_eq]
    · rw [format_eq]
    · rw [format_eq]
  · refine ⟨?_, ?_, ?_, ?_, ?_, ?_, ?_, ?_, ?_⟩
    · simp [frequency_eq]
    · simp [frequency_eq]
    · simp [frequency_eq]
    · intro k hk
      simp [frequency_eq, Function.update, hk]
    · exact since_of_append (by rw [frequency_eq])
    · rw [frequency_eq]
    · rw [frequency_eq]
    · rw [frequency_eq]
    · rw [frequency_eq]

/-- C13: calling `format(bits, mode)` twice in succession on `h` gives the same
handle configurations, recorded owner, hardware registers, queue and nesting
depths as calling it once, and the second call issues the same calls as the
first: it takes the gate, reprograms format and clock (the owner reset makes
`aquire` reprogram although `h` was the owner), and releases the gate. -/
theorem C13_format_idempotent (h : Handle) (bits mode : Int) (s : State) :
    (format h bits mode (format h bits mode s)).obj = (format h bits mode s).obj
    ∧ (format h bits mode (format h bits mode s)).owner = (format h bits mode s).owner
    ∧ (format h bits mode (format h bits mode s)).hw = (format h bits mode s).hw
    ∧ (format h bits mode (format h bits mode s)).queue = (format h bits mode s).queue
    ∧ (format h bits mode (format h bits mode s)).depth = (format h bits mode s).depth
    ∧ (format h bits mode (format h bits mode s)).crit = (format h bits mode s).crit
    ∧ since (format h bits mode s) (format h bits mode (format h bits mode s))
        = since s (format h bits mode s)
    ∧ calls (since (format h bits mode s) (format h bits mode (format h bits mode s)))
        = [.mutex_lock, .mutex_lock, .spi_format h bits mode 0,
           .spi_frequency h (s.obj h).hz, .mutex_unlock, .mutex_unlock] := by
  have h1 : since s (format h bits mode s) =
      [⟨.mutex_lock, s.hw.active, s.depth, s.crit⟩,
       ⟨.mutex_lock, s.hw.active, s.depth + 1, s.crit⟩,
       ⟨.spi_format h bits mode 0, s.hw.active, s.depth + 2, s.crit⟩,
       ⟨.spi_frequency h (s.obj h).hz, s.hw.active, s.depth + 2, s.crit⟩,
       ⟨.mutex_unlock, s.hw.active, s.depth + 2, s.crit⟩,
       ⟨.mutex_unlock, s.hw.active, s.depth + 1, s.crit⟩] :=
    since_of_append (by rw [format_eq])
  have h2 : since (format h bits mode s) (format h bits mode (format h bits mode s)) =
      [⟨.mutex_lock, s.hw.active, s.depth, s.crit⟩,
       ⟨.mutex_lock, s.hw.active, s.depth + 1, s.crit⟩,
       ⟨.spi_format h bits mode 0, s.hw.active, s.depth + 2, s.crit⟩,
       ⟨.spi_frequency h (s.obj h).hz, s.hw.active, s.depth + 2, s.crit⟩,
       ⟨.mutex_unlock, s.hw.active, s.depth + 2, s.crit⟩,
       ⟨.mutex_unlock, s.hw.active, s.depth + 1, s.crit⟩] := by
    apply since_of_append
    rw [format_eq h bits mode (format h bits mode s)]
    simp [format_eq]
  rw [h2, h1]
  refine ⟨?_, ?_, ?_, ?_, ?_, ?_, rfl, rfl⟩
  · simp [format_eq]
  · simp [format_eq]
  · simp [format_eq]
  · simp [format_eq]
  · simp [format_eq]
  · simp [format_eq]

theorem write_eq (P : Platform) (h : Handle) (value : Int) (s : State) :
    write P h value s =
      ((spi_master_write P h value (aquire h (lock s))).1,
        unlock (spi_master_write P h value (aquire h (lock s))).2) := rfl

theorem writes_aquireEvents (h : Handle) (s : State) :
    (calls (aquireEvents h s)).filter Call.isWrite = [] := by
  unfold aquireEvents
  split <;> rfl

theorem needsGate_aquireEvents (h : Handle) (s : State) :
    (calls (aquireEvents h s)).filter Call.needsGate =
      if s.owner = some h then []
      else [.spi_format h (s.obj h).bits (s.obj h).mode 0, .spi_frequency h (s.obj h).hz] := by
  unfold aquireEvents
  split <;> rfl

theorem locks_append (a b : List Event) : locks (a ++ b) = locks a ++ locks b := by
  simp [locks]

theorem unlocks_append (a b : List Event) : unlocks (a ++ b) = unlocks a ++ unlocks b := by
  simp [unlocks]

theorem locks_aquireEvents (h : Handle) (s : State) : locks (aquireEvents h s) = [.mutex_lock] := by
  unfold aquireEvents
  split <;> simp [locks]

theorem unlocks_aquireEvents (h : Handle) (s : State) :
    unlocks (aquireEvents h s) = [.mutex_unlock] := by
  unfold aquireEvents
  split <;> simp [unlocks]

theorem dequeueEvents_nil (s : State) (hq : s.queue = []) : dequeueEvents s = [] := by
  simp [dequeueEvents, hq]

theorem dequeueEvents_cons (s : State) (t : Transaction) (rest : List Transaction)
    (hq : s.queue = t :: rest) :
    dequeueEvents s =
      [⟨.pop t, s.hw.active, s.depth, s.crit⟩] ++ aquireEvents t.obj s
        ++ [⟨startCall t (s.obj t.obj).usage, s.hw.active, s.depth, s.crit⟩] := by
  simp [dequeueEvents, hq]

theorem locks_dequeueEvents (s : State) :
    locks (dequeueEvents s) = if s.queue = [] then [] else [.mutex_lock] := by
  cases hq : s.queue with
  | nil => simp [dequeueEvents_nil s hq, locks]
  | cons t rest =>
    rw [dequeueEvents_cons s t rest hq, locks_append, locks_append, locks_aquireEvents]
    simp [locks, startCall]

theorem unlocks_dequeueEvents (s : State) :
    unlocks (dequeueEvents s) = if s.queue = [] then [] else [.mutex_unlock] := by
  cases hq : s.queue with
  | nil => simp [dequeueEvents_nil s hq, unlocks]
  | cons t rest =>
    rw [dequeueEvents_cons s t rest hq, unlocks_append, unlocks_append, unlocks_aquireEvents]
    simp [unlocks, startCall]

theorem aquireEvents_context (h : Handle) (s : State) :
    ∀ ev ∈ aquireEvents h s, ev.crit = s.crit ∧ s.depth ≤ ev.depth ∧ ev.busy = s.hw.active
      ∧ (ev.call = .mutex_unlock → s.depth < ev.depth)
      ∧ (ev.call.needsGate = true → 0 < ev.depth)
      ∧ (ev.call = .mutex_lock → ev.depth = s.depth) := by
  intro ev hev
  unfold aquireEvents at hev
  split at hev
  · simp only [List.mem_cons, List.mem_singleton, List.not_mem_nil, or_false] at hev
    rcases hev with hev | hev <;> subst hev <;> simp [Call.needsGate]
  · simp only [List.mem_cons, List.mem_singleton, List.not_mem_nil, or_false] at hev
    rcases hev with hev | hev | hev | hev <;> subst hev <;> simp [Call.needsGate]

theorem dequeueEvents_context (s : State) :
    ∀ ev ∈ dequeueEvents s, ev.crit = s.crit ∧ s.depth ≤ ev.depth
      ∧ (ev.call = .mutex_unlock → s.depth < ev.depth)
      ∧ (ev.call.needsGate = true → 0 < ev.depth)
      ∧ (ev.call = .mutex_lock → ev.depth = s.depth) := by
  intro ev hev
  cases hq : s.queue with
  | nil => simp [dequeueEvents_nil s hq] at hev
  | cons t rest =>
    rw [dequeueEvents_cons s t rest hq] at hev
    simp only [List.mem_append, List.mem_singleton] at hev
    rcases hev with (hev | hev) | hev
    · subst hev; simp [Call.needsGate]
    · obtain ⟨h1, h2, _, h4, h5, h6⟩ := aquireEvents_context t.obj s ev hev
      exact ⟨h1, h2, h4, h5, h6⟩
    · subst hev; simp [Call.needsGate, startCall]

theorem dequeue_transaction_depth (h : Handle) (s : State) :
    (dequeue_transaction h s).depth = s.depth := by
  cases hq : s.queue with
  | nil => rw [dequeue_transaction_nil h s hq]
  | cons t rest =>
    rw [dequeue_transaction_cons h s t rest hq]
    simp [start_transfer_eq]

theorem dequeue_transaction_crit (h : Handle) (s : State) :
    (dequeue_transaction h s).crit = s.crit := by
  cases hq : s.queue with
  | nil => rw [dequeue_transaction_nil h s hq]
  | cons t rest =>
    rw [dequeue_transaction_cons h s t rest hq]
    simp [start_transfer_eq]

theorem queue_transfer_idle (P : Platform) (h : Handle) (tx_buffer : Nat) (tx_length : Int)
    (rx_buffer : Nat) (rx_length : Int) (bit_width : Nat) (callback : event_callback_t)
    (event : Int) (s : State) (hidle : s.hw.active = false)
    (hroom : CircularBuffer.full P s.queue = false) :
    queue_transfer P h tx_buffer tx_length rx_buffer rx_length bit_width callback event s =
      (0, core_util_critical_section_exit (dequeue_transaction h
        (enqueued h ⟨tx_buffer, tx_length, rx_buffer, rx_length, event, callback, bit_width⟩ s))) := by
  have hc : P.TRANSACTION_QUEUE_SIZE_SPI ≠ 0 := by
    intro h0
    simp [CircularBuffer.full, h0] at hroom
  simp [queue_transfer, hc, hroom, core_util_critical_section_enter, emit, spi_active, hidle,
    CircularBuffer.push, enqueued]

theorem queue_transfer_idle_since (P : Platform) (h : Handle) (tx_buffer : Nat) (tx_length : Int)
    (rx_buffer : Nat) (rx_length : Int) (bit_width : Nat) (callback : event_callback_t)
    (event : Int) (s : State) (hidle : s.hw.active = false)
    (hroom : CircularBuffer.full P s.queue = false) :
    since s (queue_transfer P h tx_buffer tx_length rx_buffer rx_length bit_width callback
        event s).2 =
      [⟨.core_util_critical_section_enter, false, s.depth, s.crit⟩,
       ⟨.push ⟨h, ⟨tx_buffer, tx_length, rx_buffer, rx_length, event, callback, bit_width⟩⟩,
          false, s.depth, s.crit + 1⟩]
      ++ dequeueEvents
          (enqueued h ⟨tx_buffer, tx_length, rx_buffer, rx_length, event, callback, bit_width⟩ s)
      ++ [⟨.core_util_critical_section_exit, true, s.depth, s.crit + 1⟩] := by
  apply since_of_append
  rw [queue_transfer_idle _ _ _ _ _ _ _ _ _ _ hidle hroom]
  simp only [core_util_critical_section_exit, emit, dequeue_transaction_trace,
    dequeue_transaction_depth, dequeue_transaction_crit, dequeue_transaction_active]
  simp [enqueued, hidle]

/-- C15, as the spec words it, fails: the completion handler of handle 0, run
with request B queued, acquires the gate while it drains; and `queue_transfer`
on an idle bus acquires the gate between the enter and the exit of its critical
section. -/
theorem C15_gate_in_drain_counterexample :
    locks (since demoQueued (irq_handler_asynch demoPlatform quiet 0 4 demoQueued))
        = [.mutex_lock]
    ∧ (since (MbedSPI.ctor 0 State.boot)
        (queue_transfer demoPlatform 0 100 4 200 4 8 (some 7) 4 (MbedSPI.ctor 0 State.boot)).2).any
          (fun ev => decide (ev.call = .mutex_lock) && decide (0 < ev.crit)) = true := by
  decide

theorem afterCallback_quiet_locks (P : Platform) (h : Handle) (e : Nat) (s : State) :
    ∃ d, (afterCallback P quiet h e s).trace = s.trace ++ d ∧ locks d = [] ∧ unlocks d = [] := by
  unfold afterCallback
  cases (s.obj h).callback with
  | none => exact ⟨_, rfl, by simp [locks], by simp [unlocks]⟩
  | some c =>
    by_cases ha : e &&& P.SPI_EVENT_ALL = 0
    · simp only [ha, ne_eq, not_true_eq_false, if_false]
      exact ⟨_, rfl, by simp [locks], by simp [unlocks]⟩
    · simp only [ha, ne_eq, not_false_eq_true, if_true, quiet]
      exact ⟨_, rfl, by simp [locks], by simp [unlocks]⟩

/-- C15, amended: the push itself never takes the gate, but every drain that
pops a request does, once, through `start_transfer` and `aquire`.
In `queue_transfer` the gate is acquired exactly when the request is accepted
with the bus idle at the moment of enqueue, and then inside the critical
section; with the bus active, or the queue full, it is not acquired. The
completion handler (callbacks do not call back into the driver) acquires the
gate exactly when the queue is compiled in, the mask is bus-free and a request
is pending; otherwise it does not touch the gate. -/
theorem C15_gate_only_in_drain (P : Platform) (h : Handle) (tx_buffer : Nat) (tx_length : Int)
    (rx_buffer : Nat) (rx_length : Int) (bit_width : Nat) (callback : event_callback_t)
    (event : Int) (e : Nat) (s : State) :
    (locks (since s (queue_transfer P h tx_buffer tx_length rx_buffer rx_length bit_width
        callback event s).2) =
      if CircularBuffer.full P s.queue = false ∧ spi_active h s = false then [.mutex_lock]
      else [])
    ∧ (∀ ev ∈ since s (queue_transfer P h tx_buffer tx_length rx_buffer rx_length bit_width
        callback event s).2, ev.call = .mutex_lock → ev.crit = s.crit + 1)
    ∧ (locks (since s (irq_handler_asynch P quiet h e s)) =
      if P.TRANSACTION_QUEUE_SIZE_SPI ≠ 0 ∧ busFree P e = true ∧ s.queue ≠ [] then [.mutex_lock]
      else []) := by
  refine ⟨?_, ?_, ?_⟩
  · cases hf : CircularBuffer.full P s.queue with
    | true =>
      rw [queue_transfer_full _ _ _ _ _ _ _ _ _ _ hf]
      simp [since, locks]
    | false =>
      cases ha : s.hw.active with
      | true =>
        rw [queue_transfer_busy _ _ _ _ _ _ _ _ _ _ ha hf]
        rw [since_of_append rfl]
        simp [locks, spi_active, ha]
      | false =>
        rw [queue_transfer_idle_since _ _ _ _ _ _ _ _ _ _ ha hf]
        rw [locks_append, locks_append, locks_dequeueEvents]
        simp [locks, spi_active, ha, enqueued]
  · cases hf : CircularBuffer.full P s.queue with
    | true =>
      rw [queue_transfer_full _ _ _ _ _ _ _ _ _ _ hf]
      simp [since]
    | false =>
      cases ha : s.hw.active with
      | true =>
        rw [queue_transfer_busy _ _ _ _ _ _ _ _ _ _ ha hf]
        rw [since_of_append rfl]
        simp
      | false =>
        rw [queue_transfer_idle_since _ _ _ _ _ _ _ _ _ _ ha hf]
        intro ev hev hcall
        simp only [List.mem_append, List.mem_cons, List.mem_singleton, List.not_mem_nil,
          or_false] at hev
        rcases hev with ((hev | hev) | hev) | hev
        · rw [hev] at hcall; cases hcall
        · rw [hev] at hcall; cases hcall
        · exact (dequeueEvents_context _ ev hev).1
        · rw [hev] at hcall; cases hcall
  · obtain ⟨d, hd, hlocksd, _⟩ := afterCallback_quiet_locks P h e s
    rw [irq_handler_asynch_eq]
    by_cases hc : P.TRANSACTION_QUEUE_SIZE_SPI ≠ 0 ∧ busFree P e = true
    · rw [if_pos hc]
      rw [since_of_append (d := d ++ dequeueEvents (afterCallback P quiet h e s))
        (by rw [dequeue_transaction_trace, hd, List.append_assoc])]
      rw [locks_append, hlocksd, locks_dequeueEvents, (afterCallback_quiet P h e s).2.1]
      by_cases hq : s.queue = []
      · simp [hq]
      · simp [hq, hc.1, hc.2]
    · rw [if_neg hc, since_of_append hd, hlocksd]
      have : ¬ (P.TRANSACTION_QUEUE_SIZE_SPI ≠ 0 ∧ busFree P e = true ∧ s.queue ≠ []) :=
        fun hx => hc ⟨hx.1, hx.2.1⟩
      rw [if_neg this]

/-- C16, the code at the failing input: handle 0 is transferring, request B of
handle 1 is queued, and the callback of handle 0 submits request C with
`transfer`. The completion handler runs the callback, which finds the bus idle
and starts C; the drain that follows pops B and issues a second hardware start
while the bus is active with C: two transfers are in flight. -/
theorem C16_reentrant_callback_double_start :
    demoQueued.queue = [⟨1, reqB⟩]
    ∧ (demoQueued.obj 0).callback = some 7
    ∧ starts (since demoQueued (irq_handler_asynch demoPlatform reenter 0 4 demoQueued))
        = [startCall ⟨0, reqC⟩ DMA_USAGE_NEVER, startCall ⟨1, reqB⟩ DMA_USAGE_NEVER]
    ∧ (since demoQueued (irq_handler_asynch demoPlatform reenter 0 4 demoQueued)).any
        (fun ev => decide (ev.call = startCall ⟨1, reqB⟩ DMA_USAGE_NEVER) && ev.busy) = true
    ∧ inFlight demoPlatform (busCount demoQueued.hw.active)
        (since demoQueued (irq_handler_asynch demoPlatform reenter 0 4 demoQueued)) = 2 := by
  decide

theorem enqueued_queue_ne (h : Handle) (t : transaction_t) (s : State) :
    (enqueued h t s).queue ≠ [] := by
  simp [enqueued]

theorem queue_transfer_idle_state (P : Platform) (h : Handle) (tx_buffer : Nat)
    (tx_length : Int) (rx_buffer : Nat) (rx_length : Int) (bit_width : Nat)
    (callback : event_callback_t) (event : Int) (s : State) (hidle : s.hw.active = false)
    (hroom : CircularBuffer.full P s.queue = false) (t : Transaction)
    (rest : List Transaction)
    (hq : s.queue ++ [⟨h, ⟨tx_buffer, tx_length, rx_buffer, rx_length, event, callback,
      bit_width⟩⟩] = t :: rest) :
    (queue_transfer P h tx_buffer tx_length rx_buffer rx_length bit_width callback event s).2 =
      { s with
          obj := Function.update s.obj t.obj
            { s.obj t.obj with callback := t.data.callback, irq := true }
          owner := some t.obj
          queue := rest
          hw := { (aquire t.obj s).hw with active := true }
          trace := s.trace ++
            ([⟨.core_util_critical_section_enter, false, s.depth, s.crit⟩,
              ⟨.push ⟨h, ⟨tx_buffer, tx_length, rx_buffer, rx_length, event, callback,
                bit_width⟩⟩, false, s.depth, s.crit + 1⟩]
            ++ dequeueEvents (enqueued h
                ⟨tx_buffer, tx_length, rx_buffer, rx_length, event, callback, bit_width⟩ s)
            ++ [⟨.core_util_critical_section_exit, true, s.depth, s.crit + 1⟩]) } := by
  have hq2 : (enqueued h ⟨tx_buffer, tx_length, rx_buffer, rx_length, event, callback,
      bit_width⟩ s).queue = t :: rest := hq
  rw [queue_transfer_idle _ _ _ _ _ _ _ _ _ _ hidle hroom,
    dequeue_transaction_cons h _ t rest hq2, dequeueEvents_cons _ t rest hq2]
  simp only [core_util_critical_section_exit, emit, start_transfer_eq]
  by_cases ho : s.owner = some t.obj
  · apply State.ext <;> simp [enqueued, aquire_eq, aquireEvents, hidle, startCall, ho]
  · apply State.ext <;> simp [enqueued, aquire_eq, aquireEvents, hidle, startCall, ho]

/-- C17: `queue_transfer` with room in the queue and the bus idle at the moment
of enqueue. It returns 0; between the enter and the exit of its critical
section it pushes the request and drains, so the oldest pending request (the
new one when the queue was empty) is popped and started, and the queue is as
long as before. When the queue was empty the call leaves every instance, the
owner, the queue, the hardware and the nesting depths exactly as
`start_transfer` with the same arguments does, and it issues the same hardware
calls. -/
theorem C17_queue_transfer_idle_drains (P : Platform) (h : Handle) (tx_buffer : Nat)
    (tx_length : Int) (rx_buffer : Nat) (rx_length : Int) (bit_width : Nat)
    (callback : event_callback_t) (event : Int) (s : State)
    (hroom : CircularBuffer.full P s.queue = false) (hidle : spi_active h s = false) :
    (queue_transfer P h tx_buffer tx_length rx_buffer rx_length bit_width callback event s).1 = 0
    ∧ (∃ (t : Transaction) (rest : List Transaction),
        s.queue ++ [⟨h, ⟨tx_buffer, tx_length, rx_buffer, rx_length, event, callback,
          bit_width⟩⟩] = t :: rest
        ∧ (queue_transfer P h tx_buffer tx_length rx_buffer rx_length bit_width callback
            event s).2.queue = rest
        ∧ since s (queue_transfer P h tx_buffer tx_length rx_buffer rx_length bit_width callback
            event s).2 =
            [⟨.core_util_critical_section_enter, false, s.depth, s.crit⟩,
             ⟨.push ⟨h, ⟨tx_buffer, tx_length, rx_buffer, rx_length, event, callback,
                bit_width⟩⟩, false, s.depth, s.crit + 1⟩,
             ⟨.pop t, false, s.depth, s.crit + 1⟩]
            ++ aquireEvents t.obj { s with crit := s.crit + 1 }
            ++ [⟨startCall t (s.obj t.obj).usage, false, s.depth, s.crit + 1⟩,
                ⟨.core_util_critical_section_exit, true, s.depth, s.crit + 1⟩]
        ∧ starts (since s (queue_transfer P h tx_buffer tx_length rx_buffer rx_length bit_width
            callback event s).2) = [startCall t (s.obj t.obj).usage])
    ∧ (queue_transfer P h tx_buffer tx_length rx_buffer rx_length bit_width callback
        event s).2.queue.length = s.queue.length
    ∧ (queue_transfer P h tx_buffer tx_length rx_buffer rx_length bit_width callback
        event s).2.crit = s.crit
    ∧ (s.queue = [] →
        starts (since s (queue_transfer P h tx_buffer tx_length rx_buffer rx_length bit_width
            callback event s).2)
          = [.spi_master_transfer h tx_buffer tx_length rx_buffer rx_length bit_width event
              (s.obj h).usage]
        ∧ (queue_transfer P h tx_buffer tx_length rx_buffer rx_length bit_width callback
            event s).2.queue = []
        ∧ (queue_transfer P h tx_buffer tx_length rx_buffer rx_length bit_width callback
            event s).2.obj
          = (start_transfer h tx_buffer tx_length rx_buffer rx_length bit_width callback
              event s).obj
        ∧ (queue_transfer P h tx_buffer tx_length rx_buffer rx_length bit_width callback
            event s).2.owner
          = (start_transfer h tx_buffer tx_length rx_buffer rx_length bit_width callback
              event s).owner
        ∧ (queue_transfer P h tx_buffer tx_length rx_buffer rx_length bit_width callback
            event s).2.queue
          = (start_transfer h tx_buffer tx_length rx_buffer rx_length bit_width callback
              event s).queue
        ∧ (queue_transfer P h tx_buffer tx_length rx_buffer rx_length bit_width callback
            event s).2.hw
          = (start_transfer h tx_buffer tx_length rx_buffer rx_length bit_width callback
              event s).hw
        ∧ (queue_transfer P h tx_buffer tx_length rx_buffer rx_length bit_width callback
            event s).2.depth
          = (start_transfer h tx_buffer tx_length rx_buffer rx_length bit_width callback
              event s).depth
        ∧ (queue_transfer P h tx_buffer tx_length rx_buffer rx_length bit_width callback
            event s).2.crit
          = (start_transfer h tx_buffer tx_length rx_buffer rx_length bit_width callback
              event s).crit
        ∧ (calls (since s (queue_transfer P h tx_buffer tx_length rx_buffer rx_length bit_width
            callback event s).2)).filter Call.isHal
          = (calls (since s (start_transfer h tx_buffer tx_length rx_buffer rx_length bit_width
              callback event s))).filter Call.isHal) := by
  have ha : s.hw.active = false := hidle
  have hex : ∃ (t : Transaction) (rest : List Transaction),
      s.queue ++ [⟨h, ⟨tx_buffer, tx_length, rx_buffer, rx_length, event, callback,
        bit_width⟩⟩] = t :: rest ∧ rest.length = s.queue.length := by
    cases s.queue with
    | nil => exact ⟨_, [], rfl, rfl⟩
    | cons t rest => exact ⟨t, _, List.cons_append _ _ _, by simp⟩
  obtain ⟨t, rest, hq, hlen⟩ := hex
  have hst := queue_transfer_idle_state P h tx_buffer tx_length rx_buffer rx_length bit_width
    callback event s ha hroom t rest hq
  have hq2 : (enqueued h ⟨tx_buffer, tx_length, rx_buffer, rx_length, event, callback,
      bit_width⟩ s).queue = t :: rest := hq
  have hsince : since s (queue_transfer P h tx_buffer tx_length rx_buffer rx_length bit_width
      callback event s).2 =
      [⟨.core_util_critical_section_enter, false, s.depth, s.crit⟩,
       ⟨.push ⟨h, ⟨tx_buffer, tx_length, rx_buffer, rx_length, event, callback,
          bit_width⟩⟩, false, s.depth, s.crit + 1⟩,
       ⟨.pop t, false, s.depth, s.crit + 1⟩]
      ++ aquireEvents t.obj { s with crit := s.crit + 1 }
      ++ [⟨startCall t (s.obj t.obj).usage, false, s.depth, s.crit + 1⟩,
          ⟨.core_util_critical_section_exit, true, s.depth, s.crit + 1⟩] := by
    apply since_of_append
    rw [hst, dequeueEvents_cons _ t rest hq2]
    simp [enqueued, ha, aquireEvents]
  have hstarts : starts (since s (queue_transfer P h tx_buffer tx_length rx_buffer rx_length
      bit_width callback event s).2) = [startCall t (s.obj t.obj).usage] := by
    rw [hsince]
    simp [Call.isStart, startCall]
  refine ⟨?_, ⟨t, rest, hq, ?_, hsince, hstarts⟩, ?_, ?_, ?_⟩
  · rw [queue_transfer_idle _ _ _ _ _ _ _ _ _ _ ha hroom]
  · rw [hst]
  · rw [hst]; exact hlen
  · rw [hst]
  · intro hnil
    rw [hnil] at hq
    simp only [List.nil_append, List.cons.injEq] at hq
    obtain ⟨ht, hrest⟩ := hq
    subst ht
    subst hrest
    refine ⟨?_, ?_, ?_, ?_, ?_, ?_, ?_, ?_, ?_⟩
    · rw [hstarts]; rfl
    · rw [hst]
    · simp [hst, start_transfer_eq]
    · simp [hst, start_transfer_eq]
    · simp [hst, start_transfer_eq, hnil]
    · simp [hst, start_transfer_eq]
    · simp [hst, start_transfer_eq]
    · simp [hst, start_transfer_eq]
    · rw [hsince, since_of_append (d := aquireEvents h s ++
        [⟨.spi_master_transfer h tx_buffer tx_length rx_buffer rx_length bit_width event
          (s.obj h).usage, s.hw.active, s.depth, s.crit⟩]) (by simp [start_transfer_eq])]
      unfold aquireEvents
      split <;> simp [Call.isHal, startCall]

/-- Witness of C17: `queue_transfer` on handle 0 right after its construction
(bus idle, queue empty). -/
theorem C17_queue_transfer_idle_drains_witness :
    (CircularBuffer.full demoPlatform (MbedSPI.ctor 0 State.boot).queue = false
      ∧ spi_active 0 (MbedSPI.ctor 0 State.boot) = false)
    ∧ (queue_transfer demoPlatform 0 100 4 200 4 8 (some 7) 4 (MbedSPI.ctor 0 State.boot)).1 = 0
    ∧ (queue_transfer demoPlatform 0 100 4 200 4 8 (some 7) 4
        (MbedSPI.ctor 0 State.boot)).2.queue.length = 0
    ∧ starts (since (MbedSPI.ctor 0 State.boot)
        (queue_transfer demoPlatform 0 100 4 200 4 8 (some 7) 4 (MbedSPI.ctor 0 State.boot)).2)
        = [.spi_master_transfer 0 100 4 200 4 8 4 DMA_USAGE_NEVER] :=
  have w := C17_queue_transfer_idle_drains demoPlatform 0 100 4 200 4 8 (some 7) 4
    (MbedSPI.ctor 0 State.boot) (by decide) (by decide)
  ⟨by decide, w.1, w.2.2.1, (w.2.2.2.2 (by decide)).1⟩

theorem GateOk_aquireEvents (h : Handle) (s : State) : GateOk s.depth (aquireEvents h s) := by
  refine ⟨by rw [locks_aquireEvents, unlocks_aquireEvents]; rfl, ?_, ?_, ?_⟩
  · intro ev hev
    exact (aquireEvents_context h s ev hev).2.1
  · intro ev hev
    exact (aquireEvents_context h s ev hev).2.2.2.1
  · intro ev hev
    exact (aquireEvents_context h s ev hev).2.2.2.2.1

theorem GateOk_explicit (n : Nat) (d : List Event)
    (h1 : (locks d).length = (unlocks d).length)
    (h2 : ∀ ev ∈ d, n ≤ ev.depth ∧ (ev.call = .mutex_unlock → n < ev.depth)
      ∧ (ev.call.needsGate = true → 0 < ev.depth)) : GateOk n d :=
  ⟨h1, fun ev hev => (h2 ev hev).1, fun ev hev => (h2 ev hev).2.1,
    fun ev hev => (h2 ev hev).2.2⟩

theorem write_since (P : Platform) (h : Handle) (value : Int) (s : State) :
    since s (write P h value s).2 =
      [⟨.mutex_lock, s.hw.active, s.depth, s.crit⟩] ++ aquireEvents h (lock s)
        ++ [⟨.spi_master_write h value, s.hw.active, s.depth + 1, s.crit⟩,
            ⟨.mutex_unlock, s.hw.active, s.depth + 1, s.crit⟩] := by
  apply since_of_append
  simp [write_eq, spi_master_write, unlock, emit, lock]

theorem critEnters_append (a b : List Event) :
    critEnters (a ++ b) = critEnters a ++ critEnters b := by
  simp [critEnters]

theorem critExits_append (a b : List Event) :
    critExits (a ++ b) = critExits a ++ critExits b := by
  simp [critExits]

theorem crit_dequeueEvents (s : State) :
    critEnters (dequeueEvents s) = [] ∧ critExits (dequeueEvents s) = [] := by
  cases hq : s.queue with
  | nil => simp [dequeueEvents_nil s hq, critEnters, critExits]
  | cons t rest =>
    rw [dequeueEvents_cons s t rest hq]
    unfold aquireEvents
    split <;> simp [critEnters, critExits, startCall]

/-- C18: the gate and the critical section are used in balanced pairs.
Each of `aquire`, `format`, `frequency`, `write` and `start_transfer` issues as
many `unlock` as `lock` calls, never issues an event below the nesting depth it
was entered with, issues every `unlock` above that depth, issues every
`spi_format`, `spi_frequency` and `spi_master_write` with the gate held, and
returns with the gate at its entry depth. In `format`, `frequency` and `write`
the arbitration takes the gate while it is already held (a `lock` at entry
depth + 1, so the gate must be recursive), and `format` and `frequency` program
the registers at entry depth + 2. `queue_transfer` issues as many
critical-section exits as enters on every path, none at all when the queue is
full, and returns with the critical-section nesting unchanged. -/
theorem C18_gate_discipline (P : Platform) (h : Handle) (bits mode hz value : Int)
    (tx_buffer : Nat) (tx_length : Int) (rx_buffer : Nat) (rx_length : Int) (bit_width : Nat)
    (callback : event_callback_t) (event : Int) (s : State) :
    (GateOk s.depth (since s (aquire h s)) ∧ (aquire h s).depth = s.depth)
    ∧ (GateOk s.depth (since s (format h bits mode s)) ∧ (format h bits mode s).depth = s.depth
        ∧ (∃ ev ∈ since s (format h bits mode s), ev.call = .mutex_lock ∧ ev.depth = s.depth + 1)
        ∧ (∀ ev ∈ since s (format h bits mode s),
            ev.call.needsGate = true → ev.depth = s.depth + 2))
    ∧ (GateOk s.depth (since s (frequency h hz s)) ∧ (frequency h hz s).depth = s.depth
        ∧ (∃ ev ∈ since s (frequency h hz s), ev.call = .mutex_lock ∧ ev.depth = s.depth + 1)
        ∧ (∀ ev ∈ since s (frequency h hz s),
            ev.call.needsGate = true → ev.depth = s.depth + 2))
    ∧ (GateOk s.depth (since s (write P h value s).2) ∧ (write P h value s).2.depth = s.depth
        ∧ (∃ ev ∈ since s (write P h value s).2,
            ev.call = .mutex_lock ∧ ev.depth = s.depth + 1))
    ∧ (GateOk s.depth (since s (start_transfer h tx_buffer tx_length rx_buffer rx_length
          bit_width callback event s))
        ∧ (start_transfer h tx_buffer tx_length rx_buffer rx_length bit_width callback
          event s).depth = s.depth)
    ∧ ((critEnters (since s (queue_transfer P h tx_buffer tx_length rx_buffer rx_length
          bit_width callback event s).2)).length
        = (critExits (since s (queue_transfer P h tx_buffer tx_length rx_buffer rx_length
          bit_width callback event s).2)).length
      ∧ (queue_transfer P h tx_buffer tx_length rx_buffer rx_length bit_width callback
          event s).2.crit = s.crit
      ∧ (CircularBuffer.full P s.queue = true →
          since s (queue_transfer P h tx_buffer tx_length rx_buffer rx_length bit_width
            callback event s).2 = [])) := by
  refine ⟨⟨?_, aquire_depth h s⟩, ⟨?_, ?_, ?_, ?_⟩, ⟨?_, ?_, ?_, ?_⟩, ⟨?_, ?_, ?_⟩, ⟨?_, ?_⟩,
    ⟨?_, ?_, ?_⟩⟩
  · rw [since_of_append (aquire_trace h s)]
    exact GateOk_aquireEvents h s
  · rw [since_of_append (by rw [format_eq])]
    apply GateOk_explicit
    · simp [locks, unlocks]
    · intro ev hev
      simp only [List.mem_cons, List.mem_singleton, List.not_mem_nil, or_false] at hev
      rcases hev with hev | hev | hev | hev | hev | hev <;> subst hev <;> simp [Call.needsGate]
  · rw [format_eq]
  · rw [since_of_append (by rw [format_eq])]
    exact ⟨⟨.mutex_lock, s.hw.active, s.depth + 1, s.crit⟩, by simp, rfl, rfl⟩
  · rw [since_of_append (by rw [format_eq])]
    intro ev hev
    simp only [List.mem_cons, List.mem_singleton, List.not_mem_nil, or_false] at hev
    rcases hev with hev | hev | hev | hev | hev | hev <;> subst hev <;> simp [Call.needsGate]
  · rw [since_of_append (by rw [frequency_eq])]
    apply GateOk_explicit
    · simp [locks, unlocks]
    · intro ev hev
      simp only [List.mem_cons, List.mem_singleton, List.not_mem_nil, or_false] at hev
      rcases hev with hev | hev | hev | hev | hev | hev <;> subst hev <;> simp [Call.needsGate]
  · rw [frequency_eq]
  · rw [since_of_append (by rw [frequency_eq])]
    exact ⟨⟨.mutex_lock, s.hw.active, s.depth + 1, s.crit⟩, by simp, rfl, rfl⟩
  · rw [since_of_append (by rw [frequency_eq])]
    intro ev hev
    simp only [List.mem_cons, List.mem_singleton, List.not_mem_nil, or_false] at hev
    rcases hev with hev | hev | hev | hev | hev | hev <;> subst hev <;> simp [Call.needsGate]
  · rw [write_since]
    apply GateOk_explicit
    · rw [locks_append, locks_append, unlocks_append, unlocks_append, locks_aquireEvents,
        unlocks_aquireEvents]
      simp [locks, unlocks]
    · intro ev hev
      simp only [List.mem_append, List.mem_cons, List.mem_singleton, List.not_mem_nil,
        or_false] at hev
      rcases hev with (hev | hev) | hev | hev
      · subst hev; simp [Call.needsGate]
      · obtain ⟨_, h2, _, h4, h5, _⟩ := aquireEvents_context h (lock s) ev hev
        have hd : (lock s).depth = s.depth + 1 := rfl
        rw [hd] at h2 h4
        exact ⟨by omega, fun hu => by have := h4 hu; omega, h5⟩
      · subst hev; simp [Call.needsGate]
      · subst hev; simp [Call.needsGate]
  · simp [write_eq, spi_master_write, unlock, emit, lock]
  · rw [write_since]
    have hl : ∃ ev ∈ aquireEvents h (lock s), ev.call = .mutex_lock ∧ ev.depth = s.depth + 1 := by
      unfold aquireEvents
      split
      · exact ⟨⟨.mutex_lock, (lock s).hw.active, (lock s).depth, (lock s).crit⟩,
          by simp, rfl, rfl⟩
      · exact ⟨⟨.mutex_lock, (lock s).hw.active, (lock s).depth, (lock s).crit⟩,
          by simp, rfl, rfl⟩
    obtain ⟨ev, hev, h1, h2⟩ := hl
    exact ⟨ev, by simp [hev], h1, h2⟩
  · rw [since_of_append (d := aquireEvents h s ++
        [⟨.spi_master_transfer h tx_buffer tx_length rx_buffer rx_length bit_width event
          (s.obj h).usage, s.hw.active, s.depth, s.crit⟩]) (by simp [start_transfer_eq])]
    apply GateOk_explicit
    · rw [locks_append, unlocks_append, locks_aquireEvents, unlocks_aquireEvents]
      simp [locks, unlocks]
    · intro ev hev
      simp only [List.mem_append, List.mem_singleton] at hev
      rcases hev with hev | hev
      · obtain ⟨_, h2, _, h4, h5, _⟩ := aquireEvents_context h s ev hev
        exact ⟨h2, h4, h5⟩
      · subst hev; simp [Call.needsGate]
  · simp [start_transfer_eq]
  · cases hf : CircularBuffer.full P s.queue with
    | true =>
      rw [queue_transfer_full _ _ _ _ _ _ _ _ _ _ hf]
      simp [since, critEnters, critExits]
    | false =>
      cases ha : s.hw.active with
      | true =>
        rw [queue_transfer_busy _ _ _ _ _ _ _ _ _ _ ha hf, since_of_append rfl]
        simp [critEnters, critExits]
      | false =>
        rw [queue_transfer_idle_since _ _ _ _ _ _ _ _ _ _ ha hf]
        rw [critEnters_append, critEnters_append, critExits_append, critExits_append,
          (crit_dequeueEvents _).1, (crit_dequeueEvents _).2]
        simp [critEnters, critExits]
  · cases hf : CircularBuffer.full P s.queue with
    | true => rw [queue_transfer_full _ _ _ _ _ _ _ _ _ _ hf]
    | false =>
      cases ha : s.hw.active with
      | true => rw [queue_transfer_busy _ _ _ _ _ _ _ _ _ _ ha hf]
      | false =>
        rw [queue_transfer_idle _ _ _ _ _ _ _ _ _ _ ha hf]
        simp [core_util_critical_section_exit, emit, dequeue_transaction_crit, enqueued]
  · intro hf
    rw [queue_transfer_full _ _ _ _ _ _ _ _ _ _ hf]
    simp [since]

end mbed

namespace utility

theorem h2int_lt (c : Nat) : h2int c < 16 := by
  unfold h2int
  split
  · omega
  · split
    · omega
    · split
      · omega
      · omega

theorem shift_or_eq (x y : Nat) :
    ((h2int x <<< 4) ||| h2int y) % 256 = escapeByte x y := by
  have hy : h2int y < 2 ^ 4 := h2int_lt y
  have h := Nat.mul_add_lt_is_or hy (h2int x)
  unfold escapeByte
  rw [Nat.shiftLeft_eq, Nat.mul_comm (h2int x) (2 ^ 4), ← h]

theorem urldecodeLoop_exit (url : Nat → Nat) (length fuel : Nat) (st : Scan)
    (hi : ¬ st.i < length) : urldecodeLoop url length (fuel + 1) st = some st := by
  simp [urldecodeLoop, hi]

theorem setsFrom_append (k : Nat) (a b : List Nat) :
    setsFrom k (a ++ b) = setsFrom k a ++ setsFrom (k + a.length) b := by
  induction a generalizing k with
  | nil => simp [setsFrom]
  | cons x a ih =>
    have e : k + 1 + a.length = k + (a.length + 1) := by omega
    simp [setsFrom, ih, e]

theorem overshoot_other (c : Nat) (rest : List Nat) (h : c ≠ 37) :
    overshoot (c :: rest) = overshoot rest := by
  cases rest with
  | nil => simp [overshoot, h]
  | cons x r => cases r <;> simp [overshoot, h]

theorem overshoot_esc (x y : Nat) (tl : List Nat) :
    overshoot (37 :: x :: y :: tl) = overshoot tl := by
  simp [overshoot]

theorem overshoot_esc1 (x : Nat) : overshoot [37, x] = 1 := by
  simp [overshoot]

theorem overshoot_esc0 : overshoot [37] = 2 := by
  simp [overshoot]

theorem specDecode_plus (rest : List Nat) : specDecode (43 :: rest) = 32 :: specDecode rest := by
  cases rest with
  | nil => simp [specDecode]
  | cons x r => cases r <;> simp [specDecode]

theorem specDecode_other (c : Nat) (rest : List Nat) (h43 : c ≠ 43) (h37 : c ≠ 37) :
    specDecode (c :: rest) = c :: specDecode rest := by
  cases rest with
  | nil => simp [specDecode, h43, h37]
  | cons x r => cases r <;> simp [specDecode, h43, h37]

theorem specDecode_esc (x y : Nat) (tl : List Nat) :
    specDecode (37 :: x :: y :: tl) = escapeByte x y :: specDecode tl := by
  simp [specDecode]

theorem specDecode_esc1 (x : Nat) : specDecode [37, x] = [37] := by
  simp [specDecode]

theorem specDecode_esc0 : specDecode [37] = [37] := by
  simp [specDecode]

theorem escapes_other (c : Nat) (rest : List Nat) (h : c ≠ 37) :
    escapes (c :: rest) = escapes rest := by
  cases rest with
  | nil => simp [escapes, h]
  | cons x r => cases r <;> simp [escapes, h]

theorem escapes_esc (x y : Nat) (tl : List Nat) :
    escapes (37 :: x :: y :: tl) = escapes tl + 1 := by
  simp [escapes]

theorem mod_small {a : Nat} (h : a < UINT_MOD) : a % UINT_MOD = a :=
  Nat.mod_eq_of_lt h

/-- The loop from offset `st.i`, where `rest` is what is left of the input. -/
theorem urldecodeLoop_spec (url : Nat → Nat) (length : Nat) (hmax : length + 2 < UINT_MOD) :
    ∀ (fuel : Nat) (rest : List Nat) (st : Scan),
      st.i + rest.length = length →
      (∀ k, k < rest.length → url (st.i + k) = rest.getD k 0) →
      st.resultLength ≤ st.i →
      rest.length < fuel →
      ∃ bytes, urldecodeLoop url length fuel st =
          some ⟨length + overshoot rest, st.resultLength + bytes.length,
            st.out ++ setsFrom st.resultLength bytes,
            st.reads ++ List.range' st.i (rest.length + overshoot rest)⟩
        ∧ bytes.length = (specDecode rest).length
        ∧ (overshoot rest = 0 → bytes = specDecode rest) := by
  intro fuel
  induction fuel with
  | zero => intro rest st _ _ _ hf; omega
  | succ fuel ih =>
    intro rest st hlen hurl hrl hf
    cases rest with
    | nil =>
      refine ⟨[], ?_, rfl, fun _ => rfl⟩
      have hi : ¬ st.i < length := by simp at hlen; omega
      rw [urldecodeLoop_exit url length fuel st hi]
      have : st.i = length := by simpa using hlen
      cases st
      simp_all [overshoot, setsFrom]
    | cons c rest =>
      have hlt : st.i < length := by simp only [List.length_cons] at hlen; omega
      have hc : url st.i = c := by simpa using hurl 0 (by simp)
      have hi1 : (st.i + 1) % UINT_MOD = st.i + 1 := mod_small (by omega)
      have hr1 : (st.resultLength + 1) % UINT_MOD = st.resultLength + 1 := mod_small (by omega)
      have hshift : ∀ k, k < rest.length → url (st.i + 1 + k) = rest.getD k 0 := by
        intro k hk
        have := hurl (k + 1) (by simp only [List.length_cons]; omega)
        simpa [Nat.add_assoc, Nat.add_comm 1 k] using this
      by_cases h43 : c = 43
      · -- a plus sign
        obtain ⟨bytes, hrun, hbl, hbs⟩ := ih rest
          ⟨st.i + 1, st.resultLength + 1, st.out ++ [.set st.resultLength 32],
            st.reads ++ [st.i]⟩
          (by simp only [List.length_cons] at hlen; simp only []; omega) hshift
          (by simp only []; omega) (by simp only [List.length_cons] at hf; omega)
        refine ⟨32 :: bytes, ?_, ?_, ?_⟩
        · rw [urldecodeLoop, if_pos hlt]
          simp only [hc, h43, if_true, hi1, hr1]
          rw [hrun]
          subst h43
          simp only [Option.some.injEq, Scan.mk.injEq, overshoot_other 43 rest (by decide),
            List.length_cons, setsFrom, List.append_assoc, List.singleton_append, true_and]
          refine ⟨by omega, ?_⟩
          rw [show rest.length + 1 + overshoot rest = (rest.length + overshoot rest) + 1 by omega,
            List.range'_succ]
        · subst h43
          simp [specDecode_plus, hbl]
        · intro hov
          subst h43
          have hov2 : overshoot rest = 0 := by
            rw [overshoot_other 43 rest (by decide)] at hov; exact hov
          simp [specDecode_plus, hbs hov2]
      · by_cases h37 : c = 37
        · -- an escape start
          have hi2 : (st.i + 1 + 1) % UINT_MOD = st.i + 2 := mod_small (by omega)
          have hi3 : (st.i + 2 + 1) % UINT_MOD = st.i + 3 := mod_small (by omega)
          have hbody : urldecodeLoop url length (fuel + 1) st =
              urldecodeLoop url length fuel
                ⟨st.i + 3, st.resultLength + 1,
                  st.out ++ [.set st.resultLength (escapeByte (url (st.i + 1)) (url (st.i + 2)))],
                  st.reads ++ [st.i, st.i + 1, st.i + 2]⟩ := by
            rw [urldecodeLoop, if_pos hlt]
            simp only [hc, h37, if_true, hi1, hr1, hi2, hi3, shift_or_eq]
            simp
          rw [hbody]
          cases rest with
          | nil =>
            have hfuel : ∃ f, fuel = f + 1 := ⟨fuel - 1, by simp at hf; omega⟩
            obtain ⟨f, hfeq⟩ := hfuel
            subst hfeq
            refine ⟨[escapeByte (url (st.i + 1)) (url (st.i + 2))], ?_, ?_, ?_⟩
            · rw [urldecodeLoop_exit _ _ _ _ (by simp at hlen ⊢; omega)]
              have hl : length = st.i + 1 := by simpa using hlen.symm
              subst h37
              simp [overshoot_esc0, setsFrom, hl, List.range'_succ]
            · subst h37
              simp [specDecode_esc0]
            · intro hov
              subst h37
              simp [overshoot_esc0] at hov
          | cons x rest =>
            cases rest with
            | nil =>
              have hfuel : ∃ f, fuel = f + 1 := ⟨fuel - 1, by simp at hf; omega⟩
              obtain ⟨f, hfeq⟩ := hfuel
              subst hfeq
              refine ⟨[escapeByte (url (st.i + 1)) (url (st.i + 2))], ?_, ?_, ?_⟩
              · rw [urldecodeLoop_exit _ _ _ _ (by simp at hlen ⊢; omega)]
                have hl : length = st.i + 2 := by simpa using hlen.symm
                subst h37
                simp [overshoot_esc1, setsFrom, hl, List.range'_succ]
              · subst h37
                simp [specDecode_esc1]
              · intro hov
                subst h37
                simp [overshoot_esc1] at hov
            | cons y tl =>
              have hx : url (st.i + 1) = x := by simpa using hurl 1 (by simp)
              have hy : url (st.i + 2) = y := by simpa using hurl 2 (by simp)
              have hshift3 : ∀ k, k < tl.length → url (st.i + 3 + k) = tl.getD k 0 := by
                intro k hk
                have := hurl (k + 3) (by simp only [List.length_cons]; omega)
                simpa [Nat.add_assoc, Nat.add_comm 3 k] using this
              obtain ⟨bytes, hrun, hbl, hbs⟩ := ih tl
                ⟨st.i + 3, st.resultLength + 1,
                  st.out ++ [.set st.resultLength (escapeByte (url (st.i + 1)) (url (st.i + 2)))],
                  st.reads ++ [st.i, st.i + 1, st.i + 2]⟩
                (by simp only [List.length_cons] at hlen; simp only []; omega) hshift3
                (by simp only []; omega) (by simp only [List.length_cons] at hf; omega)
              refine ⟨escapeByte x y :: bytes, ?_, ?_, ?_⟩
              · rw [hrun]
                subst h37
                simp only [Option.some.injEq, Scan.mk.injEq, overshoot_esc,
                  List.length_cons, setsFrom, List.append_assoc, List.singleton_append,
                  List.cons_append, List.nil_append, hx, hy, true_and]
                refine ⟨by omega, ?_⟩
                rw [show tl.length + 1 + 1 + 1 + overshoot tl
                    = (tl.length + overshoot tl) + 1 + 1 + 1 by omega,
                  List.range'_succ, List.range'_succ, List.range'_succ]
              · subst h37
                simp [specDecode_esc, hbl]
              · intro hov
                subst h37
                have hov2 : overshoot tl = 0 := by rw [overshoot_esc] at hov; exact hov
                simp [specDecode_esc, hbs hov2]
        · -- any other byte
          obtain ⟨bytes, hrun, hbl, hbs⟩ := ih rest
            ⟨st.i + 1, st.resultLength + 1, st.out ++ [.set st.resultLength c],
              st.reads ++ [st.i]⟩
            (by simp only [List.length_cons] at hlen; simp only []; omega) hshift
            (by simp only []; omega) (by simp only [List.length_cons] at hf; omega)
          refine ⟨c :: bytes, ?_, ?_, ?_⟩
          · rw [urldecodeLoop, if_pos hlt]
            simp only [hc, h43, h37, if_false, hi1, hr1]
            rw [hrun]
            simp only [Option.some.injEq, Scan.mk.injEq, overshoot_other c rest h37,
              List.length_cons, setsFrom, List.append_assoc, List.singleton_append, true_and]
            refine ⟨by omega, ?_⟩
            rw [show rest.length + 1 + overshoot rest = (rest.length + overshoot rest) + 1 by omega,
              List.range'_succ]
          · simp [specDecode_other c rest h43 h37, hbl]
          · intro hov
            have hov2 : overshoot rest = 0 := by
              rw [overshoot_other c rest h37] at hov; exact hov
            simp [specDecode_other c rest h43 h37, hbs hov2]

theorem input_length (url : Nat → Nat) (n : Nat) : (input url n).length = n := by
  simp [input]

theorem input_getD (url : Nat → Nat) (n k : Nat) (hk : k < n) :
    (input url n).getD k 0 = url k := by
  simp [input, List.getD_eq_getElem?_getD, hk]

theorem urldecode_zero (fuel : Nat) (url : Nat → Nat) :
    urldecode fuel url 0 = some ⟨0, [], []⟩ := by
  simp [urldecode]

theorem urldecode_spec (url : Nat → Nat) (n fuel : Nat) (hn : 0 < n)
    (hmax : n + 2 < UINT_MOD) (hfuel : n < fuel) :
    ∃ bytes, urldecode fuel url n =
        some ⟨bytes.length,
          .alloc (n + 1) :: setsFrom 0 bytes ++ [.set bytes.length 0, .setLength bytes.length],
          List.range (n + overshoot (input url n))⟩
      ∧ bytes.length = (specDecode (input url n)).length
      ∧ (overshoot (input url n) = 0 → bytes = specDecode (input url n)) := by
  obtain ⟨bytes, hrun, hbl, hbs⟩ := urldecodeLoop_spec url n hmax fuel (input url n)
    ⟨0, 0, [.alloc ((n + 1) % UINT_MOD)], []⟩
    (by simp [input_length]) (fun k hk => by
      rw [input_length] at hk
      simpa using (input_getD url n k hk).symm)
    (Nat.le_refl _) (by rw [input_length]; exact hfuel)
  refine ⟨bytes, ?_, hbl, hbs⟩
  have hne : n ≠ 0 := by omega
  have hal : (n + 1) % UINT_MOD = n + 1 := mod_small (by omega)
  rw [hal] at hrun
  simp only [urldecode, hne, if_false, hal, hrun, input_length]
  simp [List.range_eq_range']

theorem specDecode_nil : specDecode [] = [] := rfl

theorem escapes_nil : escapes [] = 0 := rfl

theorem specDecode_length_le : ∀ l : List Nat, (specDecode l).length ≤ l.length
  | [] => by simp [specDecode_nil]
  | [c] => by
    by_cases h43 : c = 43
    · subst h43; simp [specDecode_plus, specDecode_nil]
    · by_cases h37 : c = 37
      · subst h37; simp [specDecode_esc0]
      · simp [specDecode_other c [] h43 h37, specDecode_nil]
  | [c, x] => by
    have ih := specDecode_length_le [x]
    by_cases h43 : c = 43
    · subst h43; simpa [specDecode_plus] using ih
    · by_cases h37 : c = 37
      · subst h37; simp [specDecode_esc1]
      · simpa [specDecode_other c [x] h43 h37] using ih
  | c :: x :: y :: tl => by
    have ih1 := specDecode_length_le (x :: y :: tl)
    have ih2 := specDecode_length_le tl
    by_cases h43 : c = 43
    · subst h43; simpa [specDecode_plus] using ih1
    · by_cases h37 : c = 37
      · subst h37
        simp only [specDecode_esc, List.length_cons]
        omega
      · simpa [specDecode_other c _ h43 h37] using ih1

theorem specDecode_length_escapes :
    ∀ l : List Nat, overshoot l = 0 → (specDecode l).length + 2 * escapes l = l.length
  | [], _ => by simp [specDecode_nil, escapes_nil]
  | [c], h => by
    by_cases h37 : c = 37
    · subst h37; simp [overshoot_esc0] at h
    · by_cases h43 : c = 43
      · subst h43; simp [specDecode_plus, specDecode_nil, escapes_other 43 [] h37, escapes_nil]
      · simp [specDecode_other c [] h43 h37, specDecode_nil, escapes_other c [] h37, escapes_nil]
  | [c, x], h => by
    by_cases h37 : c = 37
    · subst h37; simp [overshoot_esc1] at h
    · have ih := specDecode_length_escapes [x] (by rw [overshoot_other c [x] h37] at h; exact h)
      by_cases h43 : c = 43
      · subst h43
        rw [specDecode_plus, escapes_other 43 [x] h37]
        simp only [List.length_cons] at ih ⊢
        omega
      · rw [specDecode_other c [x] h43 h37, escapes_other c [x] h37]
        simp only [List.length_cons] at ih ⊢
        omega
  | c :: x :: y :: tl, h => by
    by_cases h37 : c = 37
    · subst h37
      have ih := specDecode_length_escapes tl (by rw [overshoot_esc] at h; exact h)
      rw [specDecode_esc, escapes_esc]
      simp only [List.length_cons]
      omega
    · have ih := specDecode_length_escapes (x :: y :: tl)
        (by rw [overshoot_other c _ h37] at h; exact h)
      by_cases h43 : c = 43
      · subst h43
        rw [specDecode_plus, escapes_other 43 _ h37]
        simp only [List.length_cons] at ih ⊢
        omega
      · rw [specDecode_other c _ h43 h37, escapes_other c _ h37]
        simp only [List.length_cons] at ih ⊢
        omega

theorem specDecode_plain (l : List Nat) (h : ∀ c ∈ l, c ≠ 43 ∧ c ≠ 37) : specDecode l = l := by
  induction l with
  | nil => rfl
  | cons c rest ih =>
    have hc := h c (List.mem_cons_self _ _)
    rw [specDecode_other c rest hc.1 hc.2, ih (fun d hd => h d (List.mem_cons_of_mem _ hd))]

/-- C19: an input of `n > 0` bytes in which every `'%'` scanned as an escape
start has two bytes behind it inside the input (and `n + 2` fits an `unsigned`).
`urldecode` returns; it allocates `n + 1` bytes, writes the decoded bytes (each
`'+'` as a space, each `%XY` as the byte `16 * h2int X + h2int Y` modulo 256,
every other byte unchanged) at the indices 0, 1, 2, ..., writes a NUL behind
them, sets the length to their number and returns that number, which is `n`
minus twice the number of escapes; it reads exactly the offsets below `n`. An
input without `'+'` and `'%'` decodes to itself, with result `n`. For `n = 0`
it returns 0 and makes no call on the output buffer. -/
theorem C19_urldecode_decodes (url : Nat → Nat) (n fuel : Nat) (hn : 0 < n)
    (hmax : n + 2 < UINT_MOD) (hfuel : n < fuel) (hesc : overshoot (input url n) = 0) :
    urldecode fuel url n =
        some ⟨(specDecode (input url n)).length,
          .alloc (n + 1) :: setsFrom 0 (specDecode (input url n))
            ++ [.set (specDecode (input url n)).length 0,
                .setLength (specDecode (input url n)).length],
          List.range n⟩
    ∧ (specDecode (input url n)).length + 2 * escapes (input url n) = n
    ∧ ((∀ c ∈ input url n, c ≠ 43 ∧ c ≠ 37) →
        specDecode (input url n) = input url n ∧ (specDecode (input url n)).length = n)
    ∧ (∀ (f : Nat) (u : Nat → Nat), urldecode f u 0 = some ⟨0, [], []⟩) := by
  obtain ⟨bytes, hrun, _, hbs⟩ := urldecode_spec url n fuel hn hmax hfuel
  have hb := hbs hesc
  subst hb
  refine ⟨?_, ?_, ?_, urldecode_zero⟩
  · rw [hrun, hesc]
    rfl
  · have := specDecode_length_escapes (input url n) hesc
    rw [input_length] at this
    exact this
  · intro hplain
    have hid := specDecode_plain (input url n) hplain
    exact ⟨hid, by rw [hid, input_length]⟩

/-- Witness of C19: the six bytes `a+b%41` decode to `a b A`. -/
theorem C19_urldecode_decodes_witness :
    overshoot (input sampleUrl 6) = 0
    ∧ specDecode (input sampleUrl 6) = [97, 32, 98, 65]
    ∧ urldecode 7 sampleUrl 6 =
        some ⟨4, [.alloc 7, .set 0 97, .set 1 32, .set 2 98, .set 3 65, .set 4 0, .setLength 4],
          [0, 1, 2, 3, 4, 5]⟩
    ∧ (specDecode (input sampleUrl 6)).length + 2 * escapes (input sampleUrl 6) = 6 :=
  have w := C19_urldecode_decodes sampleUrl 6 7 (by decide) (by decide) (by decide) (by decide)
  ⟨by decide, by decide, w.1, w.2.1⟩

theorem overshoot_le : ∀ l : List Nat, overshoot l ≤ 2
  | [] => by simp [overshoot]
  | [c] => by
    by_cases h37 : c = 37
    · subst h37; simp [overshoot_esc0]
    · rw [overshoot_other c [] h37]; simp [overshoot]
  | [c, x] => by
    have ih := overshoot_le [x]
    by_cases h37 : c = 37
    · subst h37; simp [overshoot_esc1]
    · rw [overshoot_other c [x] h37]; exact ih
  | c :: x :: y :: tl => by
    have ih1 := overshoot_le (x :: y :: tl)
    have ih2 := overshoot_le tl
    by_cases h37 : c = 37
    · subst h37; rw [overshoot_esc]; exact ih2
    · rw [overshoot_other c _ h37]; exact ih1

/-- Where the escape that runs over the end starts: an overshoot of 2 comes from
a `'%'` in the last position, an overshoot of 1 from a `'%'` in the last but one. -/
theorem overshoot_position : ∀ l : List Nat,
    (overshoot l = 2 → 1 ≤ l.length ∧ l.getD (l.length - 1) 0 = 37)
    ∧ (overshoot l = 1 → 2 ≤ l.length ∧ l.getD (l.length - 2) 0 = 37)
  | [] => by simp [overshoot]
  | [c] => by
    by_cases h37 : c = 37
    · subst h37; simp [overshoot_esc0]
    · rw [overshoot_other c [] h37]; simp [overshoot]
  | [c, x] => by
    have ih := overshoot_position [x]
    by_cases h37 : c = 37
    · subst h37; simp [overshoot_esc1]
    · rw [overshoot_other c [x] h37]
      constructor
      · intro h; have := ih.1 h; simpa using this
      · intro h; have := ih.2 h; simp at this
  | c :: x :: y :: tl => by
    have ih1 := overshoot_position (x :: y :: tl)
    have ih2 := overshoot_position tl
    by_cases h37 : c = 37
    · subst h37
      rw [overshoot_esc]
      constructor
      · intro h
        obtain ⟨hl, hv⟩ := ih2.1 h
        refine ⟨by simp, ?_⟩
        have e : (37 :: x :: y :: tl).length - 1 = (tl.length - 1) + 1 + 1 + 1 := by
          simp only [List.length_cons]; omega
        rw [e, List.getD_cons_succ, List.getD_cons_succ, List.getD_cons_succ]
        exact hv
      · intro h
        obtain ⟨hl, hv⟩ := ih2.2 h
        refine ⟨by simp only [List.length_cons]; omega, ?_⟩
        have e : (37 :: x :: y :: tl).length - 2 = (tl.length - 2) + 1 + 1 + 1 := by
          simp only [List.length_cons]; omega
        rw [e, List.getD_cons_succ, List.getD_cons_succ, List.getD_cons_succ]
        exact hv
    · rw [overshoot_other c _ h37]
      constructor
      · intro h
        obtain ⟨hl, hv⟩ := ih1.1 h
        refine ⟨by simp, ?_⟩
        have e : (c :: x :: y :: tl).length - 1 = ((x :: y :: tl).length - 1) + 1 := by
          simp only [List.length_cons]; omega
        rw [e, List.getD_cons_succ]
        exact hv
      · intro h
        obtain ⟨hl, hv⟩ := ih1.2 h
        refine ⟨by simp only [List.length_cons]; omega, ?_⟩
        have e : (c :: x :: y :: tl).length - 2 = ((x :: y :: tl).length - 2) + 1 := by
          simp only [List.length_cons] at hl ⊢; omega
        rw [e, List.getD_cons_succ]
        exact hv

theorem writeIndices_append (a b : List BufCall) :
    writeIndices (a ++ b) = writeIndices a ++ writeIndices b := by
  induction a with
  | nil => rfl
  | cons c a ih => cases c <;> simp [writeIndices, ih]

theorem writeIndices_setsFrom (k : Nat) (bs : List Nat) :
    writeIndices (setsFrom k bs) = List.range' k bs.length := by
  induction bs generalizing k with
  | nil => rfl
  | cons b bs ih => simp [setsFrom, writeIndices, ih, List.range'_succ]

theorem writeIndices_out (m : Nat) (bytes : List Nat) :
    writeIndices (.alloc m :: setsFrom 0 bytes
      ++ [.set bytes.length 0, .setLength bytes.length])
      = List.range' 0 bytes.length ++ [bytes.length] := by
  show writeIndices (setsFrom 0 bytes ++ [.set bytes.length 0, .setLength bytes.length]) = _
  rw [writeIndices_append, writeIndices_setsFrom]
  rfl

/-- C20: an input of `n > 0` bytes (`n + 2` fits an `unsigned`). `urldecode`
returns (the loop terminates within `n + 1` evaluations of its condition). It
reads the offsets 0, 1, ..., up to `n - 1` plus the overshoot, so it reads only
offsets below `n` exactly when no `'%'` scanned as an escape start lies in the
last two positions; an input ending in such a `'%'` makes it read the offsets
`n` and `n + 1`, an input ending in such a `'%'` and one more byte makes it read
the offset `n`. In every case it allocates `n + 1` bytes and all its writes
go to indices of at most `n`. -/
theorem C20_urldecode_reads_writes (url : Nat → Nat) (n fuel : Nat) (hn : 0 < n)
    (hmax : n + 2 < UINT_MOD) (hfuel : n < fuel) :
    ∃ d, urldecode fuel url n = some d
      ∧ d.reads = List.range (n + overshoot (input url n))
      ∧ ((∀ r ∈ d.reads, r < n) ↔ overshoot (input url n) = 0)
      ∧ (overshoot (input url n) = 0 ∨ overshoot (input url n) = 1
          ∨ overshoot (input url n) = 2)
      ∧ (overshoot (input url n) = 2 →
          url (n - 1) = 37 ∧ n ∈ d.reads ∧ n + 1 ∈ d.reads)
      ∧ (overshoot (input url n) = 1 →
          2 ≤ n ∧ url (n - 2) = 37 ∧ n ∈ d.reads ∧ n + 1 ∉ d.reads)
      ∧ d.out.head? = some (.alloc (n + 1))
      ∧ (∀ k ∈ writeIndices d.out, k ≤ n)
      ∧ d.result ≤ n := by
  obtain ⟨bytes, hrun, hbl, _⟩ := urldecode_spec url n fuel hn hmax hfuel
  have hle : bytes.length ≤ n := by
    rw [hbl]
    have := specDecode_length_le (input url n)
    rw [input_length] at this
    exact this
  have hov := overshoot_le (input url n)
  have hpos := overshoot_position (input url n)
  rw [input_length] at hpos
  refine ⟨_, hrun, rfl, ?_, by omega, ?_, ?_, rfl, ?_, hle⟩
  · simp only [List.mem_range]
    constructor
    · intro h
      by_contra hne
      have := h n (by omega)
      omega
    · intro h r hr
      omega
  · intro h2
    obtain ⟨_, hv⟩ := hpos.1 h2
    rw [input_getD url n (n - 1) (by omega)] at hv
    simp only [List.mem_range]
    exact ⟨hv, by omega, by omega⟩
  · intro h1
    obtain ⟨hl, hv⟩ := hpos.2 h1
    rw [input_getD url n (n - 2) (by omega)] at hv
    simp only [List.mem_range]
    exact ⟨hl, hv, by omega, by omega⟩
  · intro k hk
    rw [writeIndices_out] at hk
    simp only [List.mem_append, List.mem_range'_1, List.mem_singleton] at hk
    rcases hk with hk | hk
    · omega
    · omega

/-- Witness of C20: the seven bytes `a+b%41%` end in an escape start, so the
offsets 7 and 8 behind the input are read; the writes stay within index 7. -/
theorem C20_urldecode_reads_writes_witness :
    overshoot (input sampleUrl 7) = 2
    ∧ urldecode 8 sampleUrl 7 =
        some ⟨5, [.alloc 8, .set 0 97, .set 1 32, .set 2 98, .set 3 65, .set 4 7, .set 5 0,
          .setLength 5], [0, 1, 2, 3, 4, 5, 6, 7, 8]⟩
    ∧ ∃ d, urldecode 8 sampleUrl 7 = some d
      ∧ d.reads = List.range (7 + overshoot (input sampleUrl 7))
      ∧ (∀ k ∈ writeIndices d.out, k ≤ 7) :=
  have w := C20_urldecode_reads_writes sampleUrl 7 8 (by decide) (by decide) (by decide)
  ⟨by decide, by decide, w.choose, w.choose_spec.1, w.choose_spec.2.1,
    w.choose_spec.2.2.2.2.2.2.2.1⟩

/-- C21: the value of `h2int` on every byte `c`. It is `c - '0'` for `'0'..'9'`
(48..57), `c - 'a' + 10` for `'a'..'f'` (97..102), `c - 'A' + 10` for `'A'..'F'`
(65..70) and 0 for every other byte. Hence it is always below 16, and an
upper-case hex digit and its lower-case form (32 further up) give the same
value. -/
theorem C21_h2int_value (c : Nat) :
    (48 ≤ c ∧ c ≤ 57 → h2int c = c - 48)
    ∧ (97 ≤ c ∧ c ≤ 102 → h2int c = c - 97 + 10)
    ∧ (65 ≤ c ∧ c ≤ 70 → h2int c = c - 65 + 10)
    ∧ (¬ (48 ≤ c ∧ c ≤ 57) ∧ ¬ (97 ≤ c ∧ c ≤ 102) ∧ ¬ (65 ≤ c ∧ c ≤ 70) → h2int c = 0)
    ∧ h2int c < 16
    ∧ (65 ≤ c ∧ c ≤ 70 → h2int (c + 32) = h2int c) := by
  refine ⟨?_, ?_, ?_, ?_, ?_, ?_⟩
  · intro h
    unfold h2int
    rw [if_pos h]
    omega
  · intro h
    unfold h2int
    rw [if_neg (by omega), if_pos h]
    omega
  · intro h
    unfold h2int
    rw [if_neg (by omega), if_neg (by omega), if_pos h]
    omega
  · intro h
    unfold h2int
    rw [if_neg h.1, if_neg h.2.1, if_neg h.2.2]
  · unfold h2int
    split
    · omega
    · split
      · omega
      · split
        · omega
        · omega
  · intro h
    have hu : h2int c = (c - 65 + 10) % 256 := by
      unfold h2int
      rw [if_neg (by omega), if_neg (by omega), if_pos h]
    have hl : h2int (c + 32) = (c + 32 - 97 + 10) % 256 := by
      unfold h2int
      rw [if_neg (by omega), if_pos (by omega)]
    rw [hu, hl]
    omega

/-- Witness of C21: the digits `'7'`, `'b'` and `'B'`, the letter `'g'` and a byte
above 127, with the byte values of the characters used by the ranges. -/
theorem C21_h2int_value_witness :
    ('0'.toNat = 48 ∧ '9'.toNat = 57 ∧ 'a'.toNat = 97 ∧ 'f'.toNat = 102
      ∧ 'A'.toNat = 65 ∧ 'F'.toNat = 70)
    ∧ h2int '7'.toNat = 7
    ∧ h2int 'b'.toNat = 11
    ∧ h2int 'B'.toNat = 11
    ∧ h2int 'g'.toNat = 0
    ∧ h2int 200 = 0
    ∧ h2int ('B'.toNat + 32) = h2int 'B'.toNat :=
  have w7 := C21_h2int_value '7'.toNat
  have wb := C21_h2int_value 'b'.toNat
  have wB := C21_h2int_value 'B'.toNat
  have wg := C21_h2int_value 'g'.toNat
  have wx := C21_h2int_value 200
  ⟨by decide, w7.1 (by decide), wb.2.1 (by decide), wB.2.2.1 (by decide),
    wg.2.2.2.1 (by decide), wx.2.2.2.1 (by decide), wB.2.2.2.2.2 (by decide)⟩

end utility
